import Mathlib

/-!
# The Kinetis I2C master transfer engine (`arch/arm/src/kinetis/kinetis_i2c.c`)

A shallow embedding of the driver's transfer engine: the clock set-up
`kinetis_i2c_setfrequency`, bus acquisition `kinetis_i2c_start`,
`kinetis_i2c_stop`, the watchdog callback `kinetis_i2c_timeout`, the chain
walker `kinetis_i2c_nextmsg`, the interrupt handler `kinetis_i2c_interrupt`
and the blocking coordinator `kinetis_i2c_transfer`.

Modelling decisions.

* The device record `kinetis_i2cdev_s` keeps the fields the engine uses.  The
  pointer `priv->msgs` is an index into the caller's message array, which is
  the field `mem` of the `World`; `uint16_t` cursors are naturals incremented
  modulo `2^16`, `unsigned int nmsg` is a natural whose decrement wraps at 0,
  `ssize_t length` is an integer, `int restart` is an integer tested against 0.
* A memory access outside the message array or outside a message buffer is
  undefined behaviour in C; here the function returns `none`.
* Hardware is reached through `getreg8`/`putreg8` only.  The control register
  C1 is a latch (a read returns the value last written).  The values the
  status register S and the data register D return are chosen by the
  environment: each interrupt carries the status value `s` the handler reads
  and the data value `d` a read of D would return; the values polled by the
  busy-wait loops of `kinetis_i2c_start` are the list `polls`, and a loop that
  exhausts the list never ends (`none`).
* Every register write, every read of D, every semaphore and watchdog
  operation and every buffer access is appended to `trace`, oldest first.
  Reads of S and C1 have no effect on the hardware and are not recorded.
* The coordinator blocks in `sem_wait(&priv->wait)`.  While it is blocked the
  environment delivers the events of the list `events` in order (an interrupt
  or a watchdog expiry), one handler invocation per event, until the semaphore
  count is positive; the coordinator then resumes before any other event is
  delivered.  When the list is exhausted while the coordinator is blocked it
  stays blocked (`none`).  The coordinator loop is unrolled with explicit
  fuel, one unit per iteration.
* A late interrupt, one that fires after the watchdog has signalled completion
  and before the coordinator runs, is the handler applied to the blocked
  state; `transfer_wake` is the rest of the call from inside the wait.
* Properties of the states the handler is invoked in are stated on runs of
  handler invocations alone: `enter_wait` is a loop iteration up to the point
  where the coordinator blocks, `deliver_all` the invocations for a list of
  events.
* One caller at a time, except on the exit path: `sem_wait(&priv->mutex)`
  never blocks and is only recorded.  The exit path reads `priv->state` after
  it has released the mutex; `transfer_exit_preempted` is the exit path with a
  second caller running in between.  The critical section of the watchdog
  callback is not modelled.  The handler is attached to the I2C0 interrupt
  only, so its `PANIC()` branch for another interrupt number is left out.
* The divider table that `BOARD_BUS_FREQ` selects in
  `kinetis_i2c_setfrequency` is a parameter (`Board`).
-/

namespace Kinetis

/-! ## Constants -/

def STATE_OK : Nat := 0
def STATE_ARBITRATION_ERROR : Nat := 1
def STATE_TIMEOUT : Nat := 2
def STATE_NAK : Nat := 3

/-- Modelled from the spec: `OK` of `errno.h`/`sys/types.h` is missing from the
sources; it is the success code 0. -/
def OK : Int := 0

/-- Modelled from the spec: `EIO` of `errno.h` is missing from the sources; the
spec calls `-EIO` the one generic I/O failure code.  Its value is the POSIX
number 5. -/
def EIO : Int := 5

/-- Modelled from the spec: the control register bit masks of
`chip/kinetis_i2c.h`, which is missing from the sources.  The spec names the
bits (master-enable, interrupt-enable, master-mode, repeated-start,
transmit-mode, no-ack); the positions are those of the Kinetis I2Cx_C1
register. -/
def I2C_C1_IICEN : Nat := 0x80
/-- Modelled from the spec: interrupt-enable bit of C1 (header missing). -/
def I2C_C1_IICIE : Nat := 0x40
/-- Modelled from the spec: master-mode bit of C1 (header missing). -/
def I2C_C1_MST : Nat := 0x20
/-- Modelled from the spec: transmit-mode bit of C1 (header missing). -/
def I2C_C1_TX : Nat := 0x10
/-- Modelled from the spec: no-ack bit of C1 (header missing). -/
def I2C_C1_TXAK : Nat := 0x08
/-- Modelled from the spec: repeated-start bit of C1 (header missing). -/
def I2C_C1_RSTA : Nat := 0x04

/-- Modelled from the spec: the status register bit masks of
`chip/kinetis_i2c.h` (header missing): bus-busy. -/
def I2C_S_BUSY : Nat := 0x20
/-- Modelled from the spec: arbitration-lost bit of S (header missing). -/
def I2C_S_ARBL : Nat := 0x10
/-- Modelled from the spec: interrupt-pending bit of S (header missing). -/
def I2C_S_IICIF : Nat := 0x02
/-- Modelled from the spec: receive-acknowledge bit of S (header missing); set
when the peer did not acknowledge. -/
def I2C_S_RXAK : Nat := 0x01

/-- Modelled from the spec: the message flags of `nuttx/i2c/i2c_master.h`
(header missing): the read direction flag. -/
def I2C_M_READ : Nat := 0x0001
/-- Modelled from the spec: the no-restart (merge-eligibility) flag of
`nuttx/i2c/i2c_master.h` (header missing). -/
def I2C_M_NORESTART : Nat := 0x0080

/-- Modelled from the spec: `I2C_READBIT` of `nuttx/i2c/i2c_master.h` (header
missing), the direction bit of a read address byte. -/
def I2C_READBIT : Nat := 0x01

/-- Modelled from the spec: `I2C_READADDR8` of `nuttx/i2c/i2c_master.h`
(header missing): 7 bits of target address plus the read direction bit. -/
def I2C_READADDR8 (a : Nat) : Nat := ((a &&& 0x7f) <<< 1) ||| I2C_READBIT

/-- Modelled from the spec: `I2C_WRITEADDR8` of `nuttx/i2c/i2c_master.h`
(header missing): 7 bits of target address, direction bit clear. -/
def I2C_WRITEADDR8 (a : Nat) : Nat := (a &&& 0x7f) <<< 1

/-! ## Data model -/

/-- The hardware registers the engine touches. -/
inductive Reg where
  | C1 | S | D | F | FLT
  deriving DecidableEq, Repr

/-- The two semaphores of the device record. -/
inductive Sem where
  | mutex | wait
  deriving DecidableEq, Repr

/-- Modelled from the spec: `struct i2c_msg_s` of `nuttx/i2c/i2c_master.h`
(header missing).  `buffer` is the caller's buffer, its list length the
capacity. -/
structure i2c_msg_s where
  frequency : Nat
  addr : Nat
  flags : Nat
  buffer : List Nat
  length : Int
  deriving DecidableEq, Repr

/-- The fields of `struct kinetis_i2cdev_s` the engine uses.  `wait` is the
count of the completion semaphore, `msgs` the index of the message in
progress in the caller's array. -/
structure kinetis_i2cdev_s where
  wait : Nat
  state : Nat
  frequency : Nat
  restart : Int
  msgs : Nat
  nmsg : Nat
  wrcnt : Nat
  rdcnt : Nat
  deriving DecidableEq, Repr

/-- What the engine does to its surroundings, in program order. -/
inductive Action where
  | putreg8 (v : Nat) (r : Reg)
  | getreg8_D (v : Nat)
  | sem_wait (s : Sem)
  | sem_post (s : Sem)
  | wd_start
  | wd_cancel
  | load (m i : Nat)
  | store (m i v : Nat)
  deriving DecidableEq, Repr

/-- What the environment does while the coordinator is blocked: a hardware
interrupt (the status value the handler reads, the value a read of the data
register returns) or the expiry of the watchdog. -/
inductive Event where
  | irq (s d : Nat)
  | wdog
  deriving DecidableEq, Repr

/-- The device record together with everything it points to. -/
structure World where
  priv : kinetis_i2cdev_s
  mem : List i2c_msg_s
  c1 : Nat
  polls : List Nat
  events : List Event
  trace : List Action
  deriving DecidableEq, Repr

/-- The clock table selected by `BOARD_BUS_FREQ`: every branch of the `#if`
chain of `kinetis_i2c_setfrequency` writes one value to `I2C0_F`, chosen by the
requested frequency, and then one fixed value to `I2C0_FLT`. -/
structure Board where
  F : Nat → Nat
  FLT : Nat

/-- The `BOARD_BUS_FREQ == 48000000` branch of the table. -/
def board48 : Board where
  F := fun frequency =>
    if frequency < 400000 then 0x27 else if frequency < 1000000 then 0x1A else 0x0D
  FLT := 4

/-! ## Register and semaphore primitives -/

def World.log (w : World) (a : Action) : World :=
  { w with trace := w.trace ++ [a] }

/-- A register write: logged; a write to C1 also latches the value. -/
def putreg8 (v : Nat) (r : Reg) (w : World) : World :=
  match r with
  | .C1 => { w with c1 := v, trace := w.trace ++ [Action.putreg8 v r] }
  | _ => { w with trace := w.trace ++ [Action.putreg8 v r] }

/-- A read of the data register, returning the value `d` the hardware holds. -/
def getreg8_D (d : Nat) (w : World) : World :=
  w.log (Action.getreg8_D d)

/-- The call `sem_post(&priv->wait)`. -/
def sem_post_wait (w : World) : World :=
  { w with priv := { w.priv with wait := w.priv.wait + 1 },
           trace := w.trace ++ [Action.sem_post Sem.wait] }

/-! ## The engine -/

/-- The function `kinetis_i2c_setfrequency`. -/
def kinetis_i2c_setfrequency (b : Board) (frequency : Nat) (w : World) : World :=
  if frequency = w.priv.frequency then w
  else
    let w1 := putreg8 (b.F frequency) Reg.F w
    let w2 := putreg8 b.FLT Reg.FLT w1
    { w2 with priv := { w2.priv with frequency := frequency } }

/-- The loop `while (getreg8(KINETIS_I2C0_S) & I2C_S_BUSY);`: polls until the
bus is free. -/
def wait_bus_free : List Nat → World → Option World
  | [], _ => none
  | s :: rest, w =>
    if s &&& I2C_S_BUSY ≠ 0 then wait_bus_free rest w
    else some { w with polls := rest }

/-- The loop `while (1) { if (getreg8(KINETIS_I2C0_S) & I2C_S_BUSY) break; }`:
polls until the start condition has taken the bus. -/
def wait_bus_busy : List Nat → World → Option World
  | [], _ => none
  | s :: rest, w =>
    if s &&& I2C_S_BUSY ≠ 0 then some { w with polls := rest }
    else wait_bus_busy rest w

/-- The function `kinetis_i2c_start`: START or repeated START, then the
address byte. -/
def kinetis_i2c_start (w : World) : Option (Int × World) :=
  (if w.c1 &&& I2C_C1_MST ≠ 0 then
      some (putreg8 (I2C_C1_IICEN ||| I2C_C1_IICIE ||| I2C_C1_MST ||| I2C_C1_RSTA |||
        I2C_C1_TX) Reg.C1 w)
    else
      (wait_bus_free w.polls w).map
        (putreg8 (I2C_C1_IICEN ||| I2C_C1_IICIE ||| I2C_C1_MST ||| I2C_C1_TX) Reg.C1)).bind
  fun w1 =>
  (w1.mem[w1.priv.msgs]?).bind fun msg =>
  (if I2C_M_READ &&& msg.flags ≠ 0 then wait_bus_busy w1.polls w1 else some w1).bind
  fun w2 =>
  some (OK, putreg8
    (if I2C_M_READ &&& msg.flags = I2C_M_READ then I2C_READADDR8 msg.addr
     else I2C_WRITEADDR8 msg.addr) Reg.D w2)

/-- The function `kinetis_i2c_stop`. -/
def kinetis_i2c_stop (w : World) : World :=
  sem_post_wait (putreg8 (I2C_C1_IICEN ||| I2C_C1_IICIE) Reg.C1 w)

/-- The watchdog callback `kinetis_i2c_timeout`. -/
def kinetis_i2c_timeout (w : World) : World :=
  sem_post_wait { w with priv := { w.priv with state := STATE_TIMEOUT } }

/-- The largest `unsigned int` of the 32-bit target. -/
def UINT_MAX : Nat := 4294967295

/-- The statement `priv->nmsg--` on an `unsigned int`: 0 wraps to `UINT_MAX`. -/
def decr_nmsg (n : Nat) : Nat := if n = 0 then UINT_MAX else n - 1

/-- The function `kinetis_i2c_nextmsg`. -/
def kinetis_i2c_nextmsg (w : World) : World :=
  let w1 := { w with priv := { w.priv with nmsg := decr_nmsg w.priv.nmsg } }
  if w1.priv.nmsg > 0 then
    let w2 := { w1 with priv := { w1.priv with msgs := w1.priv.msgs + 1, wrcnt := 0, rdcnt := 0 } }
    if w2.priv.restart ≠ 0 then sem_post_wait w2 else w2
  else
    kinetis_i2c_stop w1

/-- The read `buffer[i]` of message `m` of the caller's array. -/
def load_byte (m i : Nat) (w : World) : Option (Nat × World) :=
  (w.mem[m]?).bind fun msg =>
  (msg.buffer[i]?).map fun v => (v, w.log (Action.load m i))

/-- The write `buffer[i] = v` of message `m` of the caller's array. -/
def store_byte (m i v : Nat) (w : World) : Option World :=
  (w.mem[m]?).bind fun msg =>
  if i < msg.buffer.length then
    some { w with mem := w.mem.set m { msg with buffer := msg.buffer.set i v },
                  trace := w.trace ++ [Action.store m i v] }
  else none

/-- The statement `priv->wrcnt++` on a `uint16_t`. -/
def incr_wrcnt (w : World) : World :=
  { w with priv := { w.priv with wrcnt := (w.priv.wrcnt + 1) % 2 ^ 16 } }

/-- The statement `priv->rdcnt++` on a `uint16_t`. -/
def incr_rdcnt (w : World) : World :=
  { w with priv := { w.priv with rdcnt := (w.priv.rdcnt + 1) % 2 ^ 16 } }

/-- The transmit-mode branch of the handler for a write message whose last
byte was acknowledged (source lines 603-630). -/
def interrupt_tx_write (m : Nat) (msg : i2c_msg_s) (w : World) : Option World :=
  if (w.priv.wrcnt : Int) = msg.length then
    let w1 := kinetis_i2c_nextmsg w
    if w1.priv.restart = 0 then
      (load_byte w1.priv.msgs w1.priv.wrcnt w1).map fun (v, w2) =>
        sem_post_wait (incr_wrcnt (putreg8 v Reg.D w2))
    else some w1
  else
    (load_byte m w.priv.wrcnt w).map fun (v, w1) => incr_wrcnt (putreg8 v Reg.D w1)

/-- The transmit-mode branch of the handler for a read message: the address
was just acknowledged (source lines 634-652). -/
def interrupt_tx_read (d : Nat) (msg : i2c_msg_s) (w : World) : World :=
  let w1 :=
    if msg.length = 1 ∧ w.priv.restart ≠ 0 then
      putreg8 (I2C_C1_IICEN ||| I2C_C1_IICIE ||| I2C_C1_MST ||| I2C_C1_TXAK) Reg.C1 w
    else
      putreg8 (I2C_C1_IICEN ||| I2C_C1_IICIE ||| I2C_C1_MST) Reg.C1 w
  getreg8_D d w1

/-- The receive-mode branch of the handler (source lines 658-713). -/
def interrupt_rx (d : Nat) (m : Nat) (msg : i2c_msg_s) (w : World) : Option World :=
  if (w.priv.rdcnt : Int) = msg.length - 1 then
    (if w.priv.restart ≠ 0 then
        some (putreg8 (I2C_C1_IICEN ||| I2C_C1_IICIE ||| I2C_C1_MST ||| I2C_C1_TX) Reg.C1 w)
      else
        (w.mem[w.priv.msgs + 1]?).map fun next =>
          if next.length = 1 then
            putreg8 (I2C_C1_IICEN ||| I2C_C1_IICIE ||| I2C_C1_MST ||| I2C_C1_TXAK) Reg.C1 w
          else w).bind fun w1 =>
    (store_byte m w1.priv.rdcnt d (getreg8_D d w1)).map fun w2 =>
      kinetis_i2c_nextmsg (incr_rdcnt w2)
  else if (w.priv.rdcnt : Int) = msg.length - 2 then
    let w1 :=
      if w.priv.restart ≠ 0 then
        putreg8 (I2C_C1_IICEN ||| I2C_C1_IICIE ||| I2C_C1_MST ||| I2C_C1_TXAK) Reg.C1 w
      else w
    (store_byte m w1.priv.rdcnt d (getreg8_D d w1)).map incr_rdcnt
  else
    (store_byte m w.priv.rdcnt d (getreg8_D d w)).map incr_rdcnt

/-- The interrupt handler `kinetis_i2c_interrupt`, invoked for the I2C0
interrupt (the only line it is attached to): `s` is the value read from the
status register, `d` the value a read of the data register returns. -/
def kinetis_i2c_interrupt (s d : Nat) (w : World) : Option World :=
  if s &&& I2C_S_ARBL ≠ 0 then
    let w1 := putreg8 (I2C_S_IICIF ||| I2C_S_ARBL) Reg.S w
    some (kinetis_i2c_stop { w1 with priv := { w1.priv with state := STATE_ARBITRATION_ERROR } })
  else
    let w1 := putreg8 I2C_S_IICIF Reg.S w
    let regval := w1.c1
    if regval &&& I2C_C1_TX ≠ 0 then
      if s &&& I2C_S_RXAK ≠ 0 then
        some (kinetis_i2c_stop { w1 with priv := { w1.priv with state := STATE_NAK } })
      else
        (w1.mem[w1.priv.msgs]?).bind fun msg =>
          if I2C_M_READ &&& msg.flags = 0 then interrupt_tx_write w1.priv.msgs msg w1
          else some (interrupt_tx_read d msg w1)
    else
      (w1.mem[w1.priv.msgs]?).bind fun msg => interrupt_rx d w1.priv.msgs msg w1

/-- One event delivered to the engine. -/
def deliver (e : Event) (w : World) : Option World :=
  match e with
  | Event.irq s d => kinetis_i2c_interrupt s d w
  | Event.wdog => some (kinetis_i2c_timeout w)

/-- The blocking part of `sem_wait(&priv->wait)`: events are delivered until
the count is positive, then the count is taken. -/
def await_completion : List Event → World → Option World
  | [], w =>
    if w.priv.wait > 0 then
      some { w with priv := { w.priv with wait := w.priv.wait - 1 }, events := [] }
    else none
  | e :: rest, w =>
    if w.priv.wait > 0 then
      some { w with priv := { w.priv with wait := w.priv.wait - 1 }, events := e :: rest }
    else (deliver e w).bind (await_completion rest)

/-- The restart computation at the head of the coordinator loop (source lines
763-784). -/
def compute_restart (w : World) : Option World :=
  let w1 := { w with priv := { w.priv with restart := 1 } }
  if w1.priv.nmsg > 1 then
    (w1.mem[w1.priv.msgs + 1]?).bind fun nextmsg =>
    (w1.mem[w1.priv.msgs]?).map fun cur =>
      if nextmsg.flags &&& I2C_M_NORESTART ≠ 0 ∧
          nextmsg.addr = cur.addr ∧
          nextmsg.frequency = cur.frequency ∧
          nextmsg.flags &&& I2C_M_READ = cur.flags &&& I2C_M_READ then
        { w1 with priv := { w1.priv with restart := 0 } }
      else w1
  else some w1

/-- The tail of one loop iteration from the point where the coordinator
blocks: `sem_wait(&priv->wait); wd_cancel(priv->timeout);`. -/
def wait_step (w : World) : Option World :=
  (await_completion w.events (w.log (Action.sem_wait Sem.wait))).map
    fun w1 => w1.log Action.wd_cancel

/-- One iteration of the coordinator loop (source lines 763-803). -/
def transfer_step (w : World) : Option World :=
  (compute_restart w).bind fun w1 =>
  (w1.mem[w1.priv.msgs]?).bind fun cur =>
  (if cur.flags &&& I2C_M_NORESTART = 0 then (kinetis_i2c_start w1).map Prod.snd
    else some w1).bind fun w2 =>
  wait_step (w2.log Action.wd_start)

/-- The coordinator loop `while (priv->nmsg && priv->state == STATE_OK)`. -/
def transfer_loop : Nat → World → Option World
  | 0, w => if w.priv.nmsg ≠ 0 ∧ w.priv.state = STATE_OK then none else some w
  | fuel + 1, w =>
    if w.priv.nmsg ≠ 0 ∧ w.priv.state = STATE_OK then
      (transfer_step w).bind (transfer_loop fuel)
    else some w

/-- The exit path of `kinetis_i2c_transfer` (source lines 806-822). -/
def transfer_exit (w : World) : Int × World :=
  let w1 := putreg8 I2C_C1_IICEN Reg.C1 w
  let w2 := w1.log (Action.sem_post Sem.mutex)
  if w2.priv.state ≠ STATE_OK then (- EIO, w2) else (0, w2)

/-- The set-up of `kinetis_i2c_transfer` (source lines 737-757). -/
def transfer_setup (b : Board) (msgs : List i2c_msg_s) (count : Int) (w : World) :
    Option World :=
  let w1 := w.log (Action.sem_wait Sem.mutex)
  let w2 := { w1 with
    mem := msgs,
    priv := { w1.priv with msgs := 0, nmsg := (count % 2 ^ 32).toNat, state := STATE_OK,
                           wrcnt := 0, rdcnt := 0 } }
  (msgs[0]?).map fun first =>
    putreg8 (I2C_S_IICIF ||| I2C_S_ARBL) Reg.S (kinetis_i2c_setfrequency b first.frequency w2)

/-- The function `kinetis_i2c_transfer`: the messages `msgs`, their number
`count`, the device and its environment `w`. -/
def kinetis_i2c_transfer (b : Board) (fuel : Nat) (msgs : List i2c_msg_s) (count : Int)
    (w : World) : Option (Int × World) :=
  (transfer_setup b msgs count w).bind fun w1 =>
  (transfer_loop fuel w1).map transfer_exit

/-- The rest of `kinetis_i2c_transfer` from the point where the coordinator
blocks in `sem_wait(&priv->wait)`: the wait, `wd_cancel`, the remaining loop
iterations and the exit path. -/
def transfer_resume (fuel : Nat) (w : World) : Option (Int × World) :=
  ((wait_step w).bind (transfer_loop fuel)).map transfer_exit

/-- The rest of a call whose coordinator is inside `sem_wait(&priv->wait)`:
it is resumed, cancels the watchdog, re-tests the loop condition and goes on
from there (source lines 798-822). -/
def transfer_wake (fuel : Nat) (w : World) : Option (Int × World) :=
  (((await_completion w.events w).map fun w1 => w1.log Action.wd_cancel).bind
    (transfer_loop fuel)).map transfer_exit

/-! ## Observations on traces and environments -/

/-- The values written to the data register, in order. -/
def dwrites : List Action → List Nat
  | [] => []
  | Action.putreg8 v Reg.D :: t => v :: dwrites t
  | _ :: t => dwrites t

/-- The values written to the control register, in order. -/
def c1writes : List Action → List Nat
  | [] => []
  | Action.putreg8 v Reg.C1 :: t => v :: c1writes t
  | _ :: t => c1writes t

/-- An interrupt that reports an acknowledged byte: arbitration-lost and RXAK
are clear in the status the handler reads. -/
def acked : Event → Prop
  | Event.irq s _ => s &&& I2C_S_ARBL = 0 ∧ s &&& I2C_S_RXAK = 0
  | Event.wdog => False

instance : DecidablePred acked := fun e => by
  cases e <;> simp only [acked] <;> infer_instance

/-- What the handler does while it pushes the bytes `bytes` of message `m`
from index `k` on, one acknowledged interrupt per byte: clear the interrupt
flag, fetch the byte, write it to the data register. -/
def push_actions (m : Nat) : Nat → List Nat → List Action
  | _, [] => []
  | k, v :: vs =>
    Action.putreg8 I2C_S_IICIF Reg.S :: Action.load m k :: Action.putreg8 v Reg.D ::
      push_actions m (k + 1) vs

/-- The control- and data-register writes of a trace, in order: what the
engine puts on the wire. -/
def wire : List Action → List Action
  | [] => []
  | Action.putreg8 v Reg.C1 :: t => Action.putreg8 v Reg.C1 :: wire t
  | Action.putreg8 v Reg.D :: t => Action.putreg8 v Reg.D :: wire t
  | _ :: t => wire t

/-- The clock writes of `kinetis_i2c_setfrequency`. -/
def clock_actions (b : Board) (frequency cached : Nat) : List Action :=
  if frequency = cached then []
  else [Action.putreg8 (b.F frequency) Reg.F, Action.putreg8 b.FLT Reg.FLT]

/-- A stretch of trace in which no control-register write has the
repeated-start bit and nothing is written to the data register. -/
def quiet (t : List Action) : Prop :=
  (∀ v ∈ c1writes t, v &&& I2C_C1_RSTA = 0) ∧ dwrites t = []

/-! ## Sample data for the closed instances -/

/-- A device between transfers: no completion signal pending, the controller
enabled and not master, the bus free at the first poll and busy at the next. -/
def sample_world : World :=
  { priv := { wait := 0, state := 0, frequency := 400000, restart := 0, msgs := 0, nmsg := 0,
              wrcnt := 0, rdcnt := 0 },
    mem := [], c1 := 0x80, polls := [0, 0x20], events := [], trace := [] }

/-- A device in the middle of a one-byte write to address 0x50: START and the
address byte are out, the coordinator is about to block. -/
def sample_blocked : World :=
  { priv := { wait := 0, state := 0, frequency := 400000, restart := 1, msgs := 0, nmsg := 1,
              wrcnt := 0, rdcnt := 0 },
    mem := [{ frequency := 400000, addr := 0x50, flags := 0, buffer := [7], length := 1 }],
    c1 := 0xF0, polls := [0x20], events := [],
    trace := [Action.putreg8 0xF0 Reg.C1, Action.putreg8 0xA0 Reg.D, Action.wd_start] }

/-- A one-byte write to address 0x50. -/
def sample_write : i2c_msg_s :=
  { frequency := 400000, addr := 0x50, flags := 0, buffer := [7], length := 1 }

/-- The device after `sample_write` was sent from `sample_world` and its
address byte was not acknowledged. -/
def sample_nak_result : World :=
  { priv := { wait := 0, state := 3, frequency := 400000, restart := 1, msgs := 0,
              nmsg := 1, wrcnt := 0, rdcnt := 0 },
    mem := [sample_write],
    c1 := 0x80, polls := [0x20], events := [],
    trace := [Action.sem_wait Sem.mutex, Action.putreg8 0x12 Reg.S,
              Action.putreg8 0xF0 Reg.C1, Action.putreg8 0xA0 Reg.D, Action.wd_start,
              Action.sem_wait Sem.wait, Action.putreg8 0x02 Reg.S,
              Action.putreg8 0xC0 Reg.C1, Action.sem_post Sem.wait, Action.wd_cancel,
              Action.putreg8 0x80 Reg.C1, Action.sem_post Sem.mutex] }

/-- A read of zero bytes from address 0x50, with an empty buffer. -/
def zero_length_read : i2c_msg_s :=
  { frequency := 400000, addr := 0x50, flags := I2C_M_READ, buffer := [], length := 0 }

/-- A one-byte read from address 0x50 that carries `I2C_M_NORESTART`. -/
def sample_flagged_read : i2c_msg_s :=
  { frequency := 400000, addr := 0x50, flags := 0x81, buffer := [0], length := 1 }

/-- A one-byte read from address 0x50. -/
def sample_read : i2c_msg_s :=
  { frequency := 400000, addr := 0x50, flags := 0x01, buffer := [0], length := 1 }

/-- A two-byte write to address 0x50. -/
def sample_write2 : i2c_msg_s :=
  { frequency := 400000, addr := 0x50, flags := 0, buffer := [7, 9], length := 2 }

/-- An interrupt whose status shows transfer complete, no arbitration loss and
an acknowledge. -/
def sample_ack : Event := Event.irq 0x80 0

/-! ## Observations on whole calls, and further sample data -/

/-- The control-register write that the specification prescribes for the
receive branch, as the list of values written before the data register is
read:
transmit mode at the last byte when a restart is pending; receive with no-ack
at the last byte when no restart is pending and the next message is one byte
long, and at the byte before the last when a restart is pending; nothing
otherwise. -/
def rx_control_claimed (rdcnt : Nat) (restart length : Int) (next_length : Option Int) :
    List Nat :=
  if (rdcnt : Int) = length - 1 ∧ restart ≠ 0 then
    [I2C_C1_IICEN ||| I2C_C1_IICIE ||| I2C_C1_MST ||| I2C_C1_TX]
  else if (rdcnt : Int) = length - 1 ∧ restart = 0 ∧ next_length = some 1 then
    [I2C_C1_IICEN ||| I2C_C1_IICIE ||| I2C_C1_MST ||| I2C_C1_TXAK]
  else if (rdcnt : Int) = length - 2 ∧ restart ≠ 0 then
    [I2C_C1_IICEN ||| I2C_C1_IICIE ||| I2C_C1_MST ||| I2C_C1_TXAK]
  else []

/-- The same world with the status field of the device record replaced. -/
def with_status (st : Nat) (w : World) : World :=
  { w with priv := { w.priv with state := st } }

/-- The same world with the history `T` in front of its trace. -/
def after (T : List Action) (w : World) : World :=
  { w with trace := T ++ w.trace }

/-- The same world with the restart flag of the device record replaced. -/
def with_restart (r : Int) (w : World) : World :=
  { w with priv := { w.priv with restart := r } }

/-- The state in which the coordinator loop of a call starts, stripped of what
the call cannot read: the trace is empty and the restart flag is cleared. -/
def loop_entry (msgs : List i2c_msg_s) (count : Int) (first : i2c_msg_s) (w : World) : World :=
  { priv := { wait := w.priv.wait, state := STATE_OK, frequency := first.frequency,
              restart := 0, msgs := 0, nmsg := (count % 2 ^ 32).toNat, wrcnt := 0, rdcnt := 0 },
    mem := msgs, c1 := w.c1, polls := w.polls, events := w.events, trace := [] }

/-- The actions of a call before its loop: the mutex, the clock writes and the
write that clears the status flags. -/
def setup_actions (b : Board) (first : i2c_msg_s) (w : World) : List Action :=
  Action.sem_wait Sem.mutex ::
    (clock_actions b first.frequency w.priv.frequency ++
      [Action.putreg8 (I2C_S_IICIF ||| I2C_S_ARBL) Reg.S])

/-- The actions a call appended to the trace of the world `w0` it started in. -/
def call_trace (w0 w' : World) : List Action :=
  w'.trace.drop w0.trace.length

/-- What a caller and the bus see of a call started in `w0`: the result, the
messages with their buffers, and the control- and data-register writes. -/
def outcome (w0 : World) (p : Int × World) : Int × List i2c_msg_s × List Action :=
  (p.1, p.2.mem, wire (call_trace w0 p.2))

/-- Everything a call started in `w0` did and left behind, but for the restart
flag: the result, the messages, every action of the call, the control latch,
and the device record with the restart flag cleared. -/
def full_outcome (w0 : World) (p : Int × World) :
    Int × List i2c_msg_s × List Action × Nat × kinetis_i2cdev_s :=
  (p.1, p.2.mem, call_trace w0 p.2, p.2.c1, { p.2.priv with restart := 0 })

/-- The world in which a one-byte write with both interrupts acknowledged,
started in `sample_world`, returns 0. -/
def sample_write_result : World :=
  { priv := { wait := 0, state := 0, frequency := 400000, restart := 1, msgs := 0,
              nmsg := 0, wrcnt := 1, rdcnt := 0 },
    mem := [sample_write],
    c1 := 0x80, polls := [0x20], events := [],
    trace := [Action.sem_wait Sem.mutex, Action.putreg8 0x12 Reg.S,
              Action.putreg8 0xF0 Reg.C1, Action.putreg8 0xA0 Reg.D, Action.wd_start,
              Action.sem_wait Sem.wait, Action.putreg8 0x02 Reg.S, Action.load 0 0,
              Action.putreg8 7 Reg.D, Action.putreg8 0x02 Reg.S,
              Action.putreg8 0xC0 Reg.C1, Action.sem_post Sem.wait, Action.wd_cancel,
              Action.putreg8 0x80 Reg.C1, Action.sem_post Sem.mutex] }

/-- The writes to the divider and filter registers in a trace. -/
def clockwrites : List Action → List Action
  | [] => []
  | Action.putreg8 v Reg.F :: t => Action.putreg8 v Reg.F :: clockwrites t
  | Action.putreg8 v Reg.FLT :: t => Action.putreg8 v Reg.FLT :: clockwrites t
  | _ :: t => clockwrites t

/-- The clock configuration as far as the model records it: the cached
frequency and the divider and filter writes made so far. -/
def clock_view (w : World) : Nat × List Action :=
  (w.priv.frequency, clockwrites w.trace)

/-- The state in which the watchdog closes the wait on the data byte of a
one-byte write: the address was acknowledged and the byte pushed, then the
watchdog fired (status STATE_TIMEOUT, completion signalled once). -/
def sample_timed_out : World :=
  { priv := { wait := 1, state := 2, frequency := 400000, restart := 1, msgs := 0,
              nmsg := 1, wrcnt := 1, rdcnt := 0 },
    mem := [sample_write],
    c1 := 0xF0, polls := [0x20], events := [],
    trace := [Action.putreg8 0xF0 Reg.C1, Action.putreg8 0xA0 Reg.D, Action.wd_start,
              Action.sem_wait Sem.wait, Action.putreg8 0x02 Reg.S, Action.load 0 0,
              Action.putreg8 7 Reg.D, Action.sem_post Sem.wait] }

/-- The data-register reads of a trace, each with the control-register value
last written before it (`c1` when none was written yet). -/
def reads_with_c1 (c1 : Nat) : List Action → List (Nat × Nat)
  | [] => []
  | Action.putreg8 v Reg.C1 :: t => reads_with_c1 v t
  | Action.getreg8_D d :: t => (c1, d) :: reads_with_c1 c1 t
  | _ :: t => reads_with_c1 c1 t

/-- A two-byte read from address 0x50 that carries `I2C_M_NORESTART`. -/
def sample_flagged_read2 : i2c_msg_s :=
  { frequency := 400000, addr := 0x50, flags := 0x81, buffer := [0, 0], length := 2 }

/-- A three-byte read from address 0x50. -/
def sample_read3 : i2c_msg_s :=
  { frequency := 400000, addr := 0x50, flags := 0x01, buffer := [0, 0, 0], length := 3 }

/-- The coordinator's own actions in a trace: arming the watchdog, waiting on
the completion semaphore, cancelling the watchdog. -/
def coord : List Action → List Action
  | [] => []
  | Action.wd_start :: t => Action.wd_start :: coord t
  | Action.sem_wait Sem.wait :: t => Action.sem_wait Sem.wait :: coord t
  | Action.wd_cancel :: t => Action.wd_cancel :: coord t
  | _ :: t => coord t

/-- A message without its buffer contents: what the engine's decisions depend
on, and what a received byte does not change. -/
def shape (m : i2c_msg_s) : i2c_msg_s := { m with buffer := [] }

/-- No read among the first `count` messages is merged into the read before
it: a read is never followed by a read that carries `I2C_M_NORESTART` for the
same address at the same frequency. -/
def no_merged_read (S : List i2c_msg_s) (count : Nat) : Prop :=
  ∀ i cur next, i + 1 < count → S[i]? = some cur → S[i + 1]? = some next →
    I2C_M_READ &&& cur.flags ≠ 0 →
    ¬ (next.flags &&& I2C_M_NORESTART ≠ 0 ∧ next.addr = cur.addr ∧
        next.frequency = cur.frequency ∧
        next.flags &&& I2C_M_READ = cur.flags &&& I2C_M_READ)

/-- What one handler invocation may do to a coordinator that is blocked with
no completion signal pending: it leaves the message shapes and adds no
coordinator action, and either it signals nothing and stays on the same
message (keeping the control latch when no restart is pending), or it signals
completion once, with a failure status or with one message fewer to go and,
if any remains, the cursor on the next one in transmit mode. -/
def step_outcome (w x : World) : Prop :=
  x.mem.map shape = w.mem.map shape ∧ coord x.trace = coord w.trace ∧
  ((x.priv.wait = 0 ∧ x.priv.state = w.priv.state ∧ x.priv.nmsg = w.priv.nmsg ∧
      x.priv.msgs = w.priv.msgs ∧ x.priv.restart = w.priv.restart ∧
      (w.priv.restart = 0 → x.c1 = w.c1)) ∨
    (x.priv.wait = 1 ∧
      (x.priv.state = STATE_OK →
        x.priv.nmsg + 1 = w.priv.nmsg ∧ x.priv.restart = w.priv.restart ∧
        (0 < x.priv.nmsg → x.priv.msgs = w.priv.msgs + 1 ∧ x.c1 &&& I2C_C1_TX ≠ 0))))

/-- A cleared restart flag is fresh: the controller is in transmit mode on a
write message that is not the last one. -/
def restart_fresh (w : World) : Prop :=
  w.priv.restart = 0 →
    w.c1 &&& I2C_C1_TX ≠ 0 ∧ 2 ≤ w.priv.nmsg ∧
    ∃ sh, (w.mem.map shape)[w.priv.msgs]? = some sh ∧ I2C_M_READ &&& sh.flags = 0

/-- The state of a call at the head of its loop, for messages of shapes `S`
passed with count `count`: no completion signal pending, the cursor as many
messages in as have been completed, and the controller in transmit mode once
the first message is done. -/
def loop_head (S : List i2c_msg_s) (count : Nat) (w : World) : Prop :=
  w.priv.wait = 0 ∧ w.mem.map shape = S ∧
  (0 < w.priv.nmsg → w.priv.msgs + w.priv.nmsg = count ∧
    (0 < w.priv.msgs → w.c1 &&& I2C_C1_TX ≠ 0))

/-- One round of the coordinator: arm the watchdog, wait, cancel the
watchdog. -/
def coord_round : List Action :=
  [Action.wd_start, Action.sem_wait Sem.wait, Action.wd_cancel]

/-- The world in which a one-byte write followed by a one-byte read, both to
0x50, started in `sample_world` with every interrupt acknowledged and the byte
0x55 received, returns 0. -/
def sample_write_read_result : World :=
  { priv := { wait := 0, state := 0, frequency := 400000, restart := 1, msgs := 1,
              nmsg := 0, wrcnt := 0, rdcnt := 1 },
    mem := [sample_write, { sample_read with buffer := [0x55] }],
    c1 := 0x80, polls := [], events := [],
    trace := [Action.sem_wait Sem.mutex, Action.putreg8 0x12 Reg.S,
              Action.putreg8 0xF0 Reg.C1, Action.putreg8 0xA0 Reg.D, Action.wd_start,
              Action.sem_wait Sem.wait, Action.putreg8 0x02 Reg.S, Action.load 0 0,
              Action.putreg8 7 Reg.D, Action.putreg8 0x02 Reg.S, Action.sem_post Sem.wait,
              Action.wd_cancel, Action.putreg8 0xF4 Reg.C1, Action.putreg8 0xA1 Reg.D,
              Action.wd_start, Action.sem_wait Sem.wait, Action.putreg8 0x02 Reg.S,
              Action.putreg8 0xE8 Reg.C1, Action.getreg8_D 0, Action.putreg8 0x02 Reg.S,
              Action.putreg8 0xF0 Reg.C1, Action.getreg8_D 0x55, Action.store 1 0 0x55,
              Action.putreg8 0xC0 Reg.C1, Action.sem_post Sem.wait, Action.wd_cancel,
              Action.putreg8 0x80 Reg.C1, Action.sem_post Sem.mutex] }

/-! ## Handler invocations in sequence, and buffer accesses -/

/-- One iteration of the coordinator loop up to the point where it blocks in
`sem_wait(&priv->wait)` (source lines 763-798): the restart decision, bus
acquisition unless the message carries `I2C_M_NORESTART`, the watchdog. -/
def enter_wait (w : World) : Option World :=
  (compute_restart w).bind fun w1 =>
  (w1.mem[w1.priv.msgs]?).bind fun cur =>
  (if cur.flags &&& I2C_M_NORESTART = 0 then (kinetis_i2c_start w1).map Prod.snd
    else some w1).map fun w2 => (w2.log Action.wd_start).log (Action.sem_wait Sem.wait)

/-- The handler invocations for a list of events, one after the other, with
the coordinator left out. -/
def deliver_all : List Event → World → Option World
  | [], w => some w
  | e :: rest, w => (deliver e w).bind (deliver_all rest)

/-- The buffer accesses of a trace whose index is not below the length of the
message they index, for messages `msgs`. -/
def beyond_length (msgs : List i2c_msg_s) : List Action → List Action
  | [] => []
  | Action.load m i :: t =>
    if (msgs[m]?).any (fun msg => (i : Int) < msg.length) then beyond_length msgs t
    else Action.load m i :: beyond_length msgs t
  | Action.store m i v :: t =>
    if (msgs[m]?).any (fun msg => (i : Int) < msg.length) then beyond_length msgs t
    else Action.store m i v :: beyond_length msgs t
  | _ :: t => beyond_length msgs t

/-- A read of zero bytes from address 0x50 into a buffer with room for one
byte. -/
def zero_length_read_roomy : i2c_msg_s :=
  { frequency := 400000, addr := 0x50, flags := 0x01, buffer := [0], length := 0 }

/-- A write of zero bytes to address 0x50 that carries `I2C_M_NORESTART`, with
a buffer of one byte. -/
def zero_length_flagged_write : i2c_msg_s :=
  { frequency := 400000, addr := 0x50, flags := 0x80, buffer := [9], length := 0 }

/-- The number of `sem_post(&priv->wait)` calls in a trace. -/
def posts : List Action → Nat
  | [] => 0
  | Action.sem_post Sem.wait :: t => posts t + 1
  | _ :: t => posts t

/-- Between `w` and `w'` the completion semaphore was signalled `k` times:
`k` more posts in the trace, and the count `k` higher. -/
def signalled (k : Nat) (w w' : World) : Prop :=
  posts w'.trace = posts w.trace + k ∧ w'.priv.wait = w.priv.wait + k

/-- A device in transmit mode on the last message of a call, a write of one
byte whose byte has been pushed. -/
def sample_write_pushed : World :=
  { sample_world with
    priv := { sample_world.priv with restart := 1, nmsg := 1, wrcnt := 1 },
    c1 := 0xB0, mem := [sample_write] }

/-- Completion of the current write is detected after exactly `n` data bytes:
`n` acknowledged interrupts do nothing but push one byte each, from index 0
on, and at the next acknowledged interrupt the handler takes the branch
`wrcnt == length` and invokes the chain walker. -/
def completes_after (n : Nat) (w : World) : Prop :=
  ∀ acks : List Event, acks.length = n → (∀ e ∈ acks, acked e) →
    ∃ x bytes, deliver_all acks w = some x ∧ bytes.length = n ∧
      x.trace = w.trace ++ push_actions w.priv.msgs 0 bytes ∧
      ∀ s d, acked (Event.irq s d) →
        kinetis_i2c_interrupt s d x =
          some (kinetis_i2c_nextmsg (putreg8 I2C_S_IICIF Reg.S x))

/-- A device in transmit mode on the only message of a call, `msg`, whose
address byte has been sent. -/
def addressed (msg : i2c_msg_s) : World :=
  { sample_world with
    priv := { sample_world.priv with restart := 1, nmsg := 1 },
    c1 := 0xB0, mem := [msg] }

/-- A write of 65536 bytes to address 0x50. -/
def sample_write_65536 : i2c_msg_s :=
  { frequency := 400000, addr := 0x50, flags := 0, buffer := List.replicate 65536 0x5A,
    length := 65536 }

/-! ## The exit path with a second caller -/

/-- The first half of the exit path of `kinetis_i2c_transfer` (source lines
806-812): the interrupt is disabled and the mutex released. -/
def transfer_release (w : World) : World :=
  (putreg8 I2C_C1_IICEN Reg.C1 w).log (Action.sem_post Sem.mutex)

/-- The second half of the exit path (source lines 814-821): `priv->state` is
read, after the mutex was released, and selects the result. -/
def transfer_result (w : World) : Int × World :=
  if w.priv.state ≠ STATE_OK then (- EIO, w) else (0, w)

/-- The exit path when a second caller, blocked in `sem_wait(&priv->mutex)`
(source line 737), runs between the release of the mutex and the read of
`priv->state`: `other` is what the second caller does before the first one
runs again. -/
def transfer_exit_preempted (other : World → Option World) (w : World) :
    Option (Int × World) :=
  (other (transfer_release w)).map transfer_result

/-- The device when the loop of a one-byte write to 0x50 ends because the
address byte was not acknowledged: status STATE_NAK, STOP issued. -/
def sample_nak_loop_exit : World :=
  { priv := { wait := 0, state := 3, frequency := 400000, restart := 1, msgs := 0,
              nmsg := 1, wrcnt := 0, rdcnt := 0 },
    mem := [sample_write],
    c1 := 0xC0, polls := [0x20], events := [],
    trace := [Action.sem_wait Sem.mutex, Action.putreg8 0x12 Reg.S,
              Action.putreg8 0xF0 Reg.C1, Action.putreg8 0xA0 Reg.D, Action.wd_start,
              Action.sem_wait Sem.wait, Action.putreg8 0x02 Reg.S,
              Action.putreg8 0xC0 Reg.C1, Action.sem_post Sem.wait, Action.wd_cancel] }

/-! ## Basic facts about the coordinator -/

theorem await_completion_pos (evs : List Event) (w : World) (h : w.priv.wait > 0) :
    await_completion evs w =
      some { w with priv := { w.priv with wait := w.priv.wait - 1 }, events := evs } := by
  cases evs <;> simp [await_completion, h]

theorem await_completion_cons (e : Event) (rest : List Event) (w : World)
    (h : w.priv.wait = 0) :
    await_completion (e :: rest) w = (deliver e w).bind (await_completion rest) := by
  simp [await_completion, h]

theorem transfer_loop_done (fuel : Nat) (w : World)
    (h : ¬ (w.priv.nmsg ≠ 0 ∧ w.priv.state = STATE_OK)) :
    transfer_loop fuel w = some w := by
  cases fuel <;> simp only [transfer_loop, if_neg h]

theorem transfer_loop_succ (fuel : Nat) (w : World)
    (h : w.priv.nmsg ≠ 0 ∧ w.priv.state = STATE_OK) :
    transfer_loop (fuel + 1) w = (transfer_step w).bind (transfer_loop fuel) := by
  simp only [transfer_loop, if_pos h]

/-! ## Symbolic execution of the engine -/

theorem read_flag_ne_zero : I2C_M_READ ≠ 0 := by decide

theorem c1_start_tx :
    (I2C_C1_IICEN ||| I2C_C1_IICIE ||| I2C_C1_MST ||| I2C_C1_TX) &&& I2C_C1_TX ≠ 0 := by decide

theorem c1_restart_tx :
    (I2C_C1_IICEN ||| I2C_C1_IICIE ||| I2C_C1_MST ||| I2C_C1_RSTA ||| I2C_C1_TX) &&&
      I2C_C1_TX ≠ 0 := by decide

theorem c1_rx_noack_tx :
    (I2C_C1_IICEN ||| I2C_C1_IICIE ||| I2C_C1_MST ||| I2C_C1_TXAK) &&& I2C_C1_TX = 0 := by
  decide

theorem c1_rx_tx : (I2C_C1_IICEN ||| I2C_C1_IICIE ||| I2C_C1_MST) &&& I2C_C1_TX = 0 := by
  decide


theorem dwrites_append (a b : List Action) : dwrites (a ++ b) = dwrites a ++ dwrites b := by
  induction a with
  | nil => rfl
  | cons x t ih =>
    cases x with
    | putreg8 v r => cases r <;> simp [dwrites, ih]
    | _ => simp [dwrites, ih]

theorem c1writes_append (a b : List Action) :
    c1writes (a ++ b) = c1writes a ++ c1writes b := by
  induction a with
  | nil => rfl
  | cons x t ih =>
    cases x with
    | putreg8 v r => cases r <;> simp [c1writes, ih]
    | _ => simp [c1writes, ih]

theorem dwrites_push_actions (m : Nat) (bytes : List Nat) :
    ∀ k, dwrites (push_actions m k bytes) = bytes := by
  induction bytes with
  | nil => intro k; rfl
  | cons v vs ih => intro k; simp [push_actions, dwrites, ih]

theorem c1writes_push_actions (m : Nat) (bytes : List Nat) :
    ∀ k, c1writes (push_actions m k bytes) = [] := by
  induction bytes with
  | nil => intro k; rfl
  | cons v vs ih => intro k; simp [push_actions, c1writes, ih]

/-- One acknowledged interrupt in transmit mode on a write message with bytes
left: the next byte is pushed. -/
theorem interrupt_push (s d v : Nat) (w : World) (msg : i2c_msg_s)
    (hack : acked (Event.irq s d))
    (hmsg : w.mem[w.priv.msgs]? = some msg)
    (hwr : I2C_M_READ &&& msg.flags = 0)
    (htx : w.c1 &&& I2C_C1_TX ≠ 0)
    (hne : (w.priv.wrcnt : Int) ≠ msg.length)
    (hv : msg.buffer[w.priv.wrcnt]? = some v) :
    kinetis_i2c_interrupt s d w = some
      { w with
        priv := { w.priv with wrcnt := (w.priv.wrcnt + 1) % 2 ^ 16 },
        trace := w.trace ++ [Action.putreg8 I2C_S_IICIF Reg.S,
                             Action.load w.priv.msgs w.priv.wrcnt,
                             Action.putreg8 v Reg.D] } := by
  obtain ⟨h1, h2⟩ := hack
  simp [kinetis_i2c_interrupt, h1, h2, putreg8, htx, hmsg, hwr, interrupt_tx_write, hne,
    load_byte, hv, World.log, incr_wrcnt]

theorem await_pushes (bytes : List Nat) :
    ∀ (acks rest : List Event) (w : World) (msg : i2c_msg_s),
      acks.length = bytes.length →
      (∀ e ∈ acks, acked e) →
      w.mem[w.priv.msgs]? = some msg →
      I2C_M_READ &&& msg.flags = 0 →
      w.c1 &&& I2C_C1_TX ≠ 0 →
      w.priv.wait = 0 →
      bytes <+: msg.buffer.drop w.priv.wrcnt →
      ((w.priv.wrcnt + bytes.length : Nat) : Int) ≤ msg.length →
      w.priv.wrcnt + bytes.length ≤ 65535 →
      await_completion (acks ++ rest) w =
        await_completion rest
          { w with
            priv := { w.priv with wrcnt := w.priv.wrcnt + bytes.length },
            trace := w.trace ++ push_actions w.priv.msgs w.priv.wrcnt bytes } := by
  induction bytes with
  | nil =>
    intro acks rest w msg hlen _ _ _ _ _ _ _ _
    have : acks = [] := List.length_eq_zero.mp hlen
    subst this
    simp [push_actions]
  | cons v vs ih =>
    intro acks rest w msg hlen hacks hmsg hwr htx hwait hpre hle h16
    cases acks with
    | nil => simp at hlen
    | cons a acks =>
      cases a with
      | wdog => exact absurd (hacks _ (List.mem_cons_self _ _)) (by simp [acked])
      | irq s d =>
        have ha : acked (Event.irq s d) := hacks _ (List.mem_cons_self _ _)
        have hv : msg.buffer[w.priv.wrcnt]? = some v := by
          obtain ⟨post, hpost⟩ := hpre
          have : (msg.buffer.drop w.priv.wrcnt)[0]? = some v := by
            rw [← hpost]; simp
          simpa using this
        have hne : (w.priv.wrcnt : Int) ≠ msg.length := by
          simp only [List.length_cons] at hle
          omega
        have hstep := interrupt_push s d v w msg ha hmsg hwr htx hne hv
        have hmod : (w.priv.wrcnt + 1) % 2 ^ 16 = w.priv.wrcnt + 1 := by
          simp only [List.length_cons] at h16
          exact Nat.mod_eq_of_lt (by omega)
        rw [List.cons_append, await_completion_cons _ _ _ hwait]
        simp only [deliver, hstep, Option.some_bind, hmod]
        simp only [List.length_cons] at hle h16 hlen
        have hpre1 : vs <+: msg.buffer.drop (w.priv.wrcnt + 1) := by
          obtain ⟨post, hpost⟩ := hpre
          refine ⟨post, ?_⟩
          have h2 : msg.buffer.drop (w.priv.wrcnt + 1) =
              (msg.buffer.drop w.priv.wrcnt).drop 1 := by
            rw [List.drop_drop, Nat.add_comm]
          rw [h2, ← hpost]
          simp
        have hih := ih acks rest
          { w with
            priv := { w.priv with wrcnt := w.priv.wrcnt + 1 },
            trace := w.trace ++ [Action.putreg8 I2C_S_IICIF Reg.S,
                                 Action.load w.priv.msgs w.priv.wrcnt,
                                 Action.putreg8 v Reg.D] } msg
          (by omega) (fun e he => hacks e (List.mem_cons_of_mem _ he)) hmsg hwr htx hwait hpre1
          (by simp only []; push_cast at hle ⊢; omega) (by simp only []; omega)
        rw [hih]
        simp [push_actions, Nat.add_assoc, Nat.add_comm 1]

theorem wire_append (a b : List Action) : wire (a ++ b) = wire a ++ wire b := by
  induction a with
  | nil => rfl
  | cons x t ih =>
    cases x with
    | putreg8 v r => cases r <;> simp [wire, ih]
    | _ => simp [wire, ih]

theorem wire_push_actions (m : Nat) (bytes : List Nat) :
    ∀ k, wire (push_actions m k bytes) = bytes.map fun v => Action.putreg8 v Reg.D := by
  induction bytes with
  | nil => intro k; rfl
  | cons v vs ih => intro k; simp [push_actions, wire, ih]

theorem wire_clock_actions (b : Board) (f c : Nat) : wire (clock_actions b f c) = [] := by
  unfold clock_actions
  split_ifs <;> rfl

/-- The set-up of a transfer of `count` messages, `count` small enough for an
`int`. -/
theorem transfer_setup_eq (b : Board) (m0 : i2c_msg_s) (ms : List i2c_msg_s) (count : Nat)
    (w : World) (hc : count < 2 ^ 31) :
    transfer_setup b (m0 :: ms) count w = some
      { w with
        priv := { w.priv with msgs := 0, nmsg := count, state := STATE_OK, wrcnt := 0,
                              rdcnt := 0, frequency := m0.frequency },
        mem := m0 :: ms,
        trace := w.trace ++ [Action.sem_wait Sem.mutex] ++
          clock_actions b m0.frequency w.priv.frequency ++
          [Action.putreg8 (I2C_S_IICIF ||| I2C_S_ARBL) Reg.S] } := by
  have hcount : ((count : Int) % 2 ^ 32).toNat = count := by
    have h32 : (2 : Int) ^ 32 = ((2 ^ 32 : Nat) : Int) := by norm_num
    rw [h32, ← Int.ofNat_emod, Int.toNat_ofNat]
    exact Nat.mod_eq_of_lt (by omega)
  unfold transfer_setup
  simp only [hcount]
  by_cases hf : m0.frequency = w.priv.frequency
  · simp [kinetis_i2c_setfrequency, putreg8, World.log, clock_actions, hf]
  · simp [kinetis_i2c_setfrequency, putreg8, World.log, clock_actions, hf]

/-- START and a write address byte from an idle controller on a free bus. -/
theorem start_write (w : World) (msg : i2c_msg_s) (pf : Nat) (ps : List Nat)
    (hmst : w.c1 &&& I2C_C1_MST = 0)
    (hpolls : w.polls = pf :: ps) (hpf : pf &&& I2C_S_BUSY = 0)
    (hmsg : w.mem[w.priv.msgs]? = some msg)
    (hwr : I2C_M_READ &&& msg.flags = 0) :
    kinetis_i2c_start w = some (OK,
      { w with
        c1 := I2C_C1_IICEN ||| I2C_C1_IICIE ||| I2C_C1_MST ||| I2C_C1_TX,
        polls := ps,
        trace := w.trace ++
          [Action.putreg8 (I2C_C1_IICEN ||| I2C_C1_IICIE ||| I2C_C1_MST ||| I2C_C1_TX) Reg.C1,
           Action.putreg8 (I2C_WRITEADDR8 msg.addr) Reg.D] }) := by
  have hne : (0 : Nat) ≠ I2C_M_READ := by decide
  simp [kinetis_i2c_start, hmst, hpolls, wait_bus_free, hpf, putreg8, hmsg, hwr, hne]

/-- The last byte of a write message was acknowledged, more messages remain
and a restart is required: the chain walker advances and signals completion. -/
theorem interrupt_write_done_restart (s d : Nat) (w : World) (msg : i2c_msg_s)
    (hack : acked (Event.irq s d))
    (hmsg : w.mem[w.priv.msgs]? = some msg)
    (hwr : I2C_M_READ &&& msg.flags = 0)
    (htx : w.c1 &&& I2C_C1_TX ≠ 0)
    (heq : (w.priv.wrcnt : Int) = msg.length)
    (hn : 2 ≤ w.priv.nmsg) (hr : w.priv.restart ≠ 0) :
    kinetis_i2c_interrupt s d w = some
      { w with
        priv := { w.priv with nmsg := w.priv.nmsg - 1, msgs := w.priv.msgs + 1, wrcnt := 0,
                              rdcnt := 0, wait := w.priv.wait + 1 },
        trace := w.trace ++ [Action.putreg8 I2C_S_IICIF Reg.S, Action.sem_post Sem.wait] } := by
  obtain ⟨h1, h2⟩ := hack
  have hd : decr_nmsg w.priv.nmsg = w.priv.nmsg - 1 := by
    unfold decr_nmsg; rw [if_neg (by omega)]
  have hpos : 0 < w.priv.nmsg - 1 := by omega
  simp [kinetis_i2c_interrupt, h1, h2, putreg8, htx, hmsg, hwr, interrupt_tx_write, heq,
    kinetis_i2c_nextmsg, hd, hpos, hr, sem_post_wait]

/-- One wait of the coordinator on a write message that is followed by a
message requiring a restart: the remaining bytes are pushed, the chain walker
advances and the coordinator is resumed. -/
theorem wait_write_restart (bytes : List Nat) (acks rest : List Event) (t : Event) (w : World)
    (msg : i2c_msg_s)
    (hev : w.events = acks ++ t :: rest)
    (hlen : acks.length = bytes.length)
    (hacks : ∀ e ∈ acks, acked e) (ht : acked t)
    (hmsg : w.mem[w.priv.msgs]? = some msg)
    (hwr : I2C_M_READ &&& msg.flags = 0)
    (htx : w.c1 &&& I2C_C1_TX ≠ 0)
    (hwait : w.priv.wait = 0)
    (hpre : bytes <+: msg.buffer.drop w.priv.wrcnt)
    (hle : ((w.priv.wrcnt + bytes.length : Nat) : Int) = msg.length)
    (h16 : w.priv.wrcnt + bytes.length ≤ 65535)
    (hn : 2 ≤ w.priv.nmsg) (hr : w.priv.restart ≠ 0) :
    wait_step w = some
      { w with
        priv := { w.priv with nmsg := w.priv.nmsg - 1, msgs := w.priv.msgs + 1, wrcnt := 0,
                              rdcnt := 0, wait := 0 },
        events := rest,
        trace := w.trace ++ [Action.sem_wait Sem.wait] ++
          push_actions w.priv.msgs w.priv.wrcnt bytes ++
          [Action.putreg8 I2C_S_IICIF Reg.S, Action.sem_post Sem.wait, Action.wd_cancel] } := by
  cases t with
  | wdog => exact absurd ht (by simp [acked])
  | irq s d =>
    unfold wait_step
    rw [hev, await_pushes bytes acks _ (w.log (Action.sem_wait Sem.wait)) msg hlen hacks hmsg hwr
      htx hwait hpre (le_of_eq hle) h16]
    rw [await_completion_cons _ _ _ (by exact hwait)]
    simp only [deliver]
    rw [interrupt_write_done_restart s d _ msg ht (by exact hmsg) hwr (by exact htx) (by exact hle)
      (by exact hn) (by exact hr)]
    simp only [Option.some_bind]
    rw [await_completion_pos _ _ (by simp)]
    simp [World.log, hwait]

theorem compute_restart_nomerge (w : World) (cur next : i2c_msg_s)
    (hn : 1 < w.priv.nmsg)
    (hcur : w.mem[w.priv.msgs]? = some cur)
    (hnext : w.mem[w.priv.msgs + 1]? = some next)
    (hc : ¬ (next.flags &&& I2C_M_NORESTART ≠ 0 ∧ next.addr = cur.addr ∧
      next.frequency = cur.frequency ∧ next.flags &&& I2C_M_READ = cur.flags &&& I2C_M_READ)) :
    compute_restart w = some { w with priv := { w.priv with restart := 1 } } := by
  simp only [compute_restart, hn, if_true, hnext, hcur, Option.some_bind, Option.map_some',
    if_neg hc]

theorem compute_restart_last (w : World) (hn : ¬ 1 < w.priv.nmsg) :
    compute_restart w = some { w with priv := { w.priv with restart := 1 } } := by
  simp [compute_restart, hn]

/-- The watchdog expires while the coordinator is blocked: the loop exits and
the transfer returns `-EIO`. -/
theorem transfer_resume_wdog (fuel : Nat) (rest : List Event) (w : World)
    (hwait : w.priv.wait = 0) (hev : w.events = Event.wdog :: rest) :
    transfer_resume fuel w = some (- EIO,
        { w with
          priv := { w.priv with state := STATE_TIMEOUT },
          c1 := I2C_C1_IICEN,
          events := rest,
          trace := w.trace ++ [Action.sem_wait Sem.wait,
                               Action.sem_post Sem.wait,
                               Action.wd_cancel,
                               Action.putreg8 I2C_C1_IICEN Reg.C1,
                               Action.sem_post Sem.mutex] }) := by
  simp only [transfer_resume, wait_step, hev]
  rw [await_completion_cons _ _ _ (by simpa [World.log] using hwait)]
  simp only [deliver, Option.some_bind]
  rw [await_completion_pos _ _ (by simp [kinetis_i2c_timeout, sem_post_wait])]
  simp only [Option.map_some', Option.some_bind]
  rw [transfer_loop_done _ _
    (by simp [World.log, kinetis_i2c_timeout, sem_post_wait, STATE_TIMEOUT, STATE_OK])]
  simp [transfer_exit, putreg8, World.log, kinetis_i2c_timeout, sem_post_wait, STATE_TIMEOUT,
    STATE_OK, hwait]

/-- START (or repeated START) and a read address byte; the bus is free at the
first poll and busy at the second. -/
theorem start_read (w : World) (msg : i2c_msg_s) (pf pb : Nat) (ps : List Nat)
    (hpolls : w.polls = pf :: pb :: ps)
    (hpf : pf &&& I2C_S_BUSY = 0) (hpb : pb &&& I2C_S_BUSY ≠ 0)
    (hmsg : w.mem[w.priv.msgs]? = some msg)
    (hread : I2C_M_READ &&& msg.flags = I2C_M_READ) :
    kinetis_i2c_start w = some (OK,
      { w with
        c1 := if w.c1 &&& I2C_C1_MST ≠ 0 then
                I2C_C1_IICEN ||| I2C_C1_IICIE ||| I2C_C1_MST ||| I2C_C1_RSTA ||| I2C_C1_TX
              else I2C_C1_IICEN ||| I2C_C1_IICIE ||| I2C_C1_MST ||| I2C_C1_TX,
        polls := ps,
        trace := w.trace ++
          [Action.putreg8
             (if w.c1 &&& I2C_C1_MST ≠ 0 then
                I2C_C1_IICEN ||| I2C_C1_IICIE ||| I2C_C1_MST ||| I2C_C1_RSTA ||| I2C_C1_TX
              else I2C_C1_IICEN ||| I2C_C1_IICIE ||| I2C_C1_MST ||| I2C_C1_TX) Reg.C1,
           Action.putreg8 (I2C_READADDR8 msg.addr) Reg.D] }) := by
  by_cases hm : w.c1 &&& I2C_C1_MST = 0
  · simp [kinetis_i2c_start, hm, hpolls, wait_bus_free, wait_bus_busy, hpf, hpb, putreg8, hmsg,
      hread, read_flag_ne_zero]
  · simp [kinetis_i2c_start, hm, hpolls, wait_bus_free, wait_bus_busy, hpf, hpb, putreg8, hmsg,
      hread, read_flag_ne_zero]

/-- The address byte of a read message was acknowledged: receive mode, with
TXAK exactly when the message is one byte long and a restart is pending, and
the dummy read. -/
theorem interrupt_read_addressed (s d : Nat) (w : World) (msg : i2c_msg_s)
    (harb : s &&& I2C_S_ARBL = 0) (hack : s &&& I2C_S_RXAK = 0)
    (hmsg : w.mem[w.priv.msgs]? = some msg)
    (hread : I2C_M_READ &&& msg.flags ≠ 0)
    (htx : w.c1 &&& I2C_C1_TX ≠ 0) :
    kinetis_i2c_interrupt s d w = some
      { w with
        c1 := if msg.length = 1 ∧ w.priv.restart ≠ 0 then
                I2C_C1_IICEN ||| I2C_C1_IICIE ||| I2C_C1_MST ||| I2C_C1_TXAK
              else I2C_C1_IICEN ||| I2C_C1_IICIE ||| I2C_C1_MST,
        trace := w.trace ++
          [Action.putreg8 I2C_S_IICIF Reg.S,
           Action.putreg8
             (if msg.length = 1 ∧ w.priv.restart ≠ 0 then
                I2C_C1_IICEN ||| I2C_C1_IICIE ||| I2C_C1_MST ||| I2C_C1_TXAK
              else I2C_C1_IICEN ||| I2C_C1_IICIE ||| I2C_C1_MST) Reg.C1,
           Action.getreg8_D d] } := by
  by_cases h1 : msg.length = 1 <;> by_cases h2 : w.priv.restart = 0 <;>
    simp [kinetis_i2c_interrupt, interrupt_tx_read, harb, hack, putreg8, htx, hmsg, hread,
      getreg8_D, World.log, h1, h2]

/-- The last byte of the last message arrives in receive mode with a restart
pending: transmit mode is selected before the read, the byte is stored, STOP
is issued and completion is signalled. -/
theorem interrupt_rx_last (s d : Nat) (w : World) (msg : i2c_msg_s)
    (harb : s &&& I2C_S_ARBL = 0)
    (hrx : w.c1 &&& I2C_C1_TX = 0)
    (hmsg : w.mem[w.priv.msgs]? = some msg)
    (hrd : (w.priv.rdcnt : Int) = msg.length - 1)
    (hr : w.priv.restart ≠ 0) (hn : w.priv.nmsg = 1)
    (hbuf : w.priv.rdcnt < msg.buffer.length) :
    kinetis_i2c_interrupt s d w = some
      { w with
        priv := { w.priv with rdcnt := (w.priv.rdcnt + 1) % 2 ^ 16, nmsg := 0,
                              wait := w.priv.wait + 1 },
        mem := w.mem.set w.priv.msgs { msg with buffer := msg.buffer.set w.priv.rdcnt d },
        c1 := I2C_C1_IICEN ||| I2C_C1_IICIE,
        trace := w.trace ++
          [Action.putreg8 I2C_S_IICIF Reg.S,
           Action.putreg8 (I2C_C1_IICEN ||| I2C_C1_IICIE ||| I2C_C1_MST ||| I2C_C1_TX) Reg.C1,
           Action.getreg8_D d,
           Action.store w.priv.msgs w.priv.rdcnt d,
           Action.putreg8 (I2C_C1_IICEN ||| I2C_C1_IICIE) Reg.C1,
           Action.sem_post Sem.wait] } := by
  have hd : decr_nmsg w.priv.nmsg = 0 := by
    unfold decr_nmsg; rw [if_neg (by omega), hn]
  simp [kinetis_i2c_interrupt, harb, putreg8, hrx, hmsg, interrupt_rx, hrd, hr, getreg8_D,
    World.log, store_byte, hbuf, incr_rdcnt, kinetis_i2c_nextmsg, hd, kinetis_i2c_stop,
    sem_post_wait]

/-- The handler on arbitration loss. -/
theorem handler_on_arbitration_loss (s d : Nat) (w : World) (harb : s &&& I2C_S_ARBL ≠ 0) :
    kinetis_i2c_interrupt s d w = some
      { w with
        priv := { w.priv with state := STATE_ARBITRATION_ERROR, wait := w.priv.wait + 1 },
        c1 := I2C_C1_IICEN ||| I2C_C1_IICIE,
        trace := w.trace ++ [Action.putreg8 (I2C_S_IICIF ||| I2C_S_ARBL) Reg.S,
                             Action.putreg8 (I2C_C1_IICEN ||| I2C_C1_IICIE) Reg.C1,
                             Action.sem_post Sem.wait] } := by
  simp [kinetis_i2c_interrupt, harb, kinetis_i2c_stop, putreg8, sem_post_wait]

/-- The handler on a byte that was not acknowledged. -/
theorem handler_on_nak (s d : Nat) (w : World)
    (harb : s &&& I2C_S_ARBL = 0) (htx : w.c1 &&& I2C_C1_TX ≠ 0)
    (hnak : s &&& I2C_S_RXAK ≠ 0) :
    kinetis_i2c_interrupt s d w = some
        { w with
          priv := { w.priv with state := STATE_NAK, wait := w.priv.wait + 1 },
          c1 := I2C_C1_IICEN ||| I2C_C1_IICIE,
          trace := w.trace ++ [Action.putreg8 I2C_S_IICIF Reg.S,
                               Action.putreg8 (I2C_C1_IICEN ||| I2C_C1_IICIE) Reg.C1,
                               Action.sem_post Sem.wait] } := by
  simp [kinetis_i2c_interrupt, harb, hnak, htx, kinetis_i2c_stop, putreg8, sem_post_wait]

theorem wait_bus_free_frame (l : List Nat) (w w' : World)
    (h : wait_bus_free l w = some w') : w'.priv = w.priv ∧ w'.mem = w.mem := by
  induction l with
  | nil => simp [wait_bus_free] at h
  | cons s rest ih =>
    unfold wait_bus_free at h
    split_ifs at h
    · exact ih h
    · cases h; exact ⟨rfl, rfl⟩

theorem wait_bus_busy_frame (l : List Nat) (w w' : World)
    (h : wait_bus_busy l w = some w') : w'.priv = w.priv ∧ w'.mem = w.mem := by
  induction l with
  | nil => simp [wait_bus_busy] at h
  | cons s rest ih =>
    unfold wait_bus_busy at h
    split_ifs at h
    · cases h; exact ⟨rfl, rfl⟩
    · exact ih h

/-- Bus acquisition touches neither the device record nor the messages. -/
theorem start_frame (w w' : World) (r : Int) (h : kinetis_i2c_start w = some (r, w')) :
    w'.priv = w.priv ∧ w'.mem = w.mem := by
  unfold kinetis_i2c_start at h
  simp only [Option.bind_eq_some] at h
  obtain ⟨w1, h1, msg, _, w2, h2, h3⟩ := h
  have hw1 : w1.priv = w.priv ∧ w1.mem = w.mem := by
    split_ifs at h1
    · cases h1; exact ⟨rfl, rfl⟩
    · simp only [Option.map_eq_some'] at h1
      obtain ⟨w0, h0, rfl⟩ := h1
      exact wait_bus_free_frame _ w w0 h0
  have hw2 : w2.priv = w1.priv ∧ w2.mem = w1.mem := by
    split_ifs at h2
    · exact wait_bus_busy_frame _ _ _ h2
    · cases h2; exact ⟨rfl, rfl⟩
  cases h3
  exact ⟨hw2.1.trans hw1.1, hw2.2.trans hw1.2⟩

/-- A read of length 0 is never completed by the handler: when the coordinator
waits on such a message it is resumed only with a non-OK status. -/
theorem zero_length_read_stuck (evs : List Event) :
    ∀ (w : World) (msg : i2c_msg_s),
      w.priv.wait = 0 → w.mem[w.priv.msgs]? = some msg → msg.length = 0 →
      I2C_M_READ &&& msg.flags ≠ 0 →
      ∀ w1, await_completion evs w = some w1 → w1.priv.state ≠ STATE_OK := by
  induction evs with
  | nil =>
    intro w msg hwait _ _ _ w1 h
    simp [await_completion, hwait] at h
  | cons e rest ih =>
    intro w msg hwait hmsg hlen hread w1 h
    rw [await_completion_cons _ _ _ hwait] at h
    cases e with
    | wdog =>
      simp only [deliver, Option.some_bind] at h
      rw [await_completion_pos _ _ (by simp [kinetis_i2c_timeout, sem_post_wait])] at h
      cases h
      simp [kinetis_i2c_timeout, sem_post_wait, STATE_TIMEOUT, STATE_OK]
    | irq s d =>
      simp only [deliver] at h
      by_cases harb : s &&& I2C_S_ARBL = 0
      · by_cases htx : w.c1 &&& I2C_C1_TX = 0
        · -- receive mode: the byte is stored, the chain walker is not reached
          have hstep : kinetis_i2c_interrupt s d w =
              (store_byte w.priv.msgs w.priv.rdcnt d
                (getreg8_D d (putreg8 I2C_S_IICIF Reg.S w))).map incr_rdcnt := by
            have h1 : ¬ ((w.priv.rdcnt : Int) = msg.length - 1) := by rw [hlen]; omega
            have h2 : ¬ ((w.priv.rdcnt : Int) = msg.length - 2) := by rw [hlen]; omega
            simp [kinetis_i2c_interrupt, harb, htx, putreg8, hmsg, interrupt_rx, h1, h2]
          rw [hstep] at h
          cases hs : store_byte w.priv.msgs w.priv.rdcnt d
              (getreg8_D d (putreg8 I2C_S_IICIF Reg.S w)) with
          | none => simp [hs] at h
          | some w2 =>
            rw [hs] at h
            simp only [Option.map_some', Option.some_bind] at h
            have hmem : (getreg8_D d (putreg8 I2C_S_IICIF Reg.S w)).mem[w.priv.msgs]? =
                some msg := by simpa [getreg8_D, putreg8, World.log] using hmsg
            unfold store_byte at hs
            rw [hmem] at hs
            simp only [Option.some_bind] at hs
            split_ifs at hs with hb
            cases hs
            have hlt : w.priv.msgs < w.mem.length := by
              by_contra hge
              rw [List.getElem?_eq_none (by omega)] at hmsg
              cases hmsg
            refine ih _ { msg with buffer := msg.buffer.set w.priv.rdcnt d } ?_ ?_ hlen hread _ h
            · simpa [incr_rdcnt, getreg8_D, putreg8, World.log] using hwait
            · simp [incr_rdcnt, getreg8_D, putreg8, World.log, hlt]
        · by_cases hnak : s &&& I2C_S_RXAK = 0
          · rw [interrupt_read_addressed s d w msg harb hnak hmsg hread htx] at h
            simp only [Option.some_bind] at h
            exact ih _ msg (by exact hwait) (by exact hmsg) hlen hread _ h
          · rw [handler_on_nak s d w harb htx hnak] at h
            simp only [Option.some_bind] at h
            rw [await_completion_pos _ _ (by simp)] at h
            cases h
            simp [STATE_NAK, STATE_OK]
      · rw [handler_on_arbitration_loss s d w harb] at h
        simp only [Option.some_bind] at h
        rw [await_completion_pos _ _ (by simp)] at h
        cases h
        simp [STATE_ARBITRATION_ERROR, STATE_OK]

theorem quiet_nil : quiet [] := ⟨by simp [c1writes], rfl⟩

theorem quiet_append (a b : List Action) (ha : quiet a) (hb : quiet b) : quiet (a ++ b) := by
  refine ⟨?_, ?_⟩
  · intro v hv
    rw [c1writes_append, List.mem_append] at hv
    exact hv.elim (ha.1 v) (hb.1 v)
  · rw [dwrites_append, ha.2, hb.2]; rfl

theorem store_byte_eq (m i v : Nat) (w w' : World) (h : store_byte m i v w = some w') :
    ∃ msg, w.mem[m]? = some msg ∧ i < msg.buffer.length ∧
      w' = { w with mem := w.mem.set m { msg with buffer := msg.buffer.set i v },
                    trace := w.trace ++ [Action.store m i v] } := by
  unfold store_byte at h
  cases hm : w.mem[m]? with
  | none => simp [hm] at h
  | some msg =>
    rw [hm] at h
    simp only [Option.some_bind] at h
    split_ifs at h with hb
    cases h
    exact ⟨msg, rfl, hb, rfl⟩

/-- While the last message, a read, is in progress and no completion signal
is pending, one handler invocation writes no repeated START and nothing to
the data register; either it leaves the coordinator blocked on the same
message, or it signals completion once with the loop condition false. -/
theorem read_tail_step (s d : Nat) (w w' : World) (msg : i2c_msg_s)
    (hmsg : w.mem[w.priv.msgs]? = some msg)
    (hread : I2C_M_READ &&& msg.flags ≠ 0)
    (hn : w.priv.nmsg = 1) (hwait : w.priv.wait = 0)
    (h : kinetis_i2c_interrupt s d w = some w') :
    ∃ t, w'.trace = w.trace ++ t ∧ quiet t ∧
      ((w'.priv.wait = 0 ∧ w'.priv.nmsg = 1 ∧
          ∃ msg', w'.mem[w'.priv.msgs]? = some msg' ∧ msg'.flags = msg.flags) ∨
        (w'.priv.wait = 1 ∧ ¬ (w'.priv.nmsg ≠ 0 ∧ w'.priv.state = STATE_OK))) := by
  have hlt : w.priv.msgs < w.mem.length := by
    by_contra hge
    rw [List.getElem?_eq_none (by omega)] at hmsg
    cases hmsg
  have hd : decr_nmsg w.priv.nmsg = 0 := by
    unfold decr_nmsg; rw [if_neg (by omega), hn]
  by_cases harb : s &&& I2C_S_ARBL = 0
  · by_cases htx : w.c1 &&& I2C_C1_TX = 0
    · -- receive mode
      unfold kinetis_i2c_interrupt at h
      simp only [harb, putreg8, htx, hmsg, Option.some_bind, ne_eq, not_true_eq_false,
        if_false] at h
      unfold interrupt_rx at h
      by_cases h1 : (w.priv.rdcnt : Int) = msg.length - 1
      · simp only [h1, if_true, Option.bind_eq_some, Option.map_eq_some'] at h
        obtain ⟨w1, hw1, w2, hst, rfl⟩ := h
        obtain ⟨t1, ht1, hq1, hp1, hm1⟩ : ∃ t1, w1.trace = w.trace ++ t1 ∧ quiet t1 ∧
            w1.priv = w.priv ∧ w1.mem = w.mem := by
          split_ifs at hw1
          · cases hw1
            refine ⟨[Action.putreg8 I2C_S_IICIF Reg.S,
              Action.putreg8 (I2C_C1_IICEN ||| I2C_C1_IICIE ||| I2C_C1_MST ||| I2C_C1_TX) Reg.C1],
              by simp [putreg8], by simp +decide [quiet, c1writes, dwrites], rfl, rfl⟩
          · simp only [Option.map_eq_some'] at hw1
            obtain ⟨next, _, rfl⟩ := hw1
            split_ifs
            · exact ⟨[Action.putreg8 I2C_S_IICIF Reg.S,
                Action.putreg8 (I2C_C1_IICEN ||| I2C_C1_IICIE ||| I2C_C1_MST ||| I2C_C1_TXAK)
                  Reg.C1],
                by simp [putreg8], by simp +decide [quiet, c1writes, dwrites], rfl, rfl⟩
            · exact ⟨[Action.putreg8 I2C_S_IICIF Reg.S],
                by simp [putreg8], by simp +decide [quiet, c1writes, dwrites], rfl, rfl⟩
        obtain ⟨msg2, _, _, rfl⟩ := store_byte_eq _ _ _ _ _ hst
        refine ⟨t1 ++ [Action.getreg8_D d, Action.store w.priv.msgs w1.priv.rdcnt d,
          Action.putreg8 (I2C_C1_IICEN ||| I2C_C1_IICIE) Reg.C1, Action.sem_post Sem.wait],
          ?_, ?_, Or.inr ?_⟩
        · simp [kinetis_i2c_nextmsg, incr_rdcnt, getreg8_D, World.log, hp1, hd,
            kinetis_i2c_stop, putreg8, sem_post_wait, ht1]
        · exact quiet_append _ _ hq1 (by simp +decide [quiet, c1writes, dwrites])
        · simp [kinetis_i2c_nextmsg, incr_rdcnt, getreg8_D, World.log, hp1, hd,
            kinetis_i2c_stop, putreg8, sem_post_wait, hwait]
      · simp only [h1, if_false] at h
        have key : ∀ (w1 : World) (t1 : List Action), w1.trace = w.trace ++ t1 → quiet t1 →
            w1.priv = w.priv → w1.mem = w.mem →
            (store_byte w.priv.msgs w1.priv.rdcnt d (getreg8_D d w1)).map incr_rdcnt =
              some w' →
            ∃ t, w'.trace = w.trace ++ t ∧ quiet t ∧
              ((w'.priv.wait = 0 ∧ w'.priv.nmsg = 1 ∧
                  ∃ msg', w'.mem[w'.priv.msgs]? = some msg' ∧ msg'.flags = msg.flags) ∨
                (w'.priv.wait = 1 ∧ ¬ (w'.priv.nmsg ≠ 0 ∧ w'.priv.state = STATE_OK))) := by
          intro w1 t1 ht1 hq1 hp1 hm1 hs
          simp only [Option.map_eq_some'] at hs
          obtain ⟨w2, hst, rfl⟩ := hs
          obtain ⟨msg2, hm2, _, rfl⟩ := store_byte_eq _ _ _ _ _ hst
          have hmsg2 : msg2 = msg := by
            simp only [getreg8_D, World.log, hm1, hmsg, Option.some.injEq] at hm2
            exact hm2.symm
          subst hmsg2
          refine ⟨t1 ++ [Action.getreg8_D d, Action.store w.priv.msgs w1.priv.rdcnt d],
            ?_, ?_, Or.inl ?_⟩
          · simp [incr_rdcnt, getreg8_D, World.log, ht1]
          · exact quiet_append _ _ hq1 (by simp +decide [quiet, c1writes, dwrites])
          · simp [incr_rdcnt, getreg8_D, World.log, hp1, hm1, hwait, hn, hlt]
        by_cases h2 : (w.priv.rdcnt : Int) = msg.length - 2
        · simp only [h2, if_true] at h
          split_ifs at h
          · exact key
              { w with
                c1 := I2C_C1_IICEN ||| I2C_C1_IICIE ||| I2C_C1_MST ||| I2C_C1_TXAK,
                trace := w.trace ++ [Action.putreg8 I2C_S_IICIF Reg.S] ++
                  [Action.putreg8 (I2C_C1_IICEN ||| I2C_C1_IICIE ||| I2C_C1_MST ||| I2C_C1_TXAK)
                    Reg.C1] }
              [Action.putreg8 I2C_S_IICIF Reg.S,
                Action.putreg8 (I2C_C1_IICEN ||| I2C_C1_IICIE ||| I2C_C1_MST ||| I2C_C1_TXAK)
                  Reg.C1]
              (by simp) (by simp +decide [quiet, c1writes, dwrites]) rfl rfl h
          · exact key { w with trace := w.trace ++ [Action.putreg8 I2C_S_IICIF Reg.S] }
              [Action.putreg8 I2C_S_IICIF Reg.S]
              (by simp) (by simp +decide [quiet, c1writes, dwrites]) rfl rfl h
        · simp only [h2, if_false] at h
          exact key { w with trace := w.trace ++ [Action.putreg8 I2C_S_IICIF Reg.S] }
            [Action.putreg8 I2C_S_IICIF Reg.S]
            (by simp) (by simp +decide [quiet, c1writes, dwrites]) rfl rfl h
    · by_cases hnak : s &&& I2C_S_RXAK = 0
      · rw [interrupt_read_addressed s d w msg harb hnak hmsg hread htx] at h
        cases h
        refine ⟨_, rfl, ?_, Or.inl ⟨hwait, hn, msg, hmsg, rfl⟩⟩
        split_ifs <;> simp +decide [quiet, c1writes, dwrites]
      · rw [handler_on_nak s d w harb htx hnak] at h
        cases h
        exact ⟨_, rfl, by simp +decide [quiet, c1writes, dwrites],
          Or.inr ⟨by simp [hwait], by simp [STATE_NAK, STATE_OK]⟩⟩
  · rw [handler_on_arbitration_loss s d w harb] at h
    cases h
    exact ⟨_, rfl, by simp +decide [quiet, c1writes, dwrites],
      Or.inr ⟨by simp [hwait], by simp [STATE_ARBITRATION_ERROR, STATE_OK]⟩⟩

/-- While the coordinator waits on the last message, a read, nothing that
happens writes a repeated START or the data register, and the coordinator is
resumed only with the loop condition false. -/
theorem await_read_tail (evs : List Event) :
    ∀ (w : World) (msg : i2c_msg_s),
      w.mem[w.priv.msgs]? = some msg → I2C_M_READ &&& msg.flags ≠ 0 →
      w.priv.nmsg = 1 → w.priv.wait = 0 →
      ∀ w1, await_completion evs w = some w1 →
        ∃ t, w1.trace = w.trace ++ t ∧ quiet t ∧
          ¬ (w1.priv.nmsg ≠ 0 ∧ w1.priv.state = STATE_OK) := by
  induction evs with
  | nil =>
    intro w msg _ _ _ hwait w1 h
    simp [await_completion, hwait] at h
  | cons e rest ih =>
    intro w msg hmsg hread hn hwait w1 h
    rw [await_completion_cons _ _ _ hwait] at h
    cases e with
    | wdog =>
      simp only [deliver, Option.some_bind] at h
      rw [await_completion_pos _ _ (by simp [kinetis_i2c_timeout, sem_post_wait])] at h
      cases h
      exact ⟨[Action.sem_post Sem.wait], by simp [kinetis_i2c_timeout, sem_post_wait],
        by simp +decide [quiet, c1writes, dwrites],
        by simp [kinetis_i2c_timeout, sem_post_wait, STATE_TIMEOUT, STATE_OK]⟩
    | irq s d =>
      simp only [deliver] at h
      cases hstep : kinetis_i2c_interrupt s d w with
      | none => simp [hstep] at h
      | some w2 =>
        rw [hstep] at h
        simp only [Option.some_bind] at h
        obtain ⟨t, ht, hq, hcase⟩ := read_tail_step s d w w2 msg hmsg hread hn hwait hstep
        rcases hcase with ⟨hw0, hn2, msg2, hmsg2, hflags⟩ | ⟨hw1, hdone⟩
        · obtain ⟨t2, ht2, hq2, hdone⟩ := ih w2 msg2 hmsg2 (by rw [hflags]; exact hread) hn2 hw0
            w1 h
          exact ⟨t ++ t2, by rw [ht2, ht, List.append_assoc], quiet_append _ _ hq hq2, hdone⟩
        · rw [await_completion_pos _ _ (by omega)] at h
          cases h
          exact ⟨t, ht, hq, hdone⟩

/-- From the point where the coordinator blocks on the last message, a read,
the rest of the call writes no repeated START and nothing to the data
register, whatever the environment does. -/
theorem resume_read_tail (fuel : Nat) (w : World) (msg : i2c_msg_s) (r : Int) (w' : World)
    (hmsg : w.mem[w.priv.msgs]? = some msg) (hread : I2C_M_READ &&& msg.flags ≠ 0)
    (hn : w.priv.nmsg = 1) (hwait : w.priv.wait = 0)
    (h : transfer_resume fuel w = some (r, w')) :
    ∃ t, w'.trace = w.trace ++ t ∧ quiet t := by
  unfold transfer_resume wait_step at h
  simp only [Option.map_eq_some', Option.bind_eq_some] at h
  obtain ⟨wl, ⟨w2, ⟨w1, hawait, rfl⟩, hloop⟩, hexit⟩ := h
  obtain ⟨t, ht, hq, hdone⟩ := await_read_tail _ (w.log (Action.sem_wait Sem.wait)) msg
    (by simpa [World.log] using hmsg) hread (by simpa [World.log] using hn)
    (by simpa [World.log] using hwait) w1 hawait
  rw [transfer_loop_done _ _ (by simpa [World.log] using hdone)] at hloop
  cases hloop
  have htr : (transfer_exit (w1.log Action.wd_cancel)).2.trace =
      w1.trace ++ [Action.wd_cancel, Action.putreg8 I2C_C1_IICEN Reg.C1,
        Action.sem_post Sem.mutex] := by
    unfold transfer_exit
    simp only [putreg8, World.log]
    split_ifs <;> simp
  rw [hexit] at htr
  refine ⟨[Action.sem_wait Sem.wait] ++ t ++ [Action.wd_cancel,
    Action.putreg8 I2C_C1_IICEN Reg.C1, Action.sem_post Sem.mutex], ?_, ?_⟩
  · have htr2 : w'.trace = w1.trace ++ [Action.wd_cancel,
        Action.putreg8 I2C_C1_IICEN Reg.C1, Action.sem_post Sem.mutex] := htr
    rw [htr2, ht]
    simp [World.log]
  · exact quiet_append _ _ (quiet_append _ _ (by simp +decide [quiet, c1writes, dwrites]) hq)
      (by simp +decide [quiet, c1writes, dwrites])

theorem addr_low7 : ∀ x, x < 128 → (x <<< 1) ||| 1 = 2 * x + 1 ∧ x <<< 1 = 2 * x := by decide

theorem readaddr8_eq (a : Nat) : I2C_READADDR8 a = 2 * (a % 128) + 1 := by
  have h : a &&& 0x7f = a % 128 := Nat.and_pow_two_sub_one_eq_mod a 7
  unfold I2C_READADDR8 I2C_READBIT
  rw [h]
  exact (addr_low7 _ (Nat.mod_lt _ (by decide))).1

theorem writeaddr8_eq (a : Nat) : I2C_WRITEADDR8 a = 2 * (a % 128) := by
  have h : a &&& 0x7f = a % 128 := Nat.and_pow_two_sub_one_eq_mod a 7
  unfold I2C_WRITEADDR8
  rw [h]
  exact (addr_low7 _ (Nat.mod_lt _ (by decide))).2

/-- The first busy-wait of bus acquisition skips every poll that shows the bus
busy and consumes the first one that shows it free. -/
theorem wait_bus_free_skip (bs : List Nat) (pf : Nat) (tl : List Nat) (w : World)
    (hbs : ∀ p ∈ bs, p &&& I2C_S_BUSY ≠ 0) (hpf : pf &&& I2C_S_BUSY = 0) :
    wait_bus_free (bs ++ pf :: tl) w = some { w with polls := tl } := by
  induction bs with
  | nil => simp [wait_bus_free, hpf]
  | cons b bs ih =>
    have hb : b &&& I2C_S_BUSY ≠ 0 := hbs b (List.mem_cons_self _ _)
    simp only [List.cons_append, wait_bus_free, hb, ne_eq, not_false_eq_true, if_true]
    exact ih fun p hp => hbs p (List.mem_cons_of_mem _ hp)

/-- The second busy-wait (read messages) skips every poll that shows the bus
free and consumes the first one that shows it busy. -/
theorem wait_bus_busy_skip (fs : List Nat) (pb : Nat) (tl : List Nat) (w : World)
    (hfs : ∀ p ∈ fs, p &&& I2C_S_BUSY = 0) (hpb : pb &&& I2C_S_BUSY ≠ 0) :
    wait_bus_busy (fs ++ pb :: tl) w = some { w with polls := tl } := by
  induction fs with
  | nil => simp [wait_bus_busy, hpb]
  | cons b bs ih =>
    have hb : b &&& I2C_S_BUSY = 0 := hfs b (List.mem_cons_self _ _)
    simp only [List.cons_append, wait_bus_busy, hb, ne_eq, not_true_eq_false, if_false]
    exact ih fun p hp => hfs p (List.mem_cons_of_mem _ hp)

/-- The read flag is one bit: the two tests the source makes on it agree. -/
theorem read_flag_tests (f : Nat) : I2C_M_READ &&& f = I2C_M_READ ↔ I2C_M_READ &&& f ≠ 0 := by
  have h : I2C_M_READ &&& f = f % 2 := by
    unfold I2C_M_READ
    rw [Nat.and_comm]
    exact Nat.and_pow_two_sub_one_eq_mod f 1
  rw [h]
  unfold I2C_M_READ
  omega

theorem c1_rx_noack_bits :
    (I2C_C1_IICEN ||| I2C_C1_IICIE ||| I2C_C1_MST ||| I2C_C1_TXAK) &&& I2C_C1_TXAK ≠ 0 ∧
    (I2C_C1_IICEN ||| I2C_C1_IICIE ||| I2C_C1_MST ||| I2C_C1_TXAK) &&& I2C_C1_MST ≠ 0 ∧
    (I2C_C1_IICEN ||| I2C_C1_IICIE ||| I2C_C1_MST ||| I2C_C1_TXAK) &&& I2C_C1_TX = 0 := by
  decide

theorem c1_rx_bits :
    (I2C_C1_IICEN ||| I2C_C1_IICIE ||| I2C_C1_MST) &&& I2C_C1_TXAK = 0 ∧
    (I2C_C1_IICEN ||| I2C_C1_IICIE ||| I2C_C1_MST) &&& I2C_C1_MST ≠ 0 ∧
    (I2C_C1_IICEN ||| I2C_C1_IICIE ||| I2C_C1_MST) &&& I2C_C1_TX = 0 := by
  decide

/-! ### The handler never reads the status -/

theorem with_status_putreg8 (st v : Nat) (r : Reg) (w : World) :
    putreg8 v r (with_status st w) = with_status st (putreg8 v r w) := by
  cases r <;> rfl

theorem with_status_stop (st : Nat) (w : World) :
    kinetis_i2c_stop (with_status st w) = with_status st (kinetis_i2c_stop w) := rfl

theorem with_status_nextmsg (st : Nat) (w : World) :
    kinetis_i2c_nextmsg (with_status st w) = with_status st (kinetis_i2c_nextmsg w) := by
  unfold kinetis_i2c_nextmsg
  simp only [with_status]
  split_ifs <;> rfl

theorem with_status_load_byte (st m i : Nat) (w : World) :
    load_byte m i (with_status st w) =
      (load_byte m i w).map fun p => (p.1, with_status st p.2) := by
  unfold load_byte
  simp only [with_status]
  cases w.mem[m]? with
  | none => rfl
  | some msg =>
    simp only [Option.some_bind, Option.map_map]
    cases msg.buffer[i]? <;> rfl

theorem with_status_store_byte (st m i v : Nat) (w : World) :
    store_byte m i v (with_status st w) = (store_byte m i v w).map (with_status st) := by
  unfold store_byte
  simp only [with_status]
  cases w.mem[m]? with
  | none => rfl
  | some msg =>
    simp only [Option.some_bind]
    split_ifs <;> rfl

theorem with_status_tx_write (st m : Nat) (msg : i2c_msg_s) (w : World) :
    interrupt_tx_write m msg (with_status st w) =
      (interrupt_tx_write m msg w).map (with_status st) := by
  unfold interrupt_tx_write
  rw [with_status_nextmsg]
  by_cases h : (w.priv.wrcnt : Int) = msg.length
  · have h' : ((with_status st w).priv.wrcnt : Int) = msg.length := h
    rw [if_pos h, if_pos h']
    by_cases hr : (kinetis_i2c_nextmsg w).priv.restart = 0
    · have hr' : (with_status st (kinetis_i2c_nextmsg w)).priv.restart = 0 := hr
      rw [if_pos hr, if_pos hr', with_status_load_byte, Option.map_map, Option.map_map]
      rfl
    · have hr' : ¬ (with_status st (kinetis_i2c_nextmsg w)).priv.restart = 0 := hr
      rw [if_neg hr, if_neg hr']
      rfl
  · have h' : ¬ ((with_status st w).priv.wrcnt : Int) = msg.length := h
    rw [if_neg h, if_neg h', with_status_load_byte, Option.map_map, Option.map_map]
    rfl

theorem with_status_tx_read (st d : Nat) (msg : i2c_msg_s) (w : World) :
    interrupt_tx_read d msg (with_status st w) = with_status st (interrupt_tx_read d msg w) := by
  unfold interrupt_tx_read
  simp only [with_status]
  split_ifs <;> rfl

theorem with_status_rx (st d m : Nat) (msg : i2c_msg_s) (w : World) :
    interrupt_rx d m msg (with_status st w) = (interrupt_rx d m msg w).map (with_status st) := by
  unfold interrupt_rx
  have e1 : (with_status st w).priv.rdcnt = w.priv.rdcnt := rfl
  have e2 : (with_status st w).priv.restart = w.priv.restart := rfl
  have e3 : (with_status st w).priv.msgs = w.priv.msgs := rfl
  have e4 : (with_status st w).mem = w.mem := rfl
  have e5 : ∀ x, getreg8_D d (with_status st x) = with_status st (getreg8_D d x) := fun _ => rfl
  have e6 : ∀ x, (with_status st x).priv.rdcnt = x.priv.rdcnt := fun _ => rfl
  have e7 : ∀ x, incr_rdcnt (with_status st x) = with_status st (incr_rdcnt x) := fun _ => rfl
  rw [e1, e2, e3, e4]
  split_ifs with h1 hr h2 hr2
  · rw [with_status_putreg8]
    simp only [Option.some_bind, e5, e6, with_status_store_byte, Option.map_map]
    congr 1
    funext x
    simp only [Function.comp, e7, with_status_nextmsg]
  · cases hn : w.mem[w.priv.msgs + 1]? with
    | none => rfl
    | some next =>
      simp only [Option.map_some', Option.some_bind]
      split_ifs
      · rw [with_status_putreg8]
        simp only [e5, e6, with_status_store_byte, Option.map_map]
        congr 1
        funext x
        simp only [Function.comp, e7, with_status_nextmsg]
      · simp only [e5, e6, with_status_store_byte, Option.map_map]
        congr 1
        funext x
        simp only [Function.comp, e7, with_status_nextmsg]
  · rw [with_status_putreg8]
    simp only [e5, e6, with_status_store_byte, Option.map_map]
    congr 1
  · simp only [e5, e6, with_status_store_byte, Option.map_map]
    congr 1
  · simp only [e5, e6, with_status_store_byte, Option.map_map]
    congr 1

/-- Outside the two branches that set it, the handler neither tests nor
changes the status: it does with any status what it does with that of `w`. -/
theorem handler_ignores_status (s d st : Nat) (w : World)
    (harb : s &&& I2C_S_ARBL = 0)
    (hnak : w.c1 &&& I2C_C1_TX = 0 ∨ s &&& I2C_S_RXAK = 0) :
    kinetis_i2c_interrupt s d (with_status st w) =
      (kinetis_i2c_interrupt s d w).map (with_status st) := by
  unfold kinetis_i2c_interrupt
  simp only [harb, ne_eq, not_true_eq_false, if_false]
  rw [with_status_putreg8]
  have e1 : (with_status st (putreg8 I2C_S_IICIF Reg.S w)).c1 = w.c1 := rfl
  have e2 : (putreg8 I2C_S_IICIF Reg.S w).c1 = w.c1 := rfl
  have e3 : (with_status st (putreg8 I2C_S_IICIF Reg.S w)).mem = w.mem := rfl
  have e4 : (putreg8 I2C_S_IICIF Reg.S w).mem = w.mem := rfl
  have e5 : (with_status st (putreg8 I2C_S_IICIF Reg.S w)).priv.msgs = w.priv.msgs := rfl
  have e6 : (putreg8 I2C_S_IICIF Reg.S w).priv.msgs = w.priv.msgs := rfl
  rw [e1, e2, e3, e4, e5, e6]
  by_cases htx : w.c1 &&& I2C_C1_TX = 0
  · rw [if_neg (not_not.2 htx), if_neg (not_not.2 htx)]
    cases w.mem[w.priv.msgs]? with
    | none => rfl
    | some msg => simp only [Option.some_bind, with_status_rx]
  · have hack : s &&& I2C_S_RXAK = 0 := hnak.resolve_left htx
    rw [if_pos htx, if_pos htx, if_neg (not_not.2 hack), if_neg (not_not.2 hack)]
    cases w.mem[w.priv.msgs]? with
    | none => rfl
    | some msg =>
      simp only [Option.some_bind]
      split_ifs
      · rw [with_status_tx_write]
      · rw [with_status_tx_read]; rfl

/-! ### The engine never reads the trace -/

theorem after_log (T : List Action) (a : Action) (w : World) :
    (after T w).log a = after T (w.log a) := by
  simp [World.log, after]

theorem after_putreg8 (T : List Action) (v : Nat) (r : Reg) (w : World) :
    putreg8 v r (after T w) = after T (putreg8 v r w) := by
  cases r <;> simp [putreg8, after]

theorem after_getreg8_D (T : List Action) (d : Nat) (w : World) :
    getreg8_D d (after T w) = after T (getreg8_D d w) := after_log T _ w

theorem after_sem_post_wait (T : List Action) (w : World) :
    sem_post_wait (after T w) = after T (sem_post_wait w) := by
  simp [sem_post_wait, after]

theorem after_stop (T : List Action) (w : World) :
    kinetis_i2c_stop (after T w) = after T (kinetis_i2c_stop w) := by
  unfold kinetis_i2c_stop
  rw [after_putreg8, after_sem_post_wait]

theorem after_timeout (T : List Action) (w : World) :
    kinetis_i2c_timeout (after T w) = after T (kinetis_i2c_timeout w) := by
  unfold kinetis_i2c_timeout
  exact after_sem_post_wait T { w with priv := { w.priv with state := STATE_TIMEOUT } }

theorem after_nextmsg (T : List Action) (w : World) :
    kinetis_i2c_nextmsg (after T w) = after T (kinetis_i2c_nextmsg w) := by
  unfold kinetis_i2c_nextmsg
  have e1 : (after T w).priv = w.priv := rfl
  simp only [e1]
  split_ifs
  · exact after_sem_post_wait T
      { w with priv := { w.priv with nmsg := decr_nmsg w.priv.nmsg, msgs := w.priv.msgs + 1,
                                     wrcnt := 0, rdcnt := 0 } }
  · rfl
  · exact after_stop T { w with priv := { w.priv with nmsg := decr_nmsg w.priv.nmsg } }

theorem after_load_byte (T : List Action) (m i : Nat) (w : World) :
    load_byte m i (after T w) = (load_byte m i w).map fun p => (p.1, after T p.2) := by
  unfold load_byte
  have e1 : (after T w).mem = w.mem := rfl
  rw [e1]
  cases w.mem[m]? with
  | none => rfl
  | some msg =>
    simp only [Option.some_bind, Option.map_map]
    cases msg.buffer[i]? with
    | none => rfl
    | some v => simp only [Option.map_some', Function.comp, after_log]

theorem after_store_byte (T : List Action) (m i v : Nat) (w : World) :
    store_byte m i v (after T w) = (store_byte m i v w).map (after T) := by
  unfold store_byte
  have e1 : (after T w).mem = w.mem := rfl
  rw [e1]
  cases w.mem[m]? with
  | none => rfl
  | some msg =>
    simp only [Option.some_bind]
    split_ifs
    · simp [after]
    · rfl

theorem after_incr_wrcnt (T : List Action) (w : World) :
    incr_wrcnt (after T w) = after T (incr_wrcnt w) := rfl

theorem after_incr_rdcnt (T : List Action) (w : World) :
    incr_rdcnt (after T w) = after T (incr_rdcnt w) := rfl

theorem after_tx_write (T : List Action) (m : Nat) (msg : i2c_msg_s) (w : World) :
    interrupt_tx_write m msg (after T w) = (interrupt_tx_write m msg w).map (after T) := by
  unfold interrupt_tx_write
  rw [after_nextmsg]
  by_cases h : (w.priv.wrcnt : Int) = msg.length
  · have h' : ((after T w).priv.wrcnt : Int) = msg.length := h
    rw [if_pos h, if_pos h']
    by_cases hr : (kinetis_i2c_nextmsg w).priv.restart = 0
    · have hr' : (after T (kinetis_i2c_nextmsg w)).priv.restart = 0 := hr
      rw [if_pos hr, if_pos hr']
      have e : (after T (kinetis_i2c_nextmsg w)).priv = (kinetis_i2c_nextmsg w).priv := rfl
      rw [e, after_load_byte, Option.map_map, Option.map_map]
      congr 1
      funext p
      simp only [Function.comp, after_putreg8, after_incr_wrcnt, after_sem_post_wait]
    · have hr' : ¬ (after T (kinetis_i2c_nextmsg w)).priv.restart = 0 := hr
      rw [if_neg hr, if_neg hr']
      rfl
  · have h' : ¬ ((after T w).priv.wrcnt : Int) = msg.length := h
    have e : (after T w).priv = w.priv := rfl
    rw [if_neg h, if_neg h', e, after_load_byte, Option.map_map, Option.map_map]
    congr 1
    funext p
    simp only [Function.comp, after_putreg8, after_incr_wrcnt]

theorem after_tx_read (T : List Action) (d : Nat) (msg : i2c_msg_s) (w : World) :
    interrupt_tx_read d msg (after T w) = after T (interrupt_tx_read d msg w) := by
  unfold interrupt_tx_read
  have e : (after T w).priv = w.priv := rfl
  simp only [e]
  split_ifs
  · rw [after_putreg8, after_getreg8_D]
  · rw [after_putreg8, after_getreg8_D]

theorem after_rx (T : List Action) (d m : Nat) (msg : i2c_msg_s) (w : World) :
    interrupt_rx d m msg (after T w) = (interrupt_rx d m msg w).map (after T) := by
  unfold interrupt_rx
  have e1 : (after T w).priv = w.priv := rfl
  have e4 : (after T w).mem = w.mem := rfl
  have e6 : ∀ x, (after T x).priv = x.priv := fun _ => rfl
  rw [e1, e4]
  split_ifs with h1 hr h2 hr2
  · rw [after_putreg8]
    simp only [Option.some_bind, after_getreg8_D, e6, after_store_byte, Option.map_map]
    congr 1
    funext x
    simp only [Function.comp, after_incr_rdcnt, after_nextmsg]
  · cases hn : w.mem[w.priv.msgs + 1]? with
    | none => rfl
    | some next =>
      simp only [Option.map_some', Option.some_bind]
      split_ifs
      · rw [after_putreg8]
        simp only [after_getreg8_D, e6, after_store_byte, Option.map_map]
        congr 1
        funext x
        simp only [Function.comp, after_incr_rdcnt, after_nextmsg]
      · simp only [after_getreg8_D, e6, after_store_byte, Option.map_map]
        congr 1
        funext x
        simp only [Function.comp, after_incr_rdcnt, after_nextmsg]
  · rw [after_putreg8]
    simp only [after_getreg8_D, e6, after_store_byte, Option.map_map]
    congr 1
  · simp only [after_getreg8_D, e6, after_store_byte, Option.map_map]
    congr 1
  · simp only [after_getreg8_D, e6, after_store_byte, Option.map_map]
    congr 1

theorem after_interrupt (T : List Action) (s d : Nat) (w : World) :
    kinetis_i2c_interrupt s d (after T w) = (kinetis_i2c_interrupt s d w).map (after T) := by
  unfold kinetis_i2c_interrupt
  have e1 : ∀ x, (after T x).priv = x.priv := fun _ => rfl
  have e2 : ∀ x, (after T x).mem = x.mem := fun _ => rfl
  have e3 : ∀ x, (after T x).c1 = x.c1 := fun _ => rfl
  by_cases harb : s &&& I2C_S_ARBL = 0
  · simp only [harb, ne_eq, not_true_eq_false, if_false]
    rw [after_putreg8, e1, e2, e3]
    by_cases htx : (putreg8 I2C_S_IICIF Reg.S w).c1 &&& I2C_C1_TX = 0
    · simp only [htx, ne_eq, not_true_eq_false, if_false]
      cases (putreg8 I2C_S_IICIF Reg.S w).mem[(putreg8 I2C_S_IICIF Reg.S w).priv.msgs]? with
      | none => rfl
      | some msg => simp only [Option.some_bind, after_rx]
    · simp only [htx, ne_eq, not_false_eq_true, if_true]
      by_cases hnak : s &&& I2C_S_RXAK = 0
      · simp only [hnak, not_true_eq_false, if_false]
        cases (putreg8 I2C_S_IICIF Reg.S w).mem[(putreg8 I2C_S_IICIF Reg.S w).priv.msgs]? with
        | none => rfl
        | some msg =>
          simp only [Option.some_bind]
          split_ifs
          · rw [after_tx_write]
          · rw [after_tx_read]; rfl
      · simp only [hnak, not_false_eq_true, if_true]
        exact congrArg some (after_stop T
          { putreg8 I2C_S_IICIF Reg.S w with
            priv := { (putreg8 I2C_S_IICIF Reg.S w).priv with state := STATE_NAK } })
  · simp only [harb, ne_eq, not_false_eq_true, if_true]
    rw [after_putreg8]
    exact congrArg some (after_stop T
      { putreg8 (I2C_S_IICIF ||| I2C_S_ARBL) Reg.S w with
        priv := { (putreg8 (I2C_S_IICIF ||| I2C_S_ARBL) Reg.S w).priv with
                  state := STATE_ARBITRATION_ERROR } })

theorem after_deliver (T : List Action) (e : Event) (w : World) :
    deliver e (after T w) = (deliver e w).map (after T) := by
  cases e with
  | irq s d => exact after_interrupt T s d w
  | wdog => exact congrArg some (after_timeout T w)

theorem after_await_completion (T : List Action) (evs : List Event) :
    ∀ w, await_completion evs (after T w) = (await_completion evs w).map (after T) := by
  induction evs with
  | nil =>
    intro w
    unfold await_completion
    have e1 : (after T w).priv = w.priv := rfl
    rw [e1]
    split_ifs <;> rfl
  | cons e rest ih =>
    intro w
    unfold await_completion
    have e1 : (after T w).priv = w.priv := rfl
    rw [e1]
    split_ifs
    · rfl
    · rw [after_deliver]
      cases deliver e w with
      | none => rfl
      | some x => exact ih x

theorem after_compute_restart (T : List Action) (w : World) :
    compute_restart (after T w) = (compute_restart w).map (after T) := by
  unfold compute_restart
  have e1 : (after T w).priv = w.priv := rfl
  have e2 : (after T w).mem = w.mem := rfl
  simp only [e1, e2]
  split_ifs
  · cases w.mem[w.priv.msgs + 1]? with
    | none => rfl
    | some next =>
      cases w.mem[w.priv.msgs]? with
      | none => rfl
      | some cur =>
        simp only [Option.some_bind, Option.map_some']
        split_ifs <;> rfl
  · rfl

theorem after_wait_bus_free (T : List Action) (l : List Nat) (w : World) :
    wait_bus_free l (after T w) = (wait_bus_free l w).map (after T) := by
  induction l with
  | nil => rfl
  | cons p rest ih =>
    unfold wait_bus_free
    split_ifs
    · exact ih
    · rfl

theorem after_wait_bus_busy (T : List Action) (l : List Nat) (w : World) :
    wait_bus_busy l (after T w) = (wait_bus_busy l w).map (after T) := by
  induction l with
  | nil => rfl
  | cons p rest ih =>
    unfold wait_bus_busy
    split_ifs
    · rfl
    · exact ih

theorem after_start (T : List Action) (w : World) :
    kinetis_i2c_start (after T w) =
      (kinetis_i2c_start w).map fun p => (p.1, after T p.2) := by
  unfold kinetis_i2c_start
  have e1 : ∀ x, (after T x).priv = x.priv := fun _ => rfl
  have e2 : ∀ x, (after T x).mem = x.mem := fun _ => rfl
  have e3 : ∀ x, (after T x).c1 = x.c1 := fun _ => rfl
  have e4 : ∀ x, (after T x).polls = x.polls := fun _ => rfl
  have key : ∀ x : World,
      ((x.mem[x.priv.msgs]?).bind fun msg =>
        (if I2C_M_READ &&& msg.flags ≠ 0 then wait_bus_busy (after T x).polls (after T x)
          else some (after T x)).bind fun w2 =>
        some (OK, putreg8
          (if I2C_M_READ &&& msg.flags = I2C_M_READ then I2C_READADDR8 msg.addr
           else I2C_WRITEADDR8 msg.addr) Reg.D w2)) =
      ((x.mem[x.priv.msgs]?).bind fun msg =>
        (if I2C_M_READ &&& msg.flags ≠ 0 then wait_bus_busy x.polls x else some x).bind fun w2 =>
        some (OK, putreg8
          (if I2C_M_READ &&& msg.flags = I2C_M_READ then I2C_READADDR8 msg.addr
           else I2C_WRITEADDR8 msg.addr) Reg.D w2)).map fun p => (p.1, after T p.2) := by
    intro x
    cases x.mem[x.priv.msgs]? with
    | none => rfl
    | some msg =>
      simp only [Option.some_bind]
      by_cases hr : I2C_M_READ &&& msg.flags = 0
      · simp only [hr, ne_eq, not_true_eq_false, if_false, Option.some_bind, Option.map_some',
          after_putreg8]
      · simp only [hr, ne_eq, not_false_eq_true, if_true, e4, after_wait_bus_busy]
        cases wait_bus_busy x.polls x with
        | none => rfl
        | some y => simp only [Option.map_some', Option.some_bind, after_putreg8]
  rw [e3, e4]
  by_cases hm : w.c1 &&& I2C_C1_MST = 0
  · simp only [hm, ne_eq, not_true_eq_false, if_false, after_wait_bus_free]
    cases wait_bus_free w.polls w with
    | none => rfl
    | some x =>
      simp only [Option.map_some', Option.some_bind, after_putreg8, e1, e2]
      exact key _
  · simp only [hm, ne_eq, not_false_eq_true, if_true, Option.some_bind, after_putreg8, e1, e2]
    exact key _

theorem after_wait_step (T : List Action) (w : World) :
    wait_step (after T w) = (wait_step w).map (after T) := by
  unfold wait_step
  have e : (after T w).events = w.events := rfl
  rw [e, after_log, after_await_completion, Option.map_map, Option.map_map]
  congr 1
  funext x
  exact after_log T _ x

theorem after_transfer_step (T : List Action) (w : World) :
    transfer_step (after T w) = (transfer_step w).map (after T) := by
  unfold transfer_step
  rw [after_compute_restart]
  cases compute_restart w with
  | none => rfl
  | some w1 =>
    simp only [Option.map_some', Option.some_bind]
    have e2 : (after T w1).mem = w1.mem := rfl
    have e1 : (after T w1).priv = w1.priv := rfl
    rw [e1, e2]
    cases w1.mem[w1.priv.msgs]? with
    | none => rfl
    | some cur =>
      simp only [Option.some_bind]
      split_ifs
      · rw [after_start, Option.map_map]
        cases kinetis_i2c_start w1 with
        | none => rfl
        | some p =>
          simp only [Option.map_some', Option.some_bind, Function.comp, after_log,
            after_wait_step]
      · simp only [Option.some_bind, after_log, after_wait_step]

theorem after_transfer_loop (T : List Action) (fuel : Nat) :
    ∀ w, transfer_loop fuel (after T w) = (transfer_loop fuel w).map (after T) := by
  induction fuel with
  | zero =>
    intro w
    unfold transfer_loop
    have e1 : (after T w).priv = w.priv := rfl
    rw [e1]
    split_ifs <;> rfl
  | succ n ih =>
    intro w
    unfold transfer_loop
    have e1 : (after T w).priv = w.priv := rfl
    rw [e1]
    split_ifs
    · rw [after_transfer_step]
      cases transfer_step w with
      | none => rfl
      | some x => exact ih x
    · rfl

theorem after_transfer_exit (T : List Action) (w : World) :
    transfer_exit (after T w) = ((transfer_exit w).1, after T (transfer_exit w).2) := by
  unfold transfer_exit
  have e1 : ∀ x, (after T x).priv = x.priv := fun _ => rfl
  simp only [after_putreg8, after_log, e1]
  split_ifs <;> rfl

/-- The restart flag left by an earlier call is overwritten before it is
read. -/
theorem compute_restart_forgets (r : Int) (w : World) :
    compute_restart { w with priv := { w.priv with restart := r } } = compute_restart w := rfl

theorem transfer_step_forgets (r : Int) (w : World) :
    transfer_step { w with priv := { w.priv with restart := r } } = transfer_step w := rfl

/-! ### What a call depends on -/

theorem transfer_setup_form (b : Board) (msgs : List i2c_msg_s) (count : Int) (w : World)
    (first : i2c_msg_s) (h0 : msgs[0]? = some first) :
    transfer_setup b msgs count w = some
      (with_restart w.priv.restart
        (after (w.trace ++ setup_actions b first w) (loop_entry msgs count first w))) := by
  unfold transfer_setup loop_entry
  generalize (count % 2 ^ 32).toNat = N
  rw [h0]
  by_cases hf : first.frequency = w.priv.frequency
  · simp [kinetis_i2c_setfrequency, putreg8, World.log, clock_actions, hf, with_restart, after,
      setup_actions]
  · simp [kinetis_i2c_setfrequency, putreg8, World.log, clock_actions, hf, with_restart, after,
      setup_actions]

theorem transfer_loop_entered (T : List Action) (r : Int) (fuel : Nat) (S : World)
    (hc : S.priv.nmsg ≠ 0 ∧ S.priv.state = STATE_OK) :
    transfer_loop fuel (with_restart r (after T S)) = (transfer_loop fuel S).map (after T) := by
  have hc' : (with_restart r (after T S)).priv.nmsg ≠ 0 ∧
      (with_restart r (after T S)).priv.state = STATE_OK := hc
  cases fuel with
  | zero => simp only [transfer_loop, if_pos hc, if_pos hc', Option.map_none']
  | succ n =>
    rw [transfer_loop_succ n _ hc', transfer_loop_succ n _ hc]
    have e : transfer_step (with_restart r (after T S)) = transfer_step (after T S) := rfl
    rw [e, after_transfer_step]
    cases transfer_step S with
    | none => rfl
    | some x => exact after_transfer_loop T n x

theorem transfer_exit_with_restart (r : Int) (w : World) :
    transfer_exit (with_restart r w) =
      ((transfer_exit w).1, with_restart r (transfer_exit w).2) := by
  unfold transfer_exit
  have e : ∀ x : World, (with_restart r x).priv.state = x.priv.state := fun _ => rfl
  have e1 : putreg8 I2C_C1_IICEN Reg.C1 (with_restart r w) =
      with_restart r (putreg8 I2C_C1_IICEN Reg.C1 w) := rfl
  have e2 : ∀ x : World, (with_restart r x).log (Action.sem_post Sem.mutex) =
      with_restart r (x.log (Action.sem_post Sem.mutex)) := fun _ => rfl
  simp only [e1, e2, e]
  split_ifs <;> rfl

/-- A call, in terms of the loop run from the stripped entry state: the
history and the setup actions come back in front of the trace, and the restart
flag of the caller's state survives only when the loop is not entered. -/
theorem transfer_normal_form (b : Board) (fuel : Nat) (msgs : List i2c_msg_s) (count : Int)
    (w : World) (first : i2c_msg_s) (h0 : msgs[0]? = some first) :
    kinetis_i2c_transfer b fuel msgs count w =
      (transfer_loop fuel (loop_entry msgs count first w)).map fun x =>
        ((transfer_exit x).1,
          with_restart
            (if (loop_entry msgs count first w).priv.nmsg = 0 then w.priv.restart
             else (transfer_exit x).2.priv.restart)
            (after (w.trace ++ setup_actions b first w) (transfer_exit x).2)) := by
  unfold kinetis_i2c_transfer
  rw [transfer_setup_form b msgs count w first h0, Option.some_bind]
  by_cases hn : (loop_entry msgs count first w).priv.nmsg = 0
  · have hc : ¬ ((loop_entry msgs count first w).priv.nmsg ≠ 0 ∧
        (loop_entry msgs count first w).priv.state = STATE_OK) := fun h => h.1 hn
    have hc' : ¬ ((with_restart w.priv.restart (after (w.trace ++ setup_actions b first w)
        (loop_entry msgs count first w))).priv.nmsg ≠ 0 ∧
        (with_restart w.priv.restart (after (w.trace ++ setup_actions b first w)
        (loop_entry msgs count first w))).priv.state = STATE_OK) := hc
    rw [transfer_loop_done fuel _ hc, transfer_loop_done fuel _ hc']
    simp only [hn, if_true, Option.map_some', transfer_exit_with_restart, after_transfer_exit]
  · have hc : (loop_entry msgs count first w).priv.nmsg ≠ 0 ∧
        (loop_entry msgs count first w).priv.state = STATE_OK := ⟨hn, rfl⟩
    rw [transfer_loop_entered _ _ fuel _ hc, Option.map_map]
    simp only [hn, if_false]
    congr 1
    funext x
    simp only [Function.comp, after_transfer_exit]
    rfl

theorem transfer_no_message (b : Board) (fuel : Nat) (msgs : List i2c_msg_s) (count : Int)
    (w : World) (h0 : msgs[0]? = none) : kinetis_i2c_transfer b fuel msgs count w = none := by
  unfold kinetis_i2c_transfer transfer_setup
  rw [h0]
  rfl

theorem wire_setup_actions (b : Board) (first : i2c_msg_s) (w : World) :
    wire (setup_actions b first w) = [] := by
  unfold setup_actions
  have h : Action.sem_wait Sem.mutex ::
      (clock_actions b first.frequency w.priv.frequency ++
        [Action.putreg8 (I2C_S_IICIF ||| I2C_S_ARBL) Reg.S]) =
      [Action.sem_wait Sem.mutex] ++ clock_actions b first.frequency w.priv.frequency ++
        [Action.putreg8 (I2C_S_IICIF ||| I2C_S_ARBL) Reg.S] := by simp
  rw [h, wire_append, wire_append, wire_clock_actions]
  rfl

theorem call_trace_after (w y : World) (t : List Action) (r : Int) :
    call_trace w (with_restart r (after (w.trace ++ t) y)) = t ++ y.trace := by
  unfold call_trace
  have e : (with_restart r (after (w.trace ++ t) y)).trace = w.trace ++ (t ++ y.trace) := by
    simp [with_restart, after]
  rw [e, List.drop_left]

/-- The result, the buffers and the control- and data-register writes of a
call depend only on the messages, the environment, the control latch and the
pending count of the completion semaphore. -/
theorem transfer_outcome_eq (b : Board) (fuel : Nat) (msgs : List i2c_msg_s) (count : Int)
    (wa wb : World) (hwait : wa.priv.wait = wb.priv.wait) (hc1 : wa.c1 = wb.c1)
    (hpolls : wa.polls = wb.polls) (hevents : wa.events = wb.events) :
    (kinetis_i2c_transfer b fuel msgs count wa).map (outcome wa) =
      (kinetis_i2c_transfer b fuel msgs count wb).map (outcome wb) := by
  cases h0 : msgs[0]? with
  | none => rw [transfer_no_message _ _ _ _ _ h0, transfer_no_message _ _ _ _ _ h0]; rfl
  | some first =>
    have hB : loop_entry msgs count first wa = loop_entry msgs count first wb := by
      unfold loop_entry
      rw [hwait, hc1, hpolls, hevents]
    rw [transfer_normal_form _ _ _ _ wa first h0, transfer_normal_form _ _ _ _ wb first h0, hB,
      Option.map_map, Option.map_map]
    congr 1
    funext x
    simp only [Function.comp, outcome, call_trace_after, wire_append, wire_setup_actions]
    rfl

/-- When the cached frequency agrees as well, the two calls do the same in
every respect but the restart flag they leave. -/
theorem transfer_full_outcome_eq (b : Board) (fuel : Nat) (msgs : List i2c_msg_s) (count : Int)
    (wa wb : World) (hwait : wa.priv.wait = wb.priv.wait) (hc1 : wa.c1 = wb.c1)
    (hpolls : wa.polls = wb.polls) (hevents : wa.events = wb.events)
    (hfreq : wa.priv.frequency = wb.priv.frequency) :
    (kinetis_i2c_transfer b fuel msgs count wa).map (full_outcome wa) =
      (kinetis_i2c_transfer b fuel msgs count wb).map (full_outcome wb) := by
  cases h0 : msgs[0]? with
  | none => rw [transfer_no_message _ _ _ _ _ h0, transfer_no_message _ _ _ _ _ h0]; rfl
  | some first =>
    have hB : loop_entry msgs count first wa = loop_entry msgs count first wb := by
      unfold loop_entry
      rw [hwait, hc1, hpolls, hevents]
    have hS : setup_actions b first wa = setup_actions b first wb := by
      unfold setup_actions
      rw [hfreq]
    rw [transfer_normal_form _ _ _ _ wa first h0, transfer_normal_form _ _ _ _ wb first h0, hB,
      Option.map_map, Option.map_map]
    congr 1
    funext x
    simp only [Function.comp, full_outcome, call_trace_after, hS]
    rfl

/-- Every call that returns leaves the controller enabled, not master, with
its interrupt disabled. -/
theorem transfer_leaves_c1 (b : Board) (fuel : Nat) (msgs : List i2c_msg_s) (count : Int)
    (w w' : World) (r : Int) (h : kinetis_i2c_transfer b fuel msgs count w = some (r, w')) :
    w'.c1 = I2C_C1_IICEN := by
  unfold kinetis_i2c_transfer at h
  simp only [Option.bind_eq_some, Option.map_eq_some'] at h
  obtain ⟨_, _, x, _, hx⟩ := h
  have hc : (transfer_exit x).2.c1 = I2C_C1_IICEN := by
    unfold transfer_exit
    simp only
    split_ifs <;> rfl
  rw [hx] at hc
  exact hc

/-! ### Only `kinetis_i2c_setfrequency` touches the clock -/

theorem clockwrites_append (a b : List Action) :
    clockwrites (a ++ b) = clockwrites a ++ clockwrites b := by
  induction a with
  | nil => rfl
  | cons x t ih =>
    cases x with
    | putreg8 v r => cases r <;> simp [clockwrites, ih]
    | _ => simp [clockwrites, ih]

theorem clockwrites_clock_actions (b : Board) (f c : Nat) :
    clockwrites (clock_actions b f c) = clock_actions b f c := by
  unfold clock_actions
  split_ifs <;> rfl

theorem clock_view_log (a : Action) (w : World) (h : clockwrites [a] = []) :
    clock_view (w.log a) = clock_view w := by
  simp [clock_view, World.log, clockwrites_append, h]

theorem clock_view_putreg8 (v : Nat) (r : Reg) (w : World) (hF : r ≠ Reg.F)
    (hFLT : r ≠ Reg.FLT) : clock_view (putreg8 v r w) = clock_view w := by
  cases r <;> simp_all [clock_view, putreg8, clockwrites_append, clockwrites]

theorem clock_view_sem_post_wait (w : World) : clock_view (sem_post_wait w) = clock_view w := by
  simp [clock_view, sem_post_wait, clockwrites_append, clockwrites]

theorem clock_view_stop (w : World) : clock_view (kinetis_i2c_stop w) = clock_view w := by
  unfold kinetis_i2c_stop
  rw [clock_view_sem_post_wait, clock_view_putreg8 _ _ _ (by decide) (by decide)]

theorem clock_view_timeout (w : World) : clock_view (kinetis_i2c_timeout w) = clock_view w := by
  unfold kinetis_i2c_timeout
  rw [clock_view_sem_post_wait]
  rfl

theorem clock_view_nextmsg (w : World) : clock_view (kinetis_i2c_nextmsg w) = clock_view w := by
  unfold kinetis_i2c_nextmsg
  simp only
  split_ifs
  · rw [clock_view_sem_post_wait]; rfl
  · rfl
  · rw [clock_view_stop]; rfl

theorem clock_view_load_byte (m i v : Nat) (w w' : World)
    (h : load_byte m i w = some (v, w')) : clock_view w' = clock_view w := by
  unfold load_byte at h
  simp only [Option.bind_eq_some, Option.map_eq_some'] at h
  obtain ⟨_, _, _, _, h2⟩ := h
  cases h2
  exact clock_view_log _ w rfl

theorem clock_view_store_byte (m i v : Nat) (w w' : World)
    (h : store_byte m i v w = some w') : clock_view w' = clock_view w := by
  obtain ⟨msg, _, _, rfl⟩ := store_byte_eq m i v w w' h
  simp [clock_view, clockwrites_append, clockwrites]

theorem clock_view_tx_write (m : Nat) (msg : i2c_msg_s) (w w' : World)
    (h : interrupt_tx_write m msg w = some w') : clock_view w' = clock_view w := by
  have e : ∀ v x, clock_view (incr_wrcnt (putreg8 v Reg.D x)) = clock_view x := fun v x =>
    (rfl : clock_view (incr_wrcnt (putreg8 v Reg.D x)) = clock_view (putreg8 v Reg.D x)).trans
      (clock_view_putreg8 _ _ _ (by decide) (by decide))
  unfold interrupt_tx_write at h
  by_cases hc : (w.priv.wrcnt : Int) = msg.length
  · rw [if_pos hc] at h
    simp only at h
    by_cases hr : (kinetis_i2c_nextmsg w).priv.restart = 0
    · rw [if_pos hr] at h
      simp only [Option.map_eq_some'] at h
      obtain ⟨⟨v, w2⟩, h1, rfl⟩ := h
      rw [clock_view_sem_post_wait, e, clock_view_load_byte _ _ _ _ _ h1, clock_view_nextmsg]
    · rw [if_neg hr] at h
      cases h
      exact clock_view_nextmsg w
  · rw [if_neg hc] at h
    simp only [Option.map_eq_some'] at h
    obtain ⟨⟨v, w2⟩, h1, rfl⟩ := h
    rw [e, clock_view_load_byte _ _ _ _ _ h1]

theorem clock_view_tx_read (d : Nat) (msg : i2c_msg_s) (w : World) :
    clock_view (interrupt_tx_read d msg w) = clock_view w := by
  unfold interrupt_tx_read getreg8_D
  simp only
  split_ifs
  · rw [clock_view_log (Action.getreg8_D d) _ rfl,
      clock_view_putreg8 _ _ _ (by decide) (by decide)]
  · rw [clock_view_log (Action.getreg8_D d) _ rfl,
      clock_view_putreg8 _ _ _ (by decide) (by decide)]

theorem clock_view_rx (d m : Nat) (msg : i2c_msg_s) (w w' : World)
    (h : interrupt_rx d m msg w = some w') : clock_view w' = clock_view w := by
  have key : ∀ x y : World, ∀ i, store_byte m i d (getreg8_D d x) = some y →
      clock_view y = clock_view x := by
    intro x y i hs
    rw [clock_view_store_byte _ _ _ _ _ hs]
    exact clock_view_log _ x rfl
  have einc : ∀ x, clock_view (incr_rdcnt x) = clock_view x := fun _ => rfl
  unfold interrupt_rx at h
  split_ifs at h with h1 hr h2 hr2
  · simp only [Option.some_bind, Option.map_eq_some'] at h
    obtain ⟨y, hs, rfl⟩ := h
    rw [clock_view_nextmsg, einc, key _ _ _ hs,
      clock_view_putreg8 _ _ _ (by decide) (by decide)]
  · simp only [Option.bind_eq_some, Option.map_eq_some'] at h
    obtain ⟨x, ⟨next, _, hx⟩, y, hs, rfl⟩ := h
    rw [clock_view_nextmsg, einc, key _ _ _ hs, ← hx]
    split_ifs
    · exact clock_view_putreg8 _ _ _ (by decide) (by decide)
    · rfl
  · simp only [Option.map_eq_some'] at h
    obtain ⟨y, hs, rfl⟩ := h
    rw [einc, key _ _ _ hs, clock_view_putreg8 _ _ _ (by decide) (by decide)]
  · simp only [Option.map_eq_some'] at h
    obtain ⟨y, hs, rfl⟩ := h
    rw [einc, key _ _ _ hs]
  · simp only [Option.map_eq_some'] at h
    obtain ⟨y, hs, rfl⟩ := h
    rw [einc, key _ _ _ hs]

theorem clock_view_interrupt (s d : Nat) (w w' : World)
    (h : kinetis_i2c_interrupt s d w = some w') : clock_view w' = clock_view w := by
  have est : ∀ (x : World) (st : Nat),
      clock_view { x with priv := { x.priv with state := st } } = clock_view x := fun _ _ => rfl
  by_cases harb : s &&& I2C_S_ARBL = 0
  · by_cases htx : w.c1 &&& I2C_C1_TX = 0
    · unfold kinetis_i2c_interrupt at h
      simp only [harb, putreg8, htx, ne_eq, not_true_eq_false, if_false,
        Option.bind_eq_some] at h
      obtain ⟨msg, _, h2⟩ := h
      rw [clock_view_rx _ _ _ _ _ h2]
      exact clock_view_putreg8 I2C_S_IICIF Reg.S w (by decide) (by decide)
    · by_cases hnak : s &&& I2C_S_RXAK = 0
      · unfold kinetis_i2c_interrupt at h
        simp only [harb, putreg8, htx, hnak, ne_eq, not_true_eq_false, not_false_eq_true,
          if_false, if_true, Option.bind_eq_some] at h
        obtain ⟨msg, _, h2⟩ := h
        by_cases hrd : I2C_M_READ &&& msg.flags = 0
        · rw [if_pos hrd] at h2
          rw [clock_view_tx_write _ _ _ _ h2]
          exact clock_view_putreg8 I2C_S_IICIF Reg.S w (by decide) (by decide)
        · rw [if_neg hrd] at h2
          cases h2
          rw [clock_view_tx_read]
          exact clock_view_putreg8 I2C_S_IICIF Reg.S w (by decide) (by decide)
      · rw [handler_on_nak s d w harb htx hnak] at h
        cases h
        simp [clock_view, clockwrites_append, clockwrites]
  · rw [handler_on_arbitration_loss s d w harb] at h
    cases h
    simp [clock_view, clockwrites_append, clockwrites]

theorem clock_view_deliver (e : Event) (w w' : World) (h : deliver e w = some w') :
    clock_view w' = clock_view w := by
  cases e with
  | irq s d => exact clock_view_interrupt s d w w' h
  | wdog =>
    simp only [deliver, Option.some.injEq] at h
    rw [← h, clock_view_timeout]

theorem clock_view_await_completion (evs : List Event) :
    ∀ w w', await_completion evs w = some w' → clock_view w' = clock_view w := by
  induction evs with
  | nil =>
    intro w w' h
    unfold await_completion at h
    split_ifs at h
    cases h
    rfl
  | cons e rest ih =>
    intro w w' h
    unfold await_completion at h
    split_ifs at h
    · cases h; rfl
    · simp only [Option.bind_eq_some] at h
      obtain ⟨x, hx, h2⟩ := h
      rw [ih x w' h2, clock_view_deliver e w x hx]

theorem clock_view_compute_restart (w w' : World) (h : compute_restart w = some w') :
    clock_view w' = clock_view w := by
  unfold compute_restart at h
  simp only at h
  split_ifs at h
  · simp only [Option.bind_eq_some, Option.map_eq_some'] at h
    obtain ⟨_, _, _, _, h2⟩ := h
    rw [← h2]
    split_ifs <;> rfl
  · cases h; rfl

theorem clock_view_wait_bus_free (l : List Nat) (w w' : World)
    (h : wait_bus_free l w = some w') : clock_view w' = clock_view w := by
  induction l with
  | nil => simp [wait_bus_free] at h
  | cons s rest ih =>
    unfold wait_bus_free at h
    split_ifs at h
    · exact ih h
    · cases h; rfl

theorem clock_view_wait_bus_busy (l : List Nat) (w w' : World)
    (h : wait_bus_busy l w = some w') : clock_view w' = clock_view w := by
  induction l with
  | nil => simp [wait_bus_busy] at h
  | cons s rest ih =>
    unfold wait_bus_busy at h
    split_ifs at h
    · cases h; rfl
    · exact ih h

theorem clock_view_start (w w' : World) (r : Int) (h : kinetis_i2c_start w = some (r, w')) :
    clock_view w' = clock_view w := by
  unfold kinetis_i2c_start at h
  simp only [Option.bind_eq_some] at h
  obtain ⟨w1, h1, msg, _, w2, h2, h3⟩ := h
  have hw1 : clock_view w1 = clock_view w := by
    split_ifs at h1
    · cases h1
      exact clock_view_putreg8 _ _ _ (by decide) (by decide)
    · simp only [Option.map_eq_some'] at h1
      obtain ⟨w0, h0, rfl⟩ := h1
      rw [clock_view_putreg8 _ _ _ (by decide) (by decide)]
      exact clock_view_wait_bus_free _ w w0 h0
  have hw2 : clock_view w2 = clock_view w1 := by
    split_ifs at h2
    · exact clock_view_wait_bus_busy _ _ _ h2
    · cases h2; rfl
  cases h3
  rw [clock_view_putreg8 _ _ _ (by decide) (by decide), hw2, hw1]

theorem clock_view_wait_step (w w' : World) (h : wait_step w = some w') :
    clock_view w' = clock_view w := by
  unfold wait_step at h
  simp only [Option.map_eq_some'] at h
  obtain ⟨x, hx, rfl⟩ := h
  rw [clock_view_log Action.wd_cancel _ rfl, clock_view_await_completion _ _ _ hx,
    clock_view_log (Action.sem_wait Sem.wait) _ rfl]

theorem clock_view_transfer_step (w w' : World) (h : transfer_step w = some w') :
    clock_view w' = clock_view w := by
  unfold transfer_step at h
  simp only [Option.bind_eq_some] at h
  obtain ⟨w1, h1, cur, _, w2, h2, h3⟩ := h
  rw [clock_view_wait_step _ _ h3, clock_view_log Action.wd_start _ rfl]
  have hw2 : clock_view w2 = clock_view w1 := by
    split_ifs at h2
    · simp only [Option.map_eq_some'] at h2
      obtain ⟨⟨r, x⟩, hx, rfl⟩ := h2
      exact clock_view_start _ _ r hx
    · cases h2; rfl
  rw [hw2, clock_view_compute_restart _ _ h1]

theorem clock_view_transfer_loop (fuel : Nat) :
    ∀ w w', transfer_loop fuel w = some w' → clock_view w' = clock_view w := by
  induction fuel with
  | zero =>
    intro w w' h
    unfold transfer_loop at h
    split_ifs at h
    cases h; rfl
  | succ n ih =>
    intro w w' h
    unfold transfer_loop at h
    split_ifs at h
    · simp only [Option.bind_eq_some] at h
      obtain ⟨x, hx, h2⟩ := h
      rw [ih x w' h2, clock_view_transfer_step w x hx]
    · cases h; rfl

theorem clock_view_transfer_exit (w : World) :
    clock_view (transfer_exit w).2 = clock_view w := by
  have h : (transfer_exit w).2 =
      (putreg8 I2C_C1_IICEN Reg.C1 w).log (Action.sem_post Sem.mutex) := by
    unfold transfer_exit
    simp only
    split_ifs <;> rfl
  rw [h, clock_view_log (Action.sem_post Sem.mutex) _ rfl,
    clock_view_putreg8 _ _ _ (by decide) (by decide)]

/-- The loop and the exit of a call leave the cached frequency alone and write
neither the divider nor the filter register: whatever the call returns, its
clock configuration is the one made before the loop. -/
theorem transfer_clock (b : Board) (fuel : Nat) (msgs : List i2c_msg_s) (count : Int)
    (w w' : World) (r : Int) (first : i2c_msg_s) (h0 : msgs[0]? = some first)
    (h : kinetis_i2c_transfer b fuel msgs count w = some (r, w')) :
    w'.priv.frequency = first.frequency ∧
      clockwrites (call_trace w w') = clock_actions b first.frequency w.priv.frequency := by
  rw [transfer_normal_form b fuel msgs count w first h0] at h
  simp only [Option.map_eq_some', Prod.mk.injEq] at h
  obtain ⟨x, hx, _, rfl⟩ := h
  have hv : clock_view (transfer_exit x).2 = clock_view (loop_entry msgs count first w) := by
    rw [clock_view_transfer_exit, clock_view_transfer_loop fuel _ _ hx]
  have hf : (transfer_exit x).2.priv.frequency = first.frequency := congrArg Prod.fst hv
  have ht : clockwrites (transfer_exit x).2.trace = [] := congrArg Prod.snd hv
  refine ⟨hf, ?_⟩
  rw [call_trace_after, clockwrites_append, ht, List.append_nil]
  unfold setup_actions
  have e : Action.sem_wait Sem.mutex ::
      (clock_actions b first.frequency w.priv.frequency ++
        [Action.putreg8 (I2C_S_IICIF ||| I2C_S_ARBL) Reg.S]) =
      [Action.sem_wait Sem.mutex] ++ clock_actions b first.frequency w.priv.frequency ++
        [Action.putreg8 (I2C_S_IICIF ||| I2C_S_ARBL) Reg.S] := by simp
  rw [e, clockwrites_append, clockwrites_append, clockwrites_clock_actions]
  simp [clockwrites]

/-! ### A late interrupt -/

theorem coord_append (a b : List Action) : coord (a ++ b) = coord a ++ coord b := by
  induction a with
  | nil => rfl
  | cons x t ih =>
    cases x with
    | sem_wait s => cases s <;> simp [coord, ih]
    | _ => simp [coord, ih]

theorem coord_log (a : Action) (w : World) :
    coord (w.log a).trace = coord w.trace ++ coord [a] := by
  simp [World.log, coord_append]

theorem coord_putreg8 (v : Nat) (r : Reg) (w : World) :
    coord (putreg8 v r w).trace = coord w.trace := by
  cases r <;> simp [putreg8, coord_append, coord]

theorem putreg8_frame (v : Nat) (r : Reg) (w : World) :
    (putreg8 v r w).priv = w.priv ∧ (putreg8 v r w).mem = w.mem := by
  cases r <;> exact ⟨rfl, rfl⟩

theorem load_byte_eq (m i v : Nat) (w w' : World) (h : load_byte m i w = some (v, w')) :
    w' = w.log (Action.load m i) := by
  unfold load_byte at h
  simp only [Option.bind_eq_some, Option.map_eq_some'] at h
  obtain ⟨_, _, _, _, h2⟩ := h
  cases h2
  rfl

theorem set_same {α : Type} (l : List α) (m : Nat) (a : α) (h : l[m]? = some a) :
    l.set m a = l := by
  apply List.ext_getElem?
  intro i
  rw [List.getElem?_set]
  split_ifs with h1 h2
  · subst h1; exact h.symm
  · subst h1
    rw [List.getElem?_eq_none (by omega)] at h
    cases h
  · rfl

theorem shape_set (l : List i2c_msg_s) (m : Nat) (msg : i2c_msg_s) (buf : List Nat)
    (h : l[m]? = some msg) :
    (l.set m { msg with buffer := buf }).map shape = l.map shape := by
  rw [List.map_set]
  have hs : shape { msg with buffer := buf } = shape msg := rfl
  rw [hs]
  exact set_same _ _ _ (by rw [List.getElem?_map, h]; rfl)

/-- A stored byte changes no message shape, no field of the device record, not
the control latch and adds no coordinator action. -/
theorem store_byte_frame (m i v : Nat) (w w' : World) (h : store_byte m i v w = some w') :
    w'.priv = w.priv ∧ w'.c1 = w.c1 ∧ w'.mem.map shape = w.mem.map shape ∧
      coord w'.trace = coord w.trace := by
  obtain ⟨msg, hm, _, rfl⟩ := store_byte_eq m i v w w' h
  refine ⟨rfl, rfl, shape_set _ _ _ _ hm, ?_⟩
  simp [coord_append, coord]

/-- What the chain walker does to the fields the coordinator depends on. -/
theorem nextmsg_effect (w : World) (h1 : 1 ≤ w.priv.nmsg) :
    (kinetis_i2c_nextmsg w).mem = w.mem ∧
    (kinetis_i2c_nextmsg w).priv.state = w.priv.state ∧
    (kinetis_i2c_nextmsg w).priv.restart = w.priv.restart ∧
    (kinetis_i2c_nextmsg w).priv.nmsg + 1 = w.priv.nmsg ∧
    coord (kinetis_i2c_nextmsg w).trace = coord w.trace ∧
    (w.priv.nmsg = 1 → (kinetis_i2c_nextmsg w).priv.wait = w.priv.wait + 1) ∧
    (2 ≤ w.priv.nmsg →
      (kinetis_i2c_nextmsg w).priv.msgs = w.priv.msgs + 1 ∧
      (kinetis_i2c_nextmsg w).c1 = w.c1 ∧
      (w.priv.restart ≠ 0 → (kinetis_i2c_nextmsg w).priv.wait = w.priv.wait + 1) ∧
      (w.priv.restart = 0 → (kinetis_i2c_nextmsg w).priv.wait = w.priv.wait)) := by
  have hdec : decr_nmsg w.priv.nmsg = w.priv.nmsg - 1 := by
    unfold decr_nmsg
    rw [if_neg (by omega)]
  by_cases hn : w.priv.nmsg = 1
  · have hz : ¬ (w.priv.nmsg - 1 > 0) := by omega
    have e : kinetis_i2c_nextmsg w =
        kinetis_i2c_stop { w with priv := { w.priv with nmsg := w.priv.nmsg - 1 } } := by
      simp [kinetis_i2c_nextmsg, hdec, hz]
    rw [e]
    refine ⟨rfl, rfl, rfl, ?_, ?_, fun _ => rfl, fun h2 => by omega⟩
    · show w.priv.nmsg - 1 + 1 = w.priv.nmsg
      omega
    · simp [kinetis_i2c_stop, putreg8, sem_post_wait, coord_append, coord]
  · have hpos : w.priv.nmsg - 1 > 0 := by omega
    by_cases hr : w.priv.restart = 0
    · have e : kinetis_i2c_nextmsg w =
          { w with priv := { w.priv with nmsg := w.priv.nmsg - 1, msgs := w.priv.msgs + 1,
                                         wrcnt := 0, rdcnt := 0 } } := by
        simp [kinetis_i2c_nextmsg, hdec, hpos, hr]
      rw [e]
      refine ⟨rfl, rfl, rfl, ?_, rfl, fun h => absurd h hn,
        fun _ => ⟨rfl, rfl, fun h => absurd hr h, fun _ => rfl⟩⟩
      show w.priv.nmsg - 1 + 1 = w.priv.nmsg
      omega
    · have e : kinetis_i2c_nextmsg w =
          sem_post_wait
            { w with priv := { w.priv with nmsg := w.priv.nmsg - 1, msgs := w.priv.msgs + 1,
                                           wrcnt := 0, rdcnt := 0 } } := by
        simp [kinetis_i2c_nextmsg, hdec, hpos, hr]
      rw [e]
      refine ⟨rfl, rfl, rfl, ?_, ?_, fun h => absurd h hn,
        fun _ => ⟨rfl, rfl, fun _ => rfl, fun h => absurd h hr⟩⟩
      · show w.priv.nmsg - 1 + 1 = w.priv.nmsg
        omega
      · simp [sem_post_wait, coord_append, coord]

theorem tx_write_outcome (msg : i2c_msg_s) (w x : World)
    (hwait : w.priv.wait = 0) (h1 : 1 ≤ w.priv.nmsg)
    (hfresh : w.priv.restart = 0 → 2 ≤ w.priv.nmsg)
    (htx : w.c1 &&& I2C_C1_TX ≠ 0)
    (h : interrupt_tx_write w.priv.msgs msg w = some x) : step_outcome w x := by
  obtain ⟨nmem, nst, nres, nn, nco, nlast, nmore⟩ := nextmsg_effect w h1
  unfold interrupt_tx_write at h
  by_cases hc : (w.priv.wrcnt : Int) = msg.length
  · rw [if_pos hc] at h
    simp only at h
    by_cases hr : (kinetis_i2c_nextmsg w).priv.restart = 0
    · rw [if_pos hr] at h
      simp only [Option.map_eq_some'] at h
      obtain ⟨⟨v, w2⟩, hl, rfl⟩ := h
      have hw2 := load_byte_eq _ _ _ _ _ hl
      subst hw2
      have hr0 : w.priv.restart = 0 := nres ▸ hr
      obtain ⟨nmsgs, nc1, _, nwait⟩ := nmore (hfresh hr0)
      refine ⟨congrArg (List.map shape) nmem, ?_,
        Or.inr ⟨?_, fun _ => ⟨nn, nres, fun _ => ⟨nmsgs, ?_⟩⟩⟩⟩
      · simp [sem_post_wait, incr_wrcnt, putreg8, World.log, coord_append, coord, nco]
      · show (kinetis_i2c_nextmsg w).priv.wait + 1 = 1
        rw [nwait hr0, hwait]
      · show (kinetis_i2c_nextmsg w).c1 &&& I2C_C1_TX ≠ 0
        rw [nc1]; exact htx
    · rw [if_neg hr] at h
      cases h
      have hr1 : w.priv.restart ≠ 0 := nres ▸ hr
      refine ⟨congrArg (List.map shape) nmem, nco, Or.inr ⟨?_, fun _ => ⟨nn, nres, fun hpos => ?_⟩⟩⟩
      · by_cases hn : w.priv.nmsg = 1
        · rw [nlast hn, hwait]
        · rw [(nmore (by omega)).2.2.1 hr1, hwait]
      · obtain ⟨nmsgs, nc1, _, _⟩ := nmore (by omega)
        exact ⟨nmsgs, by rw [nc1]; exact htx⟩
  · rw [if_neg hc] at h
    simp only [Option.map_eq_some'] at h
    obtain ⟨⟨v, w2⟩, hl, rfl⟩ := h
    have hw2 := load_byte_eq _ _ _ _ _ hl
    subst hw2
    refine ⟨rfl, ?_, Or.inl ⟨hwait, rfl, rfl, rfl, rfl, fun _ => rfl⟩⟩
    simp [incr_wrcnt, putreg8, World.log, coord_append, coord]

theorem tx_read_outcome (d : Nat) (msg : i2c_msg_s) (w : World)
    (hwait : w.priv.wait = 0) (hr : w.priv.restart ≠ 0) :
    step_outcome w (interrupt_tx_read d msg w) := by
  unfold interrupt_tx_read
  simp only
  refine ⟨?_, ?_, Or.inl ⟨?_, ?_, ?_, ?_, ?_, fun h => absurd h hr⟩⟩ <;>
    split_ifs <;> simp [getreg8_D, putreg8, World.log, coord_append, coord, hwait]

theorem rx_outcome (d : Nat) (msg : i2c_msg_s) (w x : World)
    (hwait : w.priv.wait = 0) (h1 : 1 ≤ w.priv.nmsg) (hr : w.priv.restart ≠ 0)
    (h : interrupt_rx d w.priv.msgs msg w = some x) : step_outcome w x := by
  have ep : ∀ (v : Nat) (y : World), (putreg8 v Reg.C1 y).priv = y.priv := fun _ _ => rfl
  have key : ∀ (y z : World) (i : Nat), y.priv = w.priv → y.mem = w.mem →
      coord y.trace = coord w.trace →
      store_byte w.priv.msgs i d (getreg8_D d y) = some z →
      z.priv = w.priv ∧ z.c1 = y.c1 ∧ z.mem.map shape = w.mem.map shape ∧
        coord z.trace = coord w.trace := by
    intro y z i hp hm hco hs
    obtain ⟨zp, zc, zm, zco⟩ := store_byte_frame _ _ _ _ _ hs
    refine ⟨zp.trans hp, zc, ?_, ?_⟩
    · rw [zm]
      show y.mem.map shape = _
      rw [hm]
    · rw [zco, getreg8_D, coord_log, hco]
      simp [coord]
  unfold interrupt_rx at h
  by_cases hl : (w.priv.rdcnt : Int) = msg.length - 1
  · rw [if_pos hl, if_pos hr] at h
    simp only [Option.some_bind, Option.map_eq_some'] at h
    obtain ⟨z, hs, rfl⟩ := h
    obtain ⟨zp, zc, zm, zco⟩ := key _ z _ (ep _ w) rfl (coord_putreg8 _ _ w) hs
    have h1' : 1 ≤ (incr_rdcnt z).priv.nmsg := by
      show 1 ≤ z.priv.nmsg
      rw [zp]; exact h1
    obtain ⟨nmem, nst, nres, nn, nco, nlast, nmore⟩ := nextmsg_effect (incr_rdcnt z) h1'
    have ipriv : (incr_rdcnt z).priv.nmsg = w.priv.nmsg ∧ (incr_rdcnt z).priv.wait = 0 ∧
        (incr_rdcnt z).priv.restart = w.priv.restart ∧
        (incr_rdcnt z).priv.msgs = w.priv.msgs ∧
        (incr_rdcnt z).priv.state = w.priv.state := by
      refine ⟨?_, ?_, ?_, ?_, ?_⟩
      · show z.priv.nmsg = _
        rw [zp]
      · show z.priv.wait = _
        rw [zp, hwait]
      · show z.priv.restart = _
        rw [zp]
      · show z.priv.msgs = _
        rw [zp]
      · show z.priv.state = _
        rw [zp]
    obtain ⟨in_, iw, ir, im, ist⟩ := ipriv
    refine ⟨?_, ?_, Or.inr ⟨?_, fun _ => ⟨by rw [nn, in_], by rw [nres, ir], fun hpos => ?_⟩⟩⟩
    · rw [nmem]
      exact zm
    · rw [nco]
      exact zco
    · by_cases hn : w.priv.nmsg = 1
      · rw [nlast (by rw [in_]; exact hn), iw]
      · rw [(nmore (by rw [in_]; omega)).2.2.1 (by rw [ir]; exact hr), iw]
    · obtain ⟨nmsgs, nc1, _, _⟩ := nmore (by omega)
      refine ⟨by rw [nmsgs, im], ?_⟩
      rw [nc1]
      show z.c1 &&& I2C_C1_TX ≠ 0
      rw [zc]
      exact c1_start_tx
  · rw [if_neg hl] at h
    by_cases hl2 : (w.priv.rdcnt : Int) = msg.length - 2
    · rw [if_pos hl2, if_pos hr] at h
      simp only [Option.map_eq_some'] at h
      obtain ⟨z, hs, rfl⟩ := h
      obtain ⟨zp, zc, zm, zco⟩ := key _ z _ (ep _ w) rfl (coord_putreg8 _ _ w) hs
      refine ⟨zm, zco, Or.inl ⟨?_, ?_, ?_, ?_, ?_, fun h => absurd h hr⟩⟩
      · show z.priv.wait = 0
        rw [zp, hwait]
      · show z.priv.state = _
        rw [zp]
      · show z.priv.nmsg = _
        rw [zp]
      · show z.priv.msgs = _
        rw [zp]
      · show z.priv.restart = _
        rw [zp]
    · rw [if_neg hl2] at h
      simp only [Option.map_eq_some'] at h
      obtain ⟨z, hs, rfl⟩ := h
      obtain ⟨zp, zc, zm, zco⟩ := key w z _ rfl rfl rfl hs
      refine ⟨zm, zco, Or.inl ⟨?_, ?_, ?_, ?_, ?_, fun h => absurd h hr⟩⟩
      · show z.priv.wait = 0
        rw [zp, hwait]
      · show z.priv.state = _
        rw [zp]
      · show z.priv.nmsg = _
        rw [zp]
      · show z.priv.msgs = _
        rw [zp]
      · show z.priv.restart = _
        rw [zp]

theorem step_outcome_of_ack (w x : World)
    (h : step_outcome (putreg8 I2C_S_IICIF Reg.S w) x) : step_outcome w x := by
  obtain ⟨hm, hco, hor⟩ := h
  exact ⟨hm, hco.trans (coord_putreg8 _ _ w), hor⟩

/-- One handler invocation on a blocked coordinator with no completion signal
pending, when a cleared restart flag is fresh: the controller is in transmit
mode on a write message that is not the last. -/
theorem handler_outcome (s d : Nat) (w x : World)
    (hwait : w.priv.wait = 0) (h1 : 1 ≤ w.priv.nmsg)
    (hfresh : w.priv.restart = 0 →
      w.c1 &&& I2C_C1_TX ≠ 0 ∧ 2 ≤ w.priv.nmsg ∧
      ∃ cur, w.mem[w.priv.msgs]? = some cur ∧ I2C_M_READ &&& cur.flags = 0)
    (h : kinetis_i2c_interrupt s d w = some x) : step_outcome w x := by
  by_cases harb : s &&& I2C_S_ARBL = 0
  · by_cases htx : w.c1 &&& I2C_C1_TX = 0
    · have hr : w.priv.restart ≠ 0 := fun h0 => (hfresh h0).1 htx
      unfold kinetis_i2c_interrupt at h
      simp only [harb, ne_eq, not_true_eq_false, if_false] at h
      have e : (putreg8 I2C_S_IICIF Reg.S w).c1 = w.c1 := rfl
      rw [e] at h
      simp only [htx, not_true_eq_false, if_false, Option.bind_eq_some] at h
      obtain ⟨msg, _, h2⟩ := h
      exact step_outcome_of_ack w x
        (rx_outcome d msg (putreg8 I2C_S_IICIF Reg.S w) x hwait h1 hr h2)
    · by_cases hnak : s &&& I2C_S_RXAK = 0
      · unfold kinetis_i2c_interrupt at h
        simp only [harb, ne_eq, not_true_eq_false, if_false] at h
        have e : (putreg8 I2C_S_IICIF Reg.S w).c1 = w.c1 := rfl
        rw [e] at h
        simp only [htx, hnak, not_true_eq_false, not_false_eq_true, if_false, if_true,
          Option.bind_eq_some] at h
        obtain ⟨msg, hmsg, h2⟩ := h
        by_cases hrd : I2C_M_READ &&& msg.flags = 0
        · rw [if_pos hrd] at h2
          exact step_outcome_of_ack w x
            (tx_write_outcome msg (putreg8 I2C_S_IICIF Reg.S w) x hwait h1
              (fun h0 => (hfresh h0).2.1) htx h2)
        · rw [if_neg hrd] at h2
          cases h2
          have hr : w.priv.restart ≠ 0 := by
            intro h0
            obtain ⟨_, _, cur, hcur, hw⟩ := hfresh h0
            have e2 : (putreg8 I2C_S_IICIF Reg.S w).mem[(putreg8 I2C_S_IICIF Reg.S w).priv.msgs]?
                = w.mem[w.priv.msgs]? := rfl
            rw [e2, hcur] at hmsg
            cases hmsg
            exact hrd hw
          exact step_outcome_of_ack w _
            (tx_read_outcome d msg (putreg8 I2C_S_IICIF Reg.S w) hwait hr)
      · rw [handler_on_nak s d w harb htx hnak] at h
        cases h
        refine ⟨rfl, by simp [coord_append, coord], Or.inr ⟨?_, fun h => ?_⟩⟩
        · show w.priv.wait + 1 = 1
          rw [hwait]
        · exact absurd h (by decide : STATE_NAK ≠ STATE_OK)
  · rw [handler_on_arbitration_loss s d w harb] at h
    cases h
    refine ⟨rfl, by simp [coord_append, coord], Or.inr ⟨?_, fun h => ?_⟩⟩
    · show w.priv.wait + 1 = 1
      rw [hwait]
    · exact absurd h (by decide : STATE_ARBITRATION_ERROR ≠ STATE_OK)

theorem restart_fresh_mem (w : World) (h : restart_fresh w) :
    w.priv.restart = 0 →
      w.c1 &&& I2C_C1_TX ≠ 0 ∧ 2 ≤ w.priv.nmsg ∧
      ∃ cur, w.mem[w.priv.msgs]? = some cur ∧ I2C_M_READ &&& cur.flags = 0 := by
  intro h0
  obtain ⟨htx, hn, sh, hsh, hw⟩ := h h0
  rw [List.getElem?_map] at hsh
  cases hc : w.mem[w.priv.msgs]? with
  | none => rw [hc] at hsh; cases hsh
  | some cur =>
    rw [hc] at hsh
    simp only [Option.map_some', Option.some.injEq] at hsh
    refine ⟨htx, hn, cur, rfl, ?_⟩
    rw [← hsh] at hw
    exact hw

/-- One wait of the coordinator, under the same conditions: it is resumed with
the message shapes unchanged and no coordinator action added, and when the
status is still STATE_OK exactly one message has been completed. -/
theorem await_outcome (evs : List Event) :
    ∀ (w y : World), w.priv.wait = 0 → 1 ≤ w.priv.nmsg → restart_fresh w →
      await_completion evs w = some y →
      y.mem.map shape = w.mem.map shape ∧ coord y.trace = coord w.trace ∧ y.priv.wait = 0 ∧
      (y.priv.state = STATE_OK →
        y.priv.nmsg + 1 = w.priv.nmsg ∧
        (0 < y.priv.nmsg → y.priv.msgs = w.priv.msgs + 1 ∧ y.c1 &&& I2C_C1_TX ≠ 0)) := by
  induction evs with
  | nil =>
    intro w y hwait _ _ h
    simp [await_completion, hwait] at h
  | cons e rest ih =>
    intro w y hwait h1 hfresh h
    rw [await_completion_cons e rest w hwait] at h
    simp only [Option.bind_eq_some] at h
    obtain ⟨x, hx, hy⟩ := h
    have hstep : step_outcome w x := by
      cases e with
      | irq s d => exact handler_outcome s d w x hwait h1 (restart_fresh_mem w hfresh) hx
      | wdog =>
        simp only [deliver, Option.some.injEq] at hx
        subst hx
        refine ⟨rfl, by simp [kinetis_i2c_timeout, sem_post_wait, coord_append, coord],
          Or.inr ⟨?_, fun h => ?_⟩⟩
        · show w.priv.wait + 1 = 1
          rw [hwait]
        · exact absurd h (by decide : STATE_TIMEOUT ≠ STATE_OK)
    obtain ⟨hm, hco, hor⟩ := hstep
    rcases hor with ⟨xw, xst, xn, xm, xr, xc⟩ | ⟨xw, xok⟩
    · have hfresh' : restart_fresh x := by
        intro h0
        have h0' : w.priv.restart = 0 := xr ▸ h0
        obtain ⟨htx, hn, sh, hsh, hw⟩ := hfresh h0'
        refine ⟨by rw [xc h0']; exact htx, by rw [xn]; exact hn, sh, ?_, hw⟩
        rw [hm, xm]
        exact hsh
      obtain ⟨ym, yco, yw, yok⟩ := ih x y xw (by rw [xn]; exact h1) hfresh' hy
      refine ⟨ym.trans hm, yco.trans hco, yw, fun hs => ?_⟩
      obtain ⟨yn, ymore⟩ := yok hs
      exact ⟨by rw [yn, xn], fun hpos => by rw [← xm]; exact ymore hpos⟩
    · rw [await_completion_pos rest x (by omega)] at hy
      cases hy
      refine ⟨hm, hco, ?_, fun hs => ?_⟩
      · show x.priv.wait - 1 = 0
        omega
      · obtain ⟨xn, _, xmore⟩ := xok hs
        exact ⟨xn, xmore⟩

/-- The restart flag is cleared only for a message that is not the last and is
followed by a message of the same direction that carries `I2C_M_NORESTART`
for the same address and frequency. -/
theorem compute_restart_eq (w w1 : World) (h : compute_restart w = some w1) :
    ∃ r, w1 = { w with priv := { w.priv with restart := r } } ∧
      (r = 0 → 1 < w.priv.nmsg ∧ ∃ cur next, w.mem[w.priv.msgs]? = some cur ∧
        w.mem[w.priv.msgs + 1]? = some next ∧
        next.flags &&& I2C_M_NORESTART ≠ 0 ∧ next.addr = cur.addr ∧
        next.frequency = cur.frequency ∧
        next.flags &&& I2C_M_READ = cur.flags &&& I2C_M_READ) := by
  unfold compute_restart at h
  simp only at h
  by_cases hn : 1 < w.priv.nmsg
  · rw [if_pos hn] at h
    simp only [Option.bind_eq_some, Option.map_eq_some'] at h
    obtain ⟨next, hnext, cur, hcur, rfl⟩ := h
    by_cases hc : next.flags &&& I2C_M_NORESTART ≠ 0 ∧ next.addr = cur.addr ∧
        next.frequency = cur.frequency ∧
        next.flags &&& I2C_M_READ = cur.flags &&& I2C_M_READ
    · rw [if_pos hc]
      exact ⟨0, rfl, fun _ => ⟨hn, cur, next, hcur, hnext, hc⟩⟩
    · rw [if_neg hc]
      exact ⟨1, rfl, fun h => absurd h (by decide)⟩
  · rw [if_neg hn] at h
    cases h
    exact ⟨1, rfl, fun h => absurd h (by decide)⟩

theorem wait_bus_free_same (l : List Nat) (w w' : World) (h : wait_bus_free l w = some w') :
    w'.c1 = w.c1 ∧ w'.trace = w.trace := by
  induction l with
  | nil => simp [wait_bus_free] at h
  | cons s rest ih =>
    unfold wait_bus_free at h
    split_ifs at h
    · exact ih h
    · cases h; exact ⟨rfl, rfl⟩

theorem wait_bus_busy_same (l : List Nat) (w w' : World) (h : wait_bus_busy l w = some w') :
    w'.c1 = w.c1 ∧ w'.trace = w.trace := by
  induction l with
  | nil => simp [wait_bus_busy] at h
  | cons s rest ih =>
    unfold wait_bus_busy at h
    split_ifs at h
    · cases h; exact ⟨rfl, rfl⟩
    · exact ih h

/-- Bus acquisition leaves the controller in transmit mode and adds no
coordinator action. -/
theorem start_mode (w w' : World) (r : Int) (h : kinetis_i2c_start w = some (r, w')) :
    w'.c1 &&& I2C_C1_TX ≠ 0 ∧ coord w'.trace = coord w.trace := by
  unfold kinetis_i2c_start at h
  simp only [Option.bind_eq_some] at h
  obtain ⟨w1, h1, msg, _, w2, h2, h3⟩ := h
  have hw1 : w1.c1 &&& I2C_C1_TX ≠ 0 ∧ coord w1.trace = coord w.trace := by
    split_ifs at h1
    · cases h1
      exact ⟨c1_restart_tx, coord_putreg8 _ _ w⟩
    · simp only [Option.map_eq_some'] at h1
      obtain ⟨w0, h0, rfl⟩ := h1
      refine ⟨c1_start_tx, ?_⟩
      rw [coord_putreg8, (wait_bus_free_same _ w w0 h0).2]
  have hw2 : w2.c1 = w1.c1 ∧ w2.trace = w1.trace := by
    split_ifs at h2
    · exact wait_bus_busy_same _ _ _ h2
    · cases h2; exact ⟨rfl, rfl⟩
  cases h3
  refine ⟨?_, ?_⟩
  · show w2.c1 &&& I2C_C1_TX ≠ 0
    rw [hw2.1]; exact hw1.1
  · rw [coord_putreg8, hw2.2]; exact hw1.2

theorem shape_lookup (l : List i2c_msg_s) (i : Nat) (m : i2c_msg_s) (h : l[i]? = some m) :
    (l.map shape)[i]? = some (shape m) := by
  rw [List.getElem?_map, h]
  rfl

/-- One iteration of the coordinator loop from a loop head: one round of
coordinator actions, and when the status is still STATE_OK one message
fewer to go. -/
theorem step_count (S : List i2c_msg_s) (count : Nat) (w x : World)
    (hfirst : ∀ first, S[0]? = some first → first.flags &&& I2C_M_NORESTART = 0)
    (hmerge : no_merged_read S count)
    (hI : loop_head S count w) (hpos : 0 < w.priv.nmsg)
    (h : transfer_step w = some x) :
    x.mem.map shape = S ∧ x.priv.wait = 0 ∧
    coord x.trace = coord w.trace ++ coord_round ∧
    (x.priv.state = STATE_OK →
      x.priv.nmsg + 1 = w.priv.nmsg ∧
      (0 < x.priv.nmsg → x.priv.msgs = w.priv.msgs + 1 ∧ x.c1 &&& I2C_C1_TX ≠ 0)) := by
  obtain ⟨hwait, hS, hmore⟩ := hI
  obtain ⟨hsum, htxI⟩ := hmore hpos
  unfold transfer_step at h
  simp only [Option.bind_eq_some] at h
  obtain ⟨w1, hcr, cur, hcur, w2, hst, hws⟩ := h
  obtain ⟨r, rfl, hr⟩ := compute_restart_eq w w1 hcr
  have hcur' : w.mem[w.priv.msgs]? = some cur := hcur
  -- the state in which the watchdog is armed
  have hw2 : w2.priv = { w.priv with restart := r } ∧ w2.mem = w.mem ∧
      coord w2.trace = coord w.trace ∧
      (cur.flags &&& I2C_M_NORESTART = 0 → w2.c1 &&& I2C_C1_TX ≠ 0) ∧
      (cur.flags &&& I2C_M_NORESTART ≠ 0 → w2.c1 = w.c1) := by
    by_cases hfl : cur.flags &&& I2C_M_NORESTART = 0
    · rw [if_pos hfl] at hst
      simp only [Option.map_eq_some'] at hst
      obtain ⟨⟨rr, y⟩, hy, rfl⟩ := hst
      obtain ⟨yp, ym⟩ := start_frame _ y rr hy
      obtain ⟨ytx, yco⟩ := start_mode _ y rr hy
      exact ⟨yp, ym, yco, fun _ => ytx, fun h => absurd hfl h⟩
    · rw [if_neg hfl] at hst
      cases hst
      exact ⟨rfl, rfl, rfl, fun h => absurd h hfl, fun _ => rfl⟩
  obtain ⟨w2p, w2m, w2co, w2tx, w2c⟩ := hw2
  -- the wait
  unfold wait_step at hws
  simp only [Option.map_eq_some'] at hws
  obtain ⟨y, hy, rfl⟩ := hws
  have hfresh : restart_fresh ((w2.log Action.wd_start).log (Action.sem_wait Sem.wait)) := by
    intro h0
    have hr0 : r = 0 := by
      have : w2.priv.restart = 0 := h0
      rw [w2p] at this
      exact this
    obtain ⟨hn, c, next, hc, hnext, hfl, ha, hf, hd⟩ := hr hr0
    rw [hcur'] at hc
    cases hc
    have hwr : I2C_M_READ &&& cur.flags = 0 := by
      by_contra hrd
      refine hmerge w.priv.msgs (shape cur) (shape next) (by omega) ?_ ?_ hrd ⟨hfl, ha, hf, hd⟩
      · rw [← hS]; exact shape_lookup _ _ _ hcur'
      · rw [← hS]; exact shape_lookup _ _ _ hnext
    refine ⟨?_, ?_, shape cur, ?_, hwr⟩
    · show w2.c1 &&& I2C_C1_TX ≠ 0
      by_cases hcf : cur.flags &&& I2C_M_NORESTART = 0
      · exact w2tx hcf
      · rw [w2c hcf]
        refine htxI (Nat.pos_of_ne_zero fun hz => hcf ?_)
        refine hfirst (shape cur) ?_
        rw [← hS, ← hz]
        exact shape_lookup _ _ _ hcur'
    · show 2 ≤ w2.priv.nmsg
      rw [w2p]
      exact hn
    · show (w2.mem.map shape)[w2.priv.msgs]? = some (shape cur)
      rw [w2m, w2p]
      exact shape_lookup _ _ _ hcur'
  obtain ⟨ym, yco, yw, yok⟩ := await_outcome _ _ y
    (by show w2.priv.wait = 0; rw [w2p]; exact hwait)
    (by show 1 ≤ w2.priv.nmsg; rw [w2p]; exact hpos) hfresh hy
  refine ⟨?_, yw, ?_, fun hs => ?_⟩
  · show y.mem.map shape = S
    rw [ym]
    show w2.mem.map shape = S
    rw [w2m, hS]
  · rw [coord_log, yco, coord_log, coord_log, w2co]
    simp [coord, coord_round]
  · obtain ⟨yn, ymore⟩ := yok hs
    have e1 : w2.priv.nmsg = w.priv.nmsg := by rw [w2p]
    have e2 : w2.priv.msgs = w.priv.msgs := by rw [w2p]
    refine ⟨yn.trans e1, fun hp => ?_⟩
    obtain ⟨y1, y2⟩ := ymore hp
    exact ⟨y1.trans (congrArg (· + 1) e2), y2⟩

/-- The coordinator loop from a loop head, when it ends with status STATE_OK:
one round of coordinator actions per message that was left. -/
theorem loop_count (S : List i2c_msg_s) (count : Nat)
    (hfirst : ∀ first, S[0]? = some first → first.flags &&& I2C_M_NORESTART = 0)
    (hmerge : no_merged_read S count) (fuel : Nat) :
    ∀ (w w' : World), loop_head S count w → transfer_loop fuel w = some w' →
      w'.priv.state = STATE_OK →
      coord w'.trace = coord w.trace ++ (List.replicate w.priv.nmsg coord_round).flatten := by
  induction fuel with
  | zero =>
    intro w w' _ h hok
    unfold transfer_loop at h
    split_ifs at h with hc
    cases h
    have hn : w.priv.nmsg = 0 := by
      by_contra hne
      exact hc ⟨hne, hok⟩
    rw [hn]
    simp
  | succ n ih =>
    intro w w' hI h hok
    unfold transfer_loop at h
    split_ifs at h with hc
    · simp only [Option.bind_eq_some] at h
      obtain ⟨x, hx, hl⟩ := h
      obtain ⟨xm, xw, xco, xok⟩ :=
        step_count S count w x hfirst hmerge hI (Nat.pos_of_ne_zero hc.1) hx
      have hxs : x.priv.state = STATE_OK := by
        by_contra hne
        rw [transfer_loop_done n x (fun h => hne h.2)] at hl
        cases hl
        exact hne hok
      obtain ⟨xn, xmore⟩ := xok hxs
      obtain ⟨_, _, hmore⟩ := hI
      obtain ⟨hsum, _⟩ := hmore (Nat.pos_of_ne_zero hc.1)
      have hIx : loop_head S count x := by
        refine ⟨xw, xm, fun hp => ?_⟩
        obtain ⟨x1, x2⟩ := xmore hp
        exact ⟨by omega, fun _ => x2⟩
      rw [ih x w' hIx hl hok, xco, ← xn, List.replicate_succ, List.flatten_cons,
        List.append_assoc]
    · cases h
      have hn : w.priv.nmsg = 0 := by
        by_contra hne
        exact hc ⟨hne, hok⟩
      rw [hn]
      simp

theorem no_merged_read_shape (l : List i2c_msg_s) (count : Nat) (h : no_merged_read l count) :
    no_merged_read (l.map shape) count := by
  intro i cur next hi hcur hnext
  rw [List.getElem?_map] at hcur hnext
  cases hc : l[i]? with
  | none => rw [hc] at hcur; cases hcur
  | some c =>
    cases hn : l[i + 1]? with
    | none => rw [hn] at hnext; cases hnext
    | some nx =>
      rw [hc] at hcur
      rw [hn] at hnext
      simp only [Option.map_some', Option.some.injEq] at hcur hnext
      subst hcur
      subst hnext
      exact h i c nx hi hc hn

theorem coord_setup_actions (b : Board) (first : i2c_msg_s) (w : World) :
    coord (setup_actions b first w) = [] := by
  unfold setup_actions clock_actions
  split_ifs <;> simp [coord]

theorem nmsg_of_count (count : Nat) (h : count < 2 ^ 31) :
    ((count : Int) % 2 ^ 32).toNat = count := by
  have h32 : (2 : Int) ^ 32 = ((2 ^ 32 : Nat) : Int) := by norm_num
  rw [h32, ← Int.ofNat_emod, Int.toNat_ofNat]
  exact Nat.mod_eq_of_lt (by omega)

/-- An iteration of the coordinator loop is `enter_wait` followed by the
wait. -/
theorem transfer_step_enter_wait (w : World) :
    transfer_step w = (enter_wait w).bind fun w3 =>
      (await_completion w3.events w3).map fun w4 => w4.log Action.wd_cancel := by
  unfold transfer_step enter_wait wait_step
  cases compute_restart w with
  | none => rfl
  | some w1 =>
    simp only [Option.some_bind]
    cases w1.mem[w1.priv.msgs]? with
    | none => rfl
    | some cur =>
      simp only [Option.some_bind]
      split_ifs
      · cases kinetis_i2c_start w1 with
        | none => rfl
        | some p => rfl
      · rfl

theorem posts_append (a b : List Action) : posts (a ++ b) = posts a + posts b := by
  induction a with
  | nil => simp [posts]
  | cons x t ih =>
    cases x with
    | sem_post s =>
      cases s
      · simp [posts, ih]
      · simp [posts, ih]
        omega
    | _ => simp [posts, ih]

theorem signalled_refl (w : World) : signalled 0 w w := ⟨rfl, rfl⟩

theorem signalled_trans {a b : Nat} {w x y : World} (h1 : signalled a w x)
    (h2 : signalled b x y) : signalled (a + b) w y := by
  obtain ⟨p1, q1⟩ := h1
  obtain ⟨p2, q2⟩ := h2
  exact ⟨by rw [p2, p1]; omega, by rw [q2, q1]; omega⟩

theorem signalled_log (a : Action) (w : World) (ha : posts [a] = 0) :
    signalled 0 w (w.log a) := by
  refine ⟨?_, rfl⟩
  show posts (w.trace ++ [a]) = posts w.trace + 0
  rw [posts_append, ha]

theorem signalled_putreg8 (v : Nat) (r : Reg) (w : World) : signalled 0 w (putreg8 v r w) := by
  cases r <;> exact ⟨by simp [putreg8, posts_append, posts], rfl⟩

theorem signalled_post (w : World) : signalled 1 w (sem_post_wait w) :=
  ⟨by simp [sem_post_wait, posts_append, posts], rfl⟩

theorem signalled_stop (w : World) : signalled 1 w (kinetis_i2c_stop w) := by
  have h := signalled_trans (signalled_putreg8 (I2C_C1_IICEN ||| I2C_C1_IICIE) Reg.C1 w)
    (signalled_post (putreg8 (I2C_C1_IICEN ||| I2C_C1_IICIE) Reg.C1 w))
  exact h

theorem signalled_load (m i v : Nat) (w w' : World) (h : load_byte m i w = some (v, w')) :
    signalled 0 w w' := by
  rw [load_byte_eq m i v w w' h]
  exact signalled_log (Action.load m i) w rfl

theorem signalled_store (m i v : Nat) (w w' : World) (h : store_byte m i v w = some w') :
    signalled 0 w w' := by
  obtain ⟨msg, _, _, rfl⟩ := store_byte_eq m i v w w' h
  exact ⟨by simp [posts_append, posts], rfl⟩

/-- The chain walker signals once, except when a message remains and the
restart flag is clear: then it is silent. -/
theorem signalled_nextmsg (w : World) :
    signalled (if decr_nmsg w.priv.nmsg > 0 ∧ w.priv.restart = 0 then 0 else 1) w
      (kinetis_i2c_nextmsg w) ∧
    (kinetis_i2c_nextmsg w).priv.restart = w.priv.restart := by
  unfold kinetis_i2c_nextmsg
  by_cases hn : decr_nmsg w.priv.nmsg > 0
  · by_cases hr : w.priv.restart = 0
    · simp only [hn, hr, if_true, and_self, ne_eq, not_true_eq_false, if_false]
      refine ⟨⟨?_, ?_⟩, ?_⟩ <;> first | rfl | trivial
    · simp only [hn, hr, if_true, and_false, ne_eq, not_false_eq_true, if_false]
      refine ⟨⟨?_, ?_⟩, ?_⟩
      · simp [sem_post_wait, posts_append, posts]
      · rfl
      · rfl
  · simp only [hn, if_false, false_and]
    refine ⟨⟨?_, ?_⟩, ?_⟩
    · simp [kinetis_i2c_stop, sem_post_wait, putreg8, posts_append, posts]
    · rfl
    · rfl

/-- The write branch signals at most once when a clear restart flag comes with
a following message. -/
theorem signalled_tx_write (m : Nat) (msg : i2c_msg_s) (w w' : World)
    (hinv : w.priv.restart = 0 → 1 < w.priv.nmsg)
    (h : interrupt_tx_write m msg w = some w') :
    ∃ k, k ≤ 1 ∧ signalled k w w' := by
  unfold interrupt_tx_write at h
  by_cases hc : (w.priv.wrcnt : Int) = msg.length
  · rw [if_pos hc] at h
    obtain ⟨hs, hr⟩ := signalled_nextmsg w
    by_cases hz : w.priv.restart = 0
    · have hn : decr_nmsg w.priv.nmsg > 0 := by
        have := hinv hz
        unfold decr_nmsg
        rw [if_neg (by omega)]
        omega
      rw [if_pos ⟨hn, hz⟩] at hs
      simp only [hr, hz, if_true, Option.map_eq_some'] at h
      obtain ⟨⟨v, w2⟩, hl, rfl⟩ := h
      have h1 := signalled_load _ _ _ _ _ hl
      have h2 := signalled_putreg8 v Reg.D w2
      have h3 : signalled 0 (putreg8 v Reg.D w2) (incr_wrcnt (putreg8 v Reg.D w2)) :=
        ⟨rfl, rfl⟩
      have h4 := signalled_post (incr_wrcnt (putreg8 v Reg.D w2))
      exact ⟨1, le_refl _, signalled_trans hs (signalled_trans h1
        (signalled_trans h2 (signalled_trans h3 h4)))⟩
    · simp only [hr, hz, if_false] at h
      cases h
      rw [if_neg (fun hh => hz hh.2)] at hs
      exact ⟨1, le_refl _, hs⟩
  · rw [if_neg hc] at h
    simp only [Option.map_eq_some'] at h
    obtain ⟨⟨v, w1⟩, hl, rfl⟩ := h
    have h1 := signalled_load _ _ _ _ _ hl
    have h2 := signalled_putreg8 v Reg.D w1
    have h3 : signalled 0 (putreg8 v Reg.D w1) (incr_wrcnt (putreg8 v Reg.D w1)) :=
      ⟨rfl, rfl⟩
    exact ⟨0, by omega, signalled_trans h1 (signalled_trans h2 h3)⟩

/-- The address phase of a read does not signal. -/
theorem signalled_tx_read (d : Nat) (msg : i2c_msg_s) (w : World) :
    signalled 0 w (interrupt_tx_read d msg w) := by
  unfold interrupt_tx_read
  split_ifs
  · exact signalled_trans (signalled_putreg8 _ Reg.C1 w) (signalled_log (Action.getreg8_D d) _ rfl)
  · exact signalled_trans (signalled_putreg8 _ Reg.C1 w) (signalled_log (Action.getreg8_D d) _ rfl)

/-- A byte stored after an optional control-register write: no signal. -/
theorem signalled_rx_store (d m i : Nat) (w x y : World) (hx : signalled 0 w x)
    (h : store_byte m i d (getreg8_D d x) = some y) : signalled 0 w (incr_rdcnt y) := by
  have h1 : signalled 0 x (getreg8_D d x) := signalled_log (Action.getreg8_D d) _ rfl
  have h2 := signalled_store _ _ _ _ _ h
  have h3 : signalled 0 y (incr_rdcnt y) := ⟨rfl, rfl⟩
  exact signalled_trans hx (signalled_trans h1 (signalled_trans h2 h3))

/-- The receive branch signals at most once. -/
theorem signalled_rx (d m : Nat) (msg : i2c_msg_s) (w w' : World)
    (h : interrupt_rx d m msg w = some w') :
    ∃ k, k ≤ 1 ∧ signalled k w w' := by
  unfold interrupt_rx at h
  by_cases hc : (w.priv.rdcnt : Int) = msg.length - 1
  · rw [if_pos hc] at h
    simp only [Option.bind_eq_some, Option.map_eq_some'] at h
    obtain ⟨w1, hw1, w2, hs, rfl⟩ := h
    have hx : signalled 0 w w1 := by
      by_cases hr : w.priv.restart ≠ 0
      · rw [if_pos hr] at hw1
        cases hw1
        exact signalled_putreg8 _ _ _
      · rw [if_neg hr] at hw1
        simp only [Option.map_eq_some'] at hw1
        obtain ⟨next, _, rfl⟩ := hw1
        split_ifs
        · exact signalled_putreg8 _ _ _
        · exact signalled_refl _
    have h1 := signalled_rx_store d m _ w w1 w2 hx hs
    obtain ⟨h2, _⟩ := signalled_nextmsg (incr_rdcnt w2)
    have h3 := signalled_trans h1 h2
    refine ⟨_, ?_, h3⟩
    split_ifs <;> omega
  · rw [if_neg hc] at h
    by_cases hc2 : (w.priv.rdcnt : Int) = msg.length - 2
    · rw [if_pos hc2] at h
      simp only [Option.map_eq_some'] at h
      obtain ⟨w2, hs, rfl⟩ := h
      refine ⟨0, by omega, signalled_rx_store d m _ w _ w2 ?_ hs⟩
      split_ifs
      · exact signalled_putreg8 _ _ _
      · exact signalled_refl _
    · rw [if_neg hc2] at h
      simp only [Option.map_eq_some'] at h
      obtain ⟨w2, hs, rfl⟩ := h
      exact ⟨0, by omega, signalled_rx_store d m _ w w w2 (signalled_refl _) hs⟩

theorem deliver_all_append (a b : List Event) (w : World) :
    deliver_all (a ++ b) w = (deliver_all a w).bind (deliver_all b) := by
  induction a generalizing w with
  | nil => rfl
  | cons e t ih =>
    show (deliver e w).bind (deliver_all (t ++ b)) =
      ((deliver e w).bind (deliver_all t)).bind (deliver_all b)
    cases deliver e w with
    | none => rfl
    | some x => exact ih x

/-- The last byte of a write was acknowledged and the restart flag is set: the
handler invokes the chain walker and does nothing else. -/
theorem interrupt_write_done (s d : Nat) (w : World) (msg : i2c_msg_s)
    (hack : acked (Event.irq s d))
    (hmsg : w.mem[w.priv.msgs]? = some msg)
    (hwr : I2C_M_READ &&& msg.flags = 0)
    (htx : w.c1 &&& I2C_C1_TX ≠ 0)
    (heq : (w.priv.wrcnt : Int) = msg.length)
    (hr : w.priv.restart ≠ 0) :
    kinetis_i2c_interrupt s d w =
      some (kinetis_i2c_nextmsg (putreg8 I2C_S_IICIF Reg.S w)) := by
  obtain ⟨h1, h2⟩ := hack
  have hr1 : (kinetis_i2c_nextmsg (putreg8 I2C_S_IICIF Reg.S w)).priv.restart ≠ 0 := by
    rw [(signalled_nextmsg (putreg8 I2C_S_IICIF Reg.S w)).2]
    exact hr
  unfold kinetis_i2c_interrupt
  rw [if_neg (by simp [h1])]
  simp only
  rw [if_pos (by exact htx), if_neg (by simp [h2])]
  have hm : (putreg8 I2C_S_IICIF Reg.S w).mem[(putreg8 I2C_S_IICIF Reg.S w).priv.msgs]? =
      some msg := hmsg
  rw [hm, Option.some_bind, if_pos hwr]
  unfold interrupt_tx_write
  rw [if_pos (by exact heq)]
  simp only
  rw [if_neg hr1]

/-- A run of acknowledged interrupts that pushes `bytes`, none of them at a
cursor equal to the length; the cursor may reach 65536 at the end of the run,
where it becomes 0. -/
theorem deliver_all_pushes (bytes : List Nat) :
    ∀ (acks : List Event) (w : World) (msg : i2c_msg_s),
      acks.length = bytes.length →
      (∀ e ∈ acks, acked e) →
      w.mem[w.priv.msgs]? = some msg →
      I2C_M_READ &&& msg.flags = 0 →
      w.c1 &&& I2C_C1_TX ≠ 0 →
      bytes <+: msg.buffer.drop w.priv.wrcnt →
      (∀ i : Nat, w.priv.wrcnt ≤ i → i < w.priv.wrcnt + bytes.length → (i : Int) ≠ msg.length) →
      w.priv.wrcnt < 65536 →
      w.priv.wrcnt + bytes.length ≤ 65536 →
      deliver_all acks w = some
        { w with
          priv := { w.priv with wrcnt := (w.priv.wrcnt + bytes.length) % 65536 },
          trace := w.trace ++ push_actions w.priv.msgs w.priv.wrcnt bytes } := by
  induction bytes with
  | nil =>
    intro acks w msg hlen _ _ _ _ _ _ hlt _
    have : acks = [] := List.length_eq_zero.mp hlen
    subst this
    simp [deliver_all, push_actions, Nat.mod_eq_of_lt hlt]
  | cons v vs ih =>
    intro acks w msg hlen hacks hmsg hwr htx hpre hne hlt h16
    cases acks with
    | nil => simp at hlen
    | cons a acks =>
      cases a with
      | wdog => exact absurd (hacks _ (List.mem_cons_self _ _)) (by simp [acked])
      | irq s d =>
        have ha : acked (Event.irq s d) := hacks _ (List.mem_cons_self _ _)
        have hv : msg.buffer[w.priv.wrcnt]? = some v := by
          obtain ⟨post, hpost⟩ := hpre
          have : (msg.buffer.drop w.priv.wrcnt)[0]? = some v := by
            rw [← hpost]; simp
          simpa using this
        have hne0 : (w.priv.wrcnt : Int) ≠ msg.length :=
          hne _ (le_refl _) (by simp only [List.length_cons]; omega)
        have hstep := interrupt_push s d v w msg ha hmsg hwr htx hne0 hv
        simp only [List.length_cons] at hlen h16 hne
        show (kinetis_i2c_interrupt s d w).bind (deliver_all acks) = _
        rw [hstep, Option.some_bind]
        by_cases hw : w.priv.wrcnt + 1 = 65536
        · have hvs : vs = [] := List.length_eq_zero.mp (by omega)
          subst hvs
          have : acks = [] := List.length_eq_zero.mp (by simpa using hlen)
          subst this
          simp [deliver_all, push_actions]
        · have hmod : (w.priv.wrcnt + 1) % 2 ^ 16 = w.priv.wrcnt + 1 :=
            Nat.mod_eq_of_lt (by norm_num; omega)
          rw [hmod]
          have hpre1 : vs <+: msg.buffer.drop (w.priv.wrcnt + 1) := by
            obtain ⟨post, hpost⟩ := hpre
            refine ⟨post, ?_⟩
            have h2 : msg.buffer.drop (w.priv.wrcnt + 1) =
                (msg.buffer.drop w.priv.wrcnt).drop 1 := by
              rw [List.drop_drop, Nat.add_comm]
            rw [h2, ← hpost]
            simp
          have hih := ih acks
            { w with
              priv := { w.priv with wrcnt := w.priv.wrcnt + 1 },
              trace := w.trace ++ [Action.putreg8 I2C_S_IICIF Reg.S,
                                   Action.load w.priv.msgs w.priv.wrcnt,
                                   Action.putreg8 v Reg.D] } msg
            (by omega) (fun e he => hacks e (List.mem_cons_of_mem _ he)) hmsg hwr htx hpre1
            (fun i h1 h2 => hne i (by simp only [] at h1; omega) (by simp only [] at h2; omega))
            (by simp only []; omega) (by simp only []; omega)
          rw [hih]
          simp [push_actions, Nat.add_assoc, Nat.add_comm 1]

/-- With a length of 65536 or more, acknowledged interrupts push bytes for
ever: the cursor stays below 65536, so it never equals the length; the message
count stays and no completion is signalled. -/
theorem deliver_all_wrapping (acks : List Event) :
    ∀ (w : World) (msg : i2c_msg_s),
      (∀ e ∈ acks, acked e) →
      w.mem[w.priv.msgs]? = some msg →
      I2C_M_READ &&& msg.flags = 0 →
      w.c1 &&& I2C_C1_TX ≠ 0 →
      65536 ≤ msg.length →
      65536 ≤ msg.buffer.length →
      w.priv.wrcnt < 65536 →
      ∃ x, deliver_all acks w = some x ∧
        x.priv = { w.priv with wrcnt := (w.priv.wrcnt + acks.length) % 65536 } ∧
        x.mem = w.mem ∧ x.c1 = w.c1 ∧ posts x.trace = posts w.trace := by
  induction acks with
  | nil =>
    intro w msg _ _ _ _ _ _ hlt
    refine ⟨w, rfl, ?_, rfl, rfl, rfl⟩
    simp [Nat.mod_eq_of_lt hlt]
  | cons a acks ih =>
    intro w msg hacks hmsg hwr htx hL hcap hlt
    cases a with
    | wdog => exact absurd (hacks _ (List.mem_cons_self _ _)) (by simp [acked])
    | irq s d =>
      have ha : acked (Event.irq s d) := hacks _ (List.mem_cons_self _ _)
      have hb : w.priv.wrcnt < msg.buffer.length := by omega
      have hv : msg.buffer[w.priv.wrcnt]? = some (msg.buffer[w.priv.wrcnt]) :=
        List.getElem?_eq_getElem hb
      have hne : (w.priv.wrcnt : Int) ≠ msg.length := by omega
      have hstep := interrupt_push s d _ w msg ha hmsg hwr htx hne hv
      obtain ⟨x, hx, hp, hm, hc, hpo⟩ := ih
        { w with
          priv := { w.priv with wrcnt := (w.priv.wrcnt + 1) % 2 ^ 16 },
          trace := w.trace ++ [Action.putreg8 I2C_S_IICIF Reg.S,
                               Action.load w.priv.msgs w.priv.wrcnt,
                               Action.putreg8 (msg.buffer[w.priv.wrcnt]) Reg.D] } msg
        (fun e he => hacks e (List.mem_cons_of_mem _ he)) hmsg hwr htx hL hcap
        (Nat.mod_lt _ (by norm_num))
      refine ⟨x, ?_, ?_, hm, hc, ?_⟩
      · show (kinetis_i2c_interrupt s d w).bind (deliver_all acks) = some x
        rw [hstep]
        exact hx
      · rw [hp]
        have e : ((w.priv.wrcnt + 1) % 2 ^ 16 + acks.length) % 65536 =
            (w.priv.wrcnt + (acks.length + 1)) % 65536 := by
          norm_num
          omega
        simp only [List.length_cons]
        rw [← e]
      · rw [hpo]
        simp [posts_append, posts]

/-- The exit path is the release followed by the read of the status. -/
theorem transfer_exit_split (w : World) :
    transfer_exit w = transfer_result (transfer_release w) := rfl

/-- The set-up leaves the status at STATE_OK. -/
theorem transfer_setup_state (b : Board) (msgs : List i2c_msg_s) (count : Int) (w w1 : World)
    (h : transfer_setup b msgs count w = some w1) : w1.priv.state = STATE_OK := by
  unfold transfer_setup at h
  simp only [Option.map_eq_some'] at h
  obtain ⟨first, _, rfl⟩ := h
  rw [(putreg8_frame _ _ _).1]
  unfold kinetis_i2c_setfrequency
  split_ifs
  · rfl
  · rfl

/-! ## Claims -/

/-- With one caller at a time, so that nothing runs between the release of
the mutex and the read of the status: whenever `kinetis_i2c_transfer` returns,
its result is 0 exactly when the status at loop exit is `STATE_OK`, and it is
the one code `-EIO` for `STATE_ARBITRATION_ERROR`, for `STATE_TIMEOUT` and for
`STATE_NAK` (indeed for every non-OK status); the exit path does not touch the
device record. -/
theorem transfer_return_code (b : Board) (fuel : Nat) (msgs : List i2c_msg_s) (count : Int)
    (w : World) (r : Int) (w' : World)
    (h : kinetis_i2c_transfer b fuel msgs count w = some (r, w')) :
    ∃ w1 wl, transfer_setup b msgs count w = some w1 ∧ transfer_loop fuel w1 = some wl ∧
      w'.priv = wl.priv ∧
      (r = 0 ↔ wl.priv.state = STATE_OK) ∧
      (wl.priv.state = STATE_ARBITRATION_ERROR → r = - EIO) ∧
      (wl.priv.state = STATE_TIMEOUT → r = - EIO) ∧
      (wl.priv.state = STATE_NAK → r = - EIO) ∧
      (wl.priv.state ≠ STATE_OK → r = - EIO) := by
  unfold kinetis_i2c_transfer at h
  cases h1 : transfer_setup b msgs count w with
  | none => simp [h1] at h
  | some w1 =>
    cases h2 : transfer_loop fuel w1 with
    | none => simp [h1, h2] at h
    | some wl =>
      simp only [h1, h2, Option.some_bind, Option.map_some', Option.some.injEq] at h
      refine ⟨w1, wl, rfl, h2, ?_⟩
      by_cases hs : wl.priv.state = STATE_OK
      · have : transfer_exit wl = (0, ((putreg8 I2C_C1_IICEN Reg.C1 wl).log (Action.sem_post Sem.mutex))) := by
          simp [transfer_exit, putreg8, World.log, hs]
        rw [this] at h
        obtain ⟨rfl, rfl⟩ := Prod.mk.inj h
        simp [hs, putreg8, World.log, STATE_OK, STATE_ARBITRATION_ERROR, STATE_TIMEOUT, STATE_NAK]
      · have : transfer_exit wl = (- EIO, ((putreg8 I2C_C1_IICEN Reg.C1 wl).log (Action.sem_post Sem.mutex))) := by
          simp [transfer_exit, putreg8, World.log, hs]
        rw [this] at h
        obtain ⟨rfl, rfl⟩ := Prod.mk.inj h
        simp [hs, putreg8, World.log, EIO]

/-- An address byte that is not acknowledged: with one caller the transfer
returns `-EIO`, the status at loop exit being STATE_NAK. -/
theorem transfer_return_code_witness :
    kinetis_i2c_transfer board48 1 [sample_write] 1
        { sample_world with events := [Event.irq 0x81 0] } = some (-5, sample_nak_result) ∧
    ∃ w1 wl,
      transfer_setup board48 [sample_write] 1
          { sample_world with events := [Event.irq 0x81 0] } = some w1 ∧
        transfer_loop 1 w1 = some wl ∧ wl.priv.state = STATE_NAK ∧ (-5 : Int) = - EIO :=
  ⟨by decide,
    match transfer_return_code board48 1 [sample_write] 1
        { sample_world with events := [Event.irq 0x81 0] } (-5) sample_nak_result
        (by decide) with
    | ⟨w1, wl, h1, h2, h3, _, _, _, _, h8⟩ =>
      ⟨w1, wl, h1, h2, by rw [← h3]; decide, h8 (by rw [← h3]; decide)⟩⟩

/-- Claim C1 fails on the code when a second caller is waiting for the bus.
The exit path releases the mutex (source line 812) and reads `priv->state`
afterwards (line 814).  When the second caller runs its set-up (lines 737-757,
with `priv->state = STATE_OK` at line 744) in between, the first call returns
0 whatever the status at its loop exit was, while the exit path without a
second caller returns `-EIO` for every non-OK status. -/
theorem status_read_after_release (b : Board) (msgs2 : List i2c_msg_s) (count2 : Int)
    (wl : World) (first : i2c_msg_s) (hfirst : msgs2[0]? = some first) :
    (wl.priv.state ≠ STATE_OK → (transfer_exit wl).1 = - EIO) ∧
    ∃ w2, transfer_setup b msgs2 count2 (transfer_release wl) = some w2 ∧
      transfer_exit_preempted (transfer_setup b msgs2 count2) wl = some (0, w2) := by
  constructor
  · intro hs
    have : (transfer_release wl).priv.state ≠ STATE_OK := hs
    rw [transfer_exit_split]
    unfold transfer_result
    rw [if_pos this]
  · cases h : transfer_setup b msgs2 count2 (transfer_release wl) with
    | none =>
      unfold transfer_setup at h
      rw [hfirst] at h
      simp at h
    | some w2 =>
      refine ⟨w2, rfl, ?_⟩
      have hs := transfer_setup_state b msgs2 count2 _ w2 h
      unfold transfer_exit_preempted
      rw [h, Option.map_some']
      unfold transfer_result
      rw [if_neg (by rw [hs]; exact not_not.mpr rfl)]

/-- A one-byte write whose address byte is not acknowledged leaves its loop
with status STATE_NAK; alone it returns `-EIO`.  With a second caller that runs
its set-up, or that runs until it blocks in `sem_wait(&priv->wait)`, between
the release of the mutex and the read of the status, it returns 0. -/
theorem status_read_after_release_witness :
    ((transfer_setup board48 [sample_write] 1
        { sample_world with events := [Event.irq 0x81 0] }).bind (transfer_loop 1) =
      some sample_nak_loop_exit) ∧
    sample_nak_loop_exit.priv.state = STATE_NAK ∧
    transfer_exit sample_nak_loop_exit = (-5, sample_nak_result) ∧
    (transfer_exit_preempted
        (fun w => (transfer_setup board48 [sample_write] 1 w).bind enter_wait)
        { sample_nak_loop_exit with polls := [0] }).map Prod.fst = some 0 ∧
    ((sample_nak_loop_exit.priv.state ≠ STATE_OK →
        (transfer_exit sample_nak_loop_exit).1 = - EIO) ∧
      ∃ w2, transfer_setup board48 [sample_write] 1 (transfer_release sample_nak_loop_exit) =
          some w2 ∧
        transfer_exit_preempted (transfer_setup board48 [sample_write] 1)
          sample_nak_loop_exit = some (0, w2)) :=
  ⟨by decide, by decide, by decide, by decide,
    status_read_after_release board48 [sample_write] 1 sample_nak_loop_exit sample_write rfl⟩

/-- Claim C2 fails on the code for every read of length 0, a valid message by
the claim's own conditions (the source carries the note "TODO: handle
zero-length reads").  After the address is acknowledged the handler switches
to receive mode and makes the dummy read; at every later interrupt `rdcnt` is
neither `length - 1` nor `length - 2`, so the handler stores the byte at
`buffer[rdcnt]`, beyond the message's length, and never reaches the chain
walker.  Whatever the board, the message's address, flags and buffer, the
environment and the fuel, on a device with no completion signal pending the
transfer never returns 0. -/
theorem zero_length_read_never_ok (b : Board) (fuel : Nat) (msg : i2c_msg_s) (w w' : World)
    (hread : I2C_M_READ &&& msg.flags = I2C_M_READ) (hlen : msg.length = 0)
    (hwait : w.priv.wait = 0) :
    kinetis_i2c_transfer b fuel [msg] 1 w ≠ some (0, w') := by
  have hr0 : I2C_M_READ &&& msg.flags ≠ 0 := by rw [hread]; decide
  have hsetup := transfer_setup_eq b msg [] 1 w (by norm_num)
  simp only [Nat.cast_one] at hsetup
  intro h
  unfold kinetis_i2c_transfer at h
  rw [hsetup] at h
  simp only [Option.some_bind, Option.map_eq_some'] at h
  obtain ⟨wl, hloop, hexit⟩ := h
  cases fuel with
  | zero => simp [transfer_loop, STATE_OK] at hloop
  | succ fuel =>
    rw [transfer_loop_succ _ _ (by simp [STATE_OK])] at hloop
    unfold transfer_step at hloop
    rw [compute_restart_last _ (by simp)] at hloop
    simp only [Option.some_bind, List.getElem?_cons_zero, Option.bind_eq_some] at hloop
    obtain ⟨w3, ⟨w2, hstart, hwaitstep⟩, hrest⟩ := hloop
    -- bus acquisition, when it happens, leaves the record and the message alone
    have hw2 : w2.priv.wait = 0 ∧ w2.mem[w2.priv.msgs]? = some msg := by
      split_ifs at hstart
      · simp only [Option.map_eq_some'] at hstart
        obtain ⟨⟨r, w2'⟩, hs, rfl⟩ := hstart
        obtain ⟨hp, hm⟩ := start_frame _ _ _ hs
        simp only [hp, hm]
        exact ⟨hwait, by simp⟩
      · cases hstart
        exact ⟨hwait, by simp⟩
    unfold wait_step at hwaitstep
    simp only [Option.map_eq_some'] at hwaitstep
    obtain ⟨w4, hawait, rfl⟩ := hwaitstep
    have hbad := zero_length_read_stuck _ _ msg
      (by simpa [World.log] using hw2.1) (by simpa [World.log] using hw2.2) hlen hr0 _ hawait
    rw [transfer_loop_done _ _ (by simp [World.log, hbad])] at hrest
    cases hrest
    have hne : (w4.log Action.wd_cancel).priv.state ≠ STATE_OK := by simpa [World.log] using hbad
    simp [transfer_exit, putreg8, World.log, hne, EIO] at hexit
    simp [World.log] at hne
    simp [hne] at hexit

/-- A zero-length read from address 0x50 with every byte acknowledged: the
second interrupt writes outside the empty buffer; with the watchdog the call
ends with `-EIO`. -/
theorem zero_length_read_never_ok_witness :
    (I2C_M_READ &&& zero_length_read.flags = I2C_M_READ ∧ zero_length_read.length = 0 ∧
      sample_world.priv.wait = 0) ∧
    (∀ w', kinetis_i2c_transfer board48 1 [zero_length_read] 1
        { sample_world with events := [sample_ack, sample_ack] } ≠ some (0, w')) ∧
    kinetis_i2c_transfer board48 1 [zero_length_read] 1
        { sample_world with events := [sample_ack, sample_ack] } = none ∧
    ∃ w', kinetis_i2c_transfer board48 1 [zero_length_read] 1
        { sample_world with events := [sample_ack, Event.wdog] } = some (- EIO, w') ∧
      w'.priv.state = STATE_TIMEOUT :=
  ⟨by decide,
    fun w' => zero_length_read_never_ok board48 1 zero_length_read
      { sample_world with events := [sample_ack, sample_ack] } w' (by decide) rfl rfl,
    by decide, ⟨_, rfl, by decide⟩⟩

/-- Claim C4: for every device state and every value of the other status and
control bits, an interrupt whose status has arbitration-lost set makes the
handler write IICIF|ARBL to the status register (clearing both flags), set the
status to `STATE_ARBITRATION_ERROR`, issue STOP and signal completion once,
and nothing else: the trace gains exactly these three actions (no read or write
of the data register, no buffer access) and `wrcnt`, `rdcnt`, the message
cursor, the remaining count and the message memory are unchanged. -/
theorem interrupt_arbitration_lost (s d : Nat) (w : World)
    (harb : s &&& I2C_S_ARBL ≠ 0) :
    kinetis_i2c_interrupt s d w = some
      { w with
        priv := { w.priv with state := STATE_ARBITRATION_ERROR, wait := w.priv.wait + 1 },
        c1 := I2C_C1_IICEN ||| I2C_C1_IICIE,
        trace := w.trace ++ [Action.putreg8 (I2C_S_IICIF ||| I2C_S_ARBL) Reg.S,
                             Action.putreg8 (I2C_C1_IICEN ||| I2C_C1_IICIE) Reg.C1,
                             Action.sem_post Sem.wait] } := by
  exact handler_on_arbitration_loss s d w harb

/-- Arbitration is lost while the controller is transmitting and RXAK is set
as well. -/
theorem interrupt_arbitration_lost_witness :
    0x91 &&& I2C_S_ARBL ≠ 0 ∧
    kinetis_i2c_interrupt 0x91 0 sample_blocked = some
      { sample_blocked with
        priv := { sample_blocked.priv with state := STATE_ARBITRATION_ERROR, wait := 1 },
        c1 := 0xC0,
        trace := sample_blocked.trace ++ [Action.putreg8 0x12 Reg.S,
                             Action.putreg8 0xC0 Reg.C1,
                             Action.sem_post Sem.wait] } :=
  ⟨by decide, interrupt_arbitration_lost 0x91 0 sample_blocked (by decide)⟩

/-- Claim C6: a transfer of a single read message of length 1 (the address is
sent: the message does not carry `I2C_M_NORESTART`) on a device with no
completion signal pending, on a bus that is free and then taken by the START,
whose address byte is acknowledged.  In the address-acknowledged interrupt the
handler writes C1 to master receive with TXAK set and then makes exactly one
dummy read of the data register; in the next interrupt it switches to
transmit mode, makes exactly one further read of the data register and stores
its value in `buffer[0]`; then STOP is issued, completion is signalled and the
call returns 0 with status `STATE_OK`.  The trace of the call is given in
full: there are no other reads of the data register and no C1 write without
TXAK while the controller receives. -/
theorem single_byte_read (b : Board) (fuel : Nat) (msg : i2c_msg_s) (w : World)
    (s1 d1 s2 d2 pf pb b0 : Nat) (rest : List Event) (ps bs : List Nat)
    (hread : I2C_M_READ &&& msg.flags = I2C_M_READ)
    (hflag : msg.flags &&& I2C_M_NORESTART = 0)
    (hlen : msg.length = 1)
    (hbuf : msg.buffer = b0 :: bs)
    (hwait : w.priv.wait = 0)
    (hpolls : w.polls = pf :: pb :: ps)
    (hpf : pf &&& I2C_S_BUSY = 0) (hpb : pb &&& I2C_S_BUSY ≠ 0)
    (hev : w.events = Event.irq s1 d1 :: Event.irq s2 d2 :: rest)
    (hs1 : s1 &&& I2C_S_ARBL = 0) (hack : s1 &&& I2C_S_RXAK = 0)
    (hs2 : s2 &&& I2C_S_ARBL = 0) :
    kinetis_i2c_transfer b (fuel + 1) [msg] 1 w = some (0,
      { priv := { wait := 0, state := STATE_OK, frequency := msg.frequency, restart := 1,
                  msgs := 0, nmsg := 0, wrcnt := 0, rdcnt := 1 },
        mem := [{ msg with buffer := d2 :: bs }],
        c1 := I2C_C1_IICEN,
        polls := ps,
        events := rest,
        trace := w.trace ++ [Action.sem_wait Sem.mutex] ++
          clock_actions b msg.frequency w.priv.frequency ++
          [Action.putreg8 (I2C_S_IICIF ||| I2C_S_ARBL) Reg.S,
           Action.putreg8
             (if w.c1 &&& I2C_C1_MST ≠ 0 then
                I2C_C1_IICEN ||| I2C_C1_IICIE ||| I2C_C1_MST ||| I2C_C1_RSTA ||| I2C_C1_TX
              else I2C_C1_IICEN ||| I2C_C1_IICIE ||| I2C_C1_MST ||| I2C_C1_TX) Reg.C1,
           Action.putreg8 (I2C_READADDR8 msg.addr) Reg.D,
           Action.wd_start,
           Action.sem_wait Sem.wait,
           Action.putreg8 I2C_S_IICIF Reg.S,
           Action.putreg8 (I2C_C1_IICEN ||| I2C_C1_IICIE ||| I2C_C1_MST ||| I2C_C1_TXAK) Reg.C1,
           Action.getreg8_D d1,
           Action.putreg8 I2C_S_IICIF Reg.S,
           Action.putreg8 (I2C_C1_IICEN ||| I2C_C1_IICIE ||| I2C_C1_MST ||| I2C_C1_TX) Reg.C1,
           Action.getreg8_D d2,
           Action.store 0 0 d2,
           Action.putreg8 (I2C_C1_IICEN ||| I2C_C1_IICIE) Reg.C1,
           Action.sem_post Sem.wait,
           Action.wd_cancel,
           Action.putreg8 I2C_C1_IICEN Reg.C1,
           Action.sem_post Sem.mutex] }) := by
  have hr0 : I2C_M_READ &&& msg.flags ≠ 0 := by rw [hread]; decide
  have hsetup := transfer_setup_eq b msg [] 1 w (by norm_num)
  simp only [Nat.cast_one] at hsetup
  unfold kinetis_i2c_transfer
  rw [hsetup]
  simp only [Option.some_bind]
  rw [transfer_loop_succ _ _ (by simp [STATE_OK])]
  unfold transfer_step
  rw [compute_restart_last _ (by simp)]
  simp only [Option.some_bind, List.getElem?_cons_zero, hflag, if_true]
  rw [start_read _ msg pf pb ps (by exact hpolls) hpf hpb (by simp) hread]
  simp only [Option.map_some', Option.some_bind]
  unfold wait_step
  simp only [World.log, hev]
  rw [await_completion_cons _ _ _ (by exact hwait)]
  simp only [deliver]
  rw [interrupt_read_addressed s1 d1 _ msg hs1 hack (by simp) hr0 (by
    show (if w.c1 &&& I2C_C1_MST ≠ 0 then _ else _) &&& I2C_C1_TX ≠ 0
    split_ifs
    · exact c1_restart_tx
    · exact c1_start_tx)]
  simp only [Option.some_bind]
  rw [await_completion_cons _ _ _ (by exact hwait)]
  simp only [deliver]
  rw [interrupt_rx_last s2 d2 _ msg hs2 (by simp [hlen, c1_rx_noack_tx]) (by simp)
    (by simp [hlen]) (by simp) (by simp) (by simp [hbuf])]
  simp only [Option.some_bind]
  rw [await_completion_pos _ _ (by simp)]
  simp only [Option.map_some', Option.some_bind]
  rw [transfer_loop_done _ _ (by simp)]
  simp [transfer_exit, putreg8, World.log, STATE_OK, hwait, hbuf, hlen]

/-- A one-byte read from address 0x50 that returns the byte 0xBB. -/
theorem single_byte_read_witness :
    (I2C_M_READ &&& sample_read.flags = I2C_M_READ ∧
      sample_read.flags &&& I2C_M_NORESTART = 0 ∧ sample_read.length = 1 ∧
      sample_read.buffer = [0] ∧ sample_world.priv.wait = 0 ∧
      sample_world.polls = [0, 0x20] ∧ 0 &&& I2C_S_BUSY = 0 ∧ 0x20 &&& I2C_S_BUSY ≠ 0 ∧
      0x80 &&& I2C_S_ARBL = 0 ∧ 0x80 &&& I2C_S_RXAK = 0) ∧
    ∃ w', kinetis_i2c_transfer board48 1 [sample_read] 1
        { sample_world with events := [Event.irq 0x80 0xAA, Event.irq 0x80 0xBB] } =
          some (0, w') ∧
      w'.mem = [{ sample_read with buffer := [0xBB] }] ∧ w'.priv.state = STATE_OK :=
  ⟨by decide, _,
    single_byte_read board48 0 sample_read
      { sample_world with events := [Event.irq 0x80 0xAA, Event.irq 0x80 0xBB] }
      0x80 0xAA 0x80 0xBB 0 0x20 0 [] [] [] (by decide) (by decide) rfl rfl rfl rfl
      (by decide) (by decide) rfl (by decide) (by decide) (by decide),
    rfl, rfl⟩

/-- Claim C7 fails on the code: the coordinator skips `kinetis_i2c_start` for
every message that carries `I2C_M_NORESTART`, merged or not.  A one-byte write
to 0x50 followed by a flagged one-byte read from 0x50: the restart flag is 1,
yet no C1 write has the repeated-start bit and the read address byte is never
written, whether the environment stays silent until the watchdog expires
(`-EIO`) or keeps raising acknowledged interrupts (the read then proceeds with
no address cycle and the call returns 0). -/
theorem flagged_read_gets_no_start :
    (∃ w', kinetis_i2c_transfer board48 2 [sample_write, sample_flagged_read] 2
        { sample_world with events := [sample_ack, sample_ack, Event.wdog] } =
          some (- EIO, w') ∧
      w'.priv.restart = 1 ∧
      wire w'.trace = [Action.putreg8 0xF0 Reg.C1, Action.putreg8 0xA0 Reg.D,
        Action.putreg8 7 Reg.D, Action.putreg8 0x80 Reg.C1] ∧
      (∀ v ∈ c1writes w'.trace, v &&& I2C_C1_RSTA = 0) ∧
      I2C_READADDR8 0x50 ∉ dwrites w'.trace) ∧
    (∃ w', kinetis_i2c_transfer board48 2 [sample_write, sample_flagged_read] 2
        { sample_world with
          events := [sample_ack, sample_ack, Event.irq 0x80 0x11, Event.irq 0x80 0x22] } =
          some (0, w') ∧
      (∀ v ∈ c1writes w'.trace, v &&& I2C_C1_RSTA = 0) ∧
      I2C_READADDR8 0x50 ∉ dwrites w'.trace) :=
  ⟨⟨_, rfl, by decide, by decide, by decide, by decide⟩, ⟨_, rfl, by decide, by decide⟩⟩

/-- Claim C7 as amended: for every two-message sequence of a write (not
flagged, at most 65535 bytes, all in its buffer) followed by a read that
carries `I2C_M_NORESTART`, on an idle device (no completion signal pending,
controller not master, bus free at the first poll) with the address and every
byte of the write acknowledged, one interrupt each, and the coordinator
resumed at each completion signal before the next interrupt is handled: the
messages are not merged (the merge computation leaves
`restart` at 1, and the handler signals completion after the last write byte),
and `kinetis_i2c_start` is not invoked for the second message: the register
writes up to the point where the coordinator blocks for the second message are
one START, the write address byte and the bytes of the first message, with no
repeated START and no read address byte; the controller is still master in
transmit mode.  From there the transfer continues as `transfer_resume`, and
whatever the environment does, if the call returns, the rest of its trace is
`quiet`: no control-register write with the repeated-start bit and no write to
the data register.  When the next event is the expiry of the watchdog, the
call returns `-EIO`. -/
theorem write_then_flagged_read (b : Board) (fuel : Nat) (m0 m1 : i2c_msg_s) (w : World)
    (n0 pf : Nat) (ps : List Nat) (acks rest : List Event)
    (hw0 : I2C_M_READ &&& m0.flags = 0) (hr1 : I2C_M_READ &&& m1.flags = I2C_M_READ)
    (hf0 : m0.flags &&& I2C_M_NORESTART = 0) (hf1 : m1.flags &&& I2C_M_NORESTART ≠ 0)
    (hn0 : m0.length = n0) (h0 : n0 ≤ 65535) (hb0 : n0 ≤ m0.buffer.length)
    (hwait : w.priv.wait = 0) (hmst : w.c1 &&& I2C_C1_MST = 0)
    (hpolls : w.polls = pf :: ps) (hpf : pf &&& I2C_S_BUSY = 0)
    (hev : w.events = acks ++ rest) (hlen : acks.length = n0 + 1)
    (hacks : ∀ e ∈ acks, acked e) :
    ∃ t,
      (∃ w1, transfer_setup b [m0, m1] 2 w = some w1 ∧
        compute_restart w1 = some { w1 with priv := { w1.priv with restart := 1 } }) ∧
      kinetis_i2c_transfer b (fuel + 2) [m0, m1] 2 w =
        transfer_resume fuel
          { priv := { wait := 0, state := STATE_OK, frequency := m0.frequency, restart := 1,
                      msgs := 1, nmsg := 1, wrcnt := 0, rdcnt := 0 },
            mem := [m0, m1],
            c1 := I2C_C1_IICEN ||| I2C_C1_IICIE ||| I2C_C1_MST ||| I2C_C1_TX,
            polls := ps, events := rest,
            trace := w.trace ++ t ++ [Action.sem_post Sem.wait, Action.wd_cancel,
                                      Action.wd_start] } ∧
      wire t =
        [Action.putreg8 (I2C_C1_IICEN ||| I2C_C1_IICIE ||| I2C_C1_MST ||| I2C_C1_TX) Reg.C1,
         Action.putreg8 (I2C_WRITEADDR8 m0.addr) Reg.D] ++
        (m0.buffer.take n0).map (fun v => Action.putreg8 v Reg.D) ∧
      (∀ r w', kinetis_i2c_transfer b (fuel + 2) [m0, m1] 2 w = some (r, w') →
        ∃ t', w'.trace = w.trace ++ t ++ [Action.sem_post Sem.wait, Action.wd_cancel,
            Action.wd_start] ++ t' ∧ quiet t') ∧
      ∀ rest', rest = Event.wdog :: rest' →
        kinetis_i2c_transfer b (fuel + 2) [m0, m1] 2 w = some (- EIO,
          { priv := { wait := 0, state := STATE_TIMEOUT, frequency := m0.frequency,
                      restart := 1, msgs := 1, nmsg := 1, wrcnt := 0, rdcnt := 0 },
            mem := [m0, m1], c1 := I2C_C1_IICEN, polls := ps, events := rest',
            trace := w.trace ++ t ++ [Action.sem_post Sem.wait, Action.wd_cancel,
              Action.wd_start, Action.sem_wait Sem.wait, Action.sem_post Sem.wait,
              Action.wd_cancel, Action.putreg8 I2C_C1_IICEN Reg.C1,
              Action.sem_post Sem.mutex] }) := by
  -- the last acknowledged interrupt completes the first message
  have hne : acks ≠ [] := by
    intro h; rw [h] at hlen; simp at hlen
  obtain ⟨A, t1, hsplit⟩ : ∃ A t1, acks = A ++ [t1] :=
    ⟨acks.dropLast, acks.getLast hne, (List.dropLast_append_getLast hne).symm⟩
  subst hsplit
  have hA : A.length = n0 := by simpa using hlen
  have hackA : ∀ e ∈ A, acked e := fun e he => hacks e (by simp [he])
  have hack1 : acked t1 := hacks t1 (by simp)
  have hdir : ¬ (m1.flags &&& I2C_M_NORESTART ≠ 0 ∧ m1.addr = m0.addr ∧
      m1.frequency = m0.frequency ∧ m1.flags &&& I2C_M_READ = m0.flags &&& I2C_M_READ) := by
    rintro ⟨_, _, _, h⟩
    rw [Nat.land_comm, hr1, Nat.land_comm, hw0] at h
    exact absurd h (by decide)
  have hsetup := transfer_setup_eq b m0 [m1] 2 w (by norm_num)
  simp only [Nat.cast_ofNat] at hsetup
  have hrun : kinetis_i2c_transfer b (fuel + 2) [m0, m1] 2 w =
      transfer_resume fuel
          { priv := { wait := 0, state := STATE_OK, frequency := m0.frequency, restart := 1,
                      msgs := 1, nmsg := 1, wrcnt := 0, rdcnt := 0 },
            mem := [m0, m1],
            c1 := I2C_C1_IICEN ||| I2C_C1_IICIE ||| I2C_C1_MST ||| I2C_C1_TX,
            polls := ps, events := rest,
            trace := w.trace ++ ([Action.sem_wait Sem.mutex] ++
              clock_actions b m0.frequency w.priv.frequency ++
              [Action.putreg8 (I2C_S_IICIF ||| I2C_S_ARBL) Reg.S,
               Action.putreg8 (I2C_C1_IICEN ||| I2C_C1_IICIE ||| I2C_C1_MST ||| I2C_C1_TX) Reg.C1,
               Action.putreg8 (I2C_WRITEADDR8 m0.addr) Reg.D,
               Action.wd_start, Action.sem_wait Sem.wait] ++
              push_actions 0 0 (m0.buffer.take n0) ++
              [Action.putreg8 I2C_S_IICIF Reg.S]) ++
              [Action.sem_post Sem.wait, Action.wd_cancel, Action.wd_start] } := by
    unfold kinetis_i2c_transfer transfer_resume
    rw [hsetup]
    simp only [Option.some_bind]
    rw [transfer_loop_succ _ _ (by simp [STATE_OK])]
    unfold transfer_step
    rw [compute_restart_nomerge _ m0 m1 (by simp) (by simp) (by simp) hdir]
    simp only [Option.some_bind, List.getElem?_cons_zero, hf0, if_true]
    rw [start_write _ m0 pf ps (by exact hmst) (by exact hpolls) hpf (by simp) hw0]
    simp only [Option.map_some', Option.some_bind]
    rw [wait_write_restart (m0.buffer.take n0) A rest t1 _ m0
      (by simp [World.log, hev]) (by simp [hA, hb0]) hackA hack1 (by simp [World.log])
      hw0 (by simp [World.log, c1_start_tx]) (by simp [World.log, hwait])
      (by simp [World.log, List.take_prefix]) (by simp [World.log, hb0, hn0])
      (by simp [World.log, hb0]; omega) (by simp [World.log]) (by simp [World.log])]
    simp only [Option.some_bind]
    rw [transfer_loop_succ _ _ (by simp [World.log, STATE_OK])]
    unfold transfer_step
    rw [compute_restart_last _ (by simp [World.log])]
    simp only [Option.some_bind]
    simp only [World.log, Nat.zero_add, List.getElem?_cons_succ, List.getElem?_cons_zero,
      Option.some_bind, hf1, if_false]
    simp [STATE_OK]
  refine ⟨[Action.sem_wait Sem.mutex] ++ clock_actions b m0.frequency w.priv.frequency ++
      [Action.putreg8 (I2C_S_IICIF ||| I2C_S_ARBL) Reg.S,
       Action.putreg8 (I2C_C1_IICEN ||| I2C_C1_IICIE ||| I2C_C1_MST ||| I2C_C1_TX) Reg.C1,
       Action.putreg8 (I2C_WRITEADDR8 m0.addr) Reg.D,
       Action.wd_start, Action.sem_wait Sem.wait] ++
      push_actions 0 0 (m0.buffer.take n0) ++
      [Action.putreg8 I2C_S_IICIF Reg.S], ?_, hrun, ?_, ?_, ?_⟩
  · refine ⟨_, hsetup, ?_⟩
    rw [compute_restart_nomerge _ m0 m1 (by simp) (by simp) (by simp) hdir]
  · simp [wire_append, wire_push_actions, wire_clock_actions, wire]
  · intro r w' h
    rw [hrun] at h
    exact resume_read_tail fuel _ m1 r w' (by simp) (by rw [hr1]; decide) rfl rfl h
  · intro rest' hrest
    rw [hrun, transfer_resume_wdog fuel rest' _ rfl (by simp [hrest])]
    simp

/-- A one-byte write followed by a flagged one-byte read; the watchdog expires
while the coordinator waits for the read. -/
theorem write_then_flagged_read_witness :
    (I2C_M_READ &&& sample_write.flags = 0 ∧
      I2C_M_READ &&& sample_flagged_read.flags = I2C_M_READ ∧
      sample_write.flags &&& I2C_M_NORESTART = 0 ∧
      sample_flagged_read.flags &&& I2C_M_NORESTART ≠ 0 ∧
      sample_write.length = (1 : Nat) ∧ 1 ≤ 65535 ∧ 1 ≤ sample_write.buffer.length ∧
      sample_world.priv.wait = 0 ∧ sample_world.c1 &&& I2C_C1_MST = 0 ∧
      sample_world.polls = [0, 0x20] ∧ 0 &&& I2C_S_BUSY = 0 ∧
      [sample_ack, sample_ack].length = 1 + 1 ∧
      ∀ e ∈ [sample_ack, sample_ack], acked e) ∧
    ∃ t, wire t = [Action.putreg8 0xF0 Reg.C1, Action.putreg8 0xA0 Reg.D,
        Action.putreg8 7 Reg.D] ∧
      kinetis_i2c_transfer board48 2 [sample_write, sample_flagged_read] 2
          { sample_world with events := [sample_ack, sample_ack, Event.wdog] } =
        some (- EIO,
          { priv := { wait := 0, state := STATE_TIMEOUT, frequency := 400000,
                      restart := 1, msgs := 1, nmsg := 1, wrcnt := 0, rdcnt := 0 },
            mem := [sample_write, sample_flagged_read], c1 := I2C_C1_IICEN, polls := [0x20],
            events := [],
            trace := sample_world.trace ++ t ++ [Action.sem_post Sem.wait, Action.wd_cancel,
              Action.wd_start, Action.sem_wait Sem.wait, Action.sem_post Sem.wait,
              Action.wd_cancel, Action.putreg8 I2C_C1_IICEN Reg.C1,
              Action.sem_post Sem.mutex] }) :=
  ⟨by decide,
    match write_then_flagged_read board48 0 sample_write sample_flagged_read
        { sample_world with events := [sample_ack, sample_ack, Event.wdog] }
        1 0 [0x20] [sample_ack, sample_ack] [Event.wdog]
        (by decide) (by decide) (by decide) (by decide) rfl (by decide) (by decide)
        rfl (by decide) rfl (by decide) rfl rfl (by decide) with
    | ⟨t, _, _, hwire, _, hdog⟩ => ⟨t, hwire, hdog [] rfl⟩⟩

/-- Claim C9: at the head of every iteration of the coordinator loop the merge
computation sets `restart` to 0 or 1 and changes nothing else; it is 0 if and
only if more than one message remains and the next message carries
`I2C_M_NORESTART` and has the address, the frequency and the `I2C_M_READ` bit
of the current message; in every other case, the last message included, it
is 1. -/
theorem compute_restart_spec (w : World) (cur : i2c_msg_s)
    (hcur : w.mem[w.priv.msgs]? = some cur)
    (hnext : w.priv.nmsg > 1 → ∃ next, w.mem[w.priv.msgs + 1]? = some next) :
    ∃ r : Int, compute_restart w = some { w with priv := { w.priv with restart := r } } ∧
      (r = 0 ∨ r = 1) ∧
      (r = 0 ↔ w.priv.nmsg > 1 ∧ ∃ next, w.mem[w.priv.msgs + 1]? = some next ∧
          next.flags &&& I2C_M_NORESTART ≠ 0 ∧
          next.addr = cur.addr ∧
          next.frequency = cur.frequency ∧
          next.flags &&& I2C_M_READ = cur.flags &&& I2C_M_READ) := by
  by_cases hn : w.priv.nmsg > 1
  · obtain ⟨next, hnx⟩ := hnext hn
    by_cases hc : next.flags &&& I2C_M_NORESTART ≠ 0 ∧ next.addr = cur.addr ∧
        next.frequency = cur.frequency ∧ next.flags &&& I2C_M_READ = cur.flags &&& I2C_M_READ
    · refine ⟨0, ?_, Or.inl rfl, ?_⟩
      · simp [compute_restart, hn, hnx, hcur, hc]
      · simp only [true_iff]
        exact ⟨hn, next, hnx, hc⟩
    · refine ⟨1, ?_, Or.inr rfl, ?_⟩
      · simp only [compute_restart, hn, if_true, hnx, hcur, Option.some_bind, Option.map_some', if_neg hc]
      · simp only [one_ne_zero, false_iff]
        rintro ⟨_, nx, h1, h2⟩
        rw [hnx] at h1
        cases h1
        exact hc h2
  · refine ⟨1, ?_, Or.inr rfl, ?_⟩
    · simp [compute_restart, hn]
    · simp [hn]

/-- Two writes to one address, the second flagged: the restart is cleared. -/
theorem compute_restart_spec_witness :
    compute_restart
        { sample_blocked with
          priv := { sample_blocked.priv with nmsg := 2 },
          mem := [{ frequency := 400000, addr := 0x50, flags := 0, buffer := [7], length := 1 },
                  { frequency := 400000, addr := 0x50, flags := 0x80, buffer := [8],
                    length := 1 }] } =
      some { sample_blocked with
          priv := { sample_blocked.priv with nmsg := 2, restart := 0 },
          mem := [{ frequency := 400000, addr := 0x50, flags := 0, buffer := [7], length := 1 },
                  { frequency := 400000, addr := 0x50, flags := 0x80, buffer := [8],
                    length := 1 }] } ∧
    ∃ r : Int, compute_restart
        { sample_blocked with
          priv := { sample_blocked.priv with nmsg := 2 },
          mem := [{ frequency := 400000, addr := 0x50, flags := 0, buffer := [7], length := 1 },
                  { frequency := 400000, addr := 0x50, flags := 0x80, buffer := [8],
                    length := 1 }] } =
      some { sample_blocked with
          priv := { sample_blocked.priv with nmsg := 2, restart := r },
          mem := [{ frequency := 400000, addr := 0x50, flags := 0, buffer := [7], length := 1 },
                  { frequency := 400000, addr := 0x50, flags := 0x80, buffer := [8],
                    length := 1 }] } ∧ (r = 0 ∨ r = 1) :=
  ⟨by decide,
    match compute_restart_spec
        { sample_blocked with
          priv := { sample_blocked.priv with nmsg := 2 },
          mem := [{ frequency := 400000, addr := 0x50, flags := 0, buffer := [7], length := 1 },
                  { frequency := 400000, addr := 0x50, flags := 0x80, buffer := [8],
                    length := 1 }] }
        { frequency := 400000, addr := 0x50, flags := 0, buffer := [7], length := 1 } rfl
        (fun _ => ⟨_, rfl⟩) with
    | ⟨r, h1, h2, _⟩ => ⟨r, h1, h2⟩⟩

/-- Claim C10: for every device state with `nmsg >= 1`, `kinetis_i2c_nextmsg`
decrements `nmsg` by one; when the result is positive it advances the message
cursor by one, zeroes `wrcnt` and `rdcnt`, writes no register, and signals
completion if and only if `restart` is non-zero; when the result is 0 it leaves
the cursors alone, issues STOP (C1 written to enable|interrupt-enable, master
mode cleared) and signals completion exactly once.  The status and the message
memory are never changed. -/
theorem nextmsg_spec (w : World) (h1 : 1 ≤ w.priv.nmsg) :
    (w.priv.nmsg - 1 > 0 →
      kinetis_i2c_nextmsg w =
        { w with
          priv := { w.priv with nmsg := w.priv.nmsg - 1, msgs := w.priv.msgs + 1,
                                wrcnt := 0, rdcnt := 0,
                                wait := if w.priv.restart ≠ 0 then w.priv.wait + 1
                                        else w.priv.wait },
          trace := if w.priv.restart ≠ 0 then w.trace ++ [Action.sem_post Sem.wait]
                   else w.trace }) ∧
    (w.priv.nmsg - 1 = 0 →
      kinetis_i2c_nextmsg w =
        { w with
          priv := { w.priv with nmsg := 0, wait := w.priv.wait + 1 },
          c1 := I2C_C1_IICEN ||| I2C_C1_IICIE,
          trace := w.trace ++ [Action.putreg8 (I2C_C1_IICEN ||| I2C_C1_IICIE) Reg.C1,
                               Action.sem_post Sem.wait] }) ∧
    (kinetis_i2c_nextmsg w).priv.state = w.priv.state ∧
    (kinetis_i2c_nextmsg w).mem = w.mem := by
  have hdec : decr_nmsg w.priv.nmsg = w.priv.nmsg - 1 := by
    unfold decr_nmsg
    rw [if_neg (by omega)]
  refine ⟨?_, ?_, ?_, ?_⟩
  · intro hpos
    by_cases hr : w.priv.restart = 0
    · simp [kinetis_i2c_nextmsg, hdec, hpos, hr]
    · simp [kinetis_i2c_nextmsg, hdec, hpos, hr, sem_post_wait]
  · intro hz
    simp [kinetis_i2c_nextmsg, hdec, hz, kinetis_i2c_stop, putreg8, sem_post_wait]
  · unfold kinetis_i2c_nextmsg
    simp only []
    split_ifs <;> simp [kinetis_i2c_stop, putreg8, sem_post_wait]
  · unfold kinetis_i2c_nextmsg
    simp only []
    split_ifs <;> simp [kinetis_i2c_stop, putreg8, sem_post_wait]

/-- The last message of a transfer is done: STOP and one completion signal. -/
theorem nextmsg_spec_witness :
    1 ≤ sample_blocked.priv.nmsg ∧
    kinetis_i2c_nextmsg sample_blocked =
        { sample_blocked with
          priv := { sample_blocked.priv with nmsg := 0, wait := 1 },
          c1 := 0xC0,
          trace := sample_blocked.trace ++ [Action.putreg8 0xC0 Reg.C1,
                               Action.sem_post Sem.wait] } :=
  ⟨by decide, (nextmsg_spec sample_blocked (by decide)).2.1 rfl⟩

/-- Claim C11 fails on the code for its last part: the set-up does not reset
the count of the completion semaphore.  A call that timed out and whose byte
was acknowledged late leaves one completion signal pending.  Two one-byte
writes to 0x50 follow, identical messages against identical hardware
responses, and both return 0 with the same buffer; the first consumes the
stale signal at its first wait and issues a repeated START and the address
byte a second time, the second does not. -/
theorem consecutive_calls_differ_after_stale_signal :
    (((kinetis_i2c_interrupt 0x80 0 sample_timed_out).bind (transfer_wake 0)).bind fun p =>
      (kinetis_i2c_transfer board48 2 [sample_write] 1
          { p.2 with polls := [0], events := [sample_ack, sample_ack] }).map fun q =>
        (p.2.priv.wait, outcome p.2 q)) =
      some (1, 0, [sample_write],
          [Action.putreg8 0xF0 Reg.C1, Action.putreg8 0xA0 Reg.D, Action.putreg8 0xF4 Reg.C1,
           Action.putreg8 0xA0 Reg.D, Action.putreg8 7 Reg.D, Action.putreg8 0xC0 Reg.C1,
           Action.putreg8 0x80 Reg.C1]) ∧
    (((kinetis_i2c_interrupt 0x80 0 sample_timed_out).bind (transfer_wake 0)).bind fun p =>
      (kinetis_i2c_transfer board48 2 [sample_write] 1
          { p.2 with polls := [0], events := [sample_ack, sample_ack] }).bind fun q =>
        (kinetis_i2c_transfer board48 2 [sample_write] 1
            { q.2 with polls := [0], events := [sample_ack, sample_ack] }).map fun r =>
          (q.2.priv.wait, outcome q.2 r)) =
      some (0, 0, [sample_write],
          [Action.putreg8 0xF0 Reg.C1, Action.putreg8 0xA0 Reg.D, Action.putreg8 7 Reg.D,
           Action.putreg8 0xC0 Reg.C1, Action.putreg8 0x80 Reg.C1]) := by
  decide

/-- Claim C11 as amended: a call does not read what an earlier call left in
the status, the message cursor, the remaining count, `wrcnt`, `rdcnt`, the
restart flag or the message array the cursor pointed into.  Started in two states that differ
only in these, on the same messages and against the same environment (polls
and events), the two calls return the same result, leave the same buffers,
perform the same actions in the same order (every register write, wait, signal
and buffer access), and leave the same control latch and device record, the
restart flag apart (it keeps its old value when the loop is not entered).  The
count of the completion semaphore and the control register are not among
these: when a call that started with the control register at `I2C_C1_IICEN`
(enabled, not master) returns, having left the pending count of the completion
semaphore as it found it, a second call with the same messages against the
same environment returns the same result, leaves the same buffers and performs
the same control- and data-register writes. -/
theorem no_cross_call_leakage (b : Board) (fuel : Nat) (msgs : List i2c_msg_s) (count : Int)
    (w : World) :
    (∀ (st cur n wr rd : Nat) (rs : Int) (old : List i2c_msg_s),
      (kinetis_i2c_transfer b fuel msgs count
          { w with
            priv := { w.priv with state := st, msgs := cur, nmsg := n, wrcnt := wr,
                                  rdcnt := rd, restart := rs },
            mem := old }).map (full_outcome w) =
        (kinetis_i2c_transfer b fuel msgs count w).map (full_outcome w)) ∧
    (∀ (r1 : Int) (w1 : World),
      kinetis_i2c_transfer b fuel msgs count w = some (r1, w1) →
      w.c1 = I2C_C1_IICEN → w1.priv.wait = w.priv.wait →
      (kinetis_i2c_transfer b fuel msgs count
          { w1 with polls := w.polls, events := w.events }).map (outcome w1) =
        some (outcome w (r1, w1))) := by
  constructor
  · intro st cur n wr rd rs old
    exact transfer_full_outcome_eq b fuel msgs count
      { w with
        priv := { w.priv with state := st, msgs := cur, nmsg := n, wrcnt := wr,
                              rdcnt := rd, restart := rs },
        mem := old } w rfl rfl rfl rfl rfl
  · intro r1 w1 h hc1 hwait
    have h1 := transfer_outcome_eq b fuel msgs count
      { w1 with polls := w.polls, events := w.events } w hwait
      ((transfer_leaves_c1 b fuel msgs count w w1 r1 h).trans hc1.symm) rfl rfl
    rw [h, Option.map_some'] at h1
    exact h1

/-- A one-byte write started in `sample_world` returns 0; started again in the
state the first call left, against the same polls and events, it returns 0
with the same buffer and the same control- and data-register writes. -/
theorem no_cross_call_leakage_witness :
    kinetis_i2c_transfer board48 1 [sample_write] 1
        { sample_world with events := [sample_ack, sample_ack] } =
      some (0, sample_write_result) ∧
    (kinetis_i2c_transfer board48 1 [sample_write] 1
        { sample_write_result with
          polls := sample_world.polls, events := [sample_ack, sample_ack] }).map
        (outcome sample_write_result) =
      some (0, [sample_write],
        [Action.putreg8 0xF0 Reg.C1, Action.putreg8 0xA0 Reg.D, Action.putreg8 7 Reg.D,
         Action.putreg8 0xC0 Reg.C1, Action.putreg8 0x80 Reg.C1]) :=
  ⟨by decide,
    ((no_cross_call_leakage board48 1 [sample_write] 1
        { sample_world with events := [sample_ack, sample_ack] }).2 0 sample_write_result
        (by decide) (by decide) (by decide)).trans (by decide)⟩

/-- Claim C13 fails on the code: the handler never tests the status.  In a
state whose status is STATE_TIMEOUT, with a one-byte write in progress in
transmit mode, an acknowledged interrupt pushes the byte 7 to the data
register and moves `wrcnt` from 0 to 1; in receive mode on a one-byte read it
reads the data register, stores the byte 0x55 in the buffer and moves `rdcnt`
from 0 to 1. -/
theorem status_nonok_byte_processed :
    (with_status STATE_TIMEOUT sample_blocked).priv.state ≠ STATE_OK ∧
    kinetis_i2c_interrupt 0x80 0 (with_status STATE_TIMEOUT sample_blocked) = some
      { sample_blocked with
        priv := { sample_blocked.priv with state := STATE_TIMEOUT, wrcnt := 1 },
        trace := sample_blocked.trace ++
          [Action.putreg8 0x02 Reg.S, Action.load 0 0, Action.putreg8 7 Reg.D] } ∧
    kinetis_i2c_interrupt 0x80 0x55
        (with_status STATE_TIMEOUT { sample_blocked with c1 := 0xE0, mem := [sample_read] }) =
      some
        { sample_blocked with
          priv := { sample_blocked.priv with
                    state := STATE_TIMEOUT, rdcnt := 1, nmsg := 0, wait := 1 },
          mem := [{ sample_read with buffer := [0x55] }],
          c1 := 0xC0,
          trace := sample_blocked.trace ++
            [Action.putreg8 0x02 Reg.S, Action.putreg8 0xF0 Reg.C1, Action.getreg8_D 0x55,
             Action.store 0 0 0x55, Action.putreg8 0xC0 Reg.C1,
             Action.sem_post Sem.wait] } := by
  decide

/-- Claim C13, amended to what the code does: processing stops at the
coordinator, not in the handler.  (1) An invocation that itself sets a non-OK
status (arbitration lost, or NAK in transmit mode) issues STOP and signals
completion without touching the data register, the buffers, `wrcnt`, `rdcnt`,
the message cursor or the remaining count.  (2) With a non-OK status the
coordinator loop ends at its next test without awaiting another interrupt.
(3) The handler never reads the status: in every other invocation it does, in
a state whose status is `st`, exactly what it does in the same state with any
other status, and carries `st` along; so with a non-OK status it still pushes
or stores the byte and moves the counters. -/
theorem handler_never_reads_status (s d st : Nat) (w : World) :
    ((s &&& I2C_S_ARBL ≠ 0 ∨ (w.c1 &&& I2C_C1_TX ≠ 0 ∧ s &&& I2C_S_RXAK ≠ 0)) →
      ∃ w' v, kinetis_i2c_interrupt s d w = some w' ∧ w'.priv.state ≠ STATE_OK ∧
        w'.trace = w.trace ++
          [Action.putreg8 v Reg.S, Action.putreg8 (I2C_C1_IICEN ||| I2C_C1_IICIE) Reg.C1,
           Action.sem_post Sem.wait] ∧
        w'.mem = w.mem ∧ w'.priv.wrcnt = w.priv.wrcnt ∧ w'.priv.rdcnt = w.priv.rdcnt ∧
        w'.priv.msgs = w.priv.msgs ∧ w'.priv.nmsg = w.priv.nmsg) ∧
    (st ≠ STATE_OK → ∀ fuel, transfer_loop fuel (with_status st w) = some (with_status st w)) ∧
    (s &&& I2C_S_ARBL = 0 → (w.c1 &&& I2C_C1_TX = 0 ∨ s &&& I2C_S_RXAK = 0) →
      kinetis_i2c_interrupt s d (with_status st w) =
        (kinetis_i2c_interrupt s d w).map (with_status st)) := by
  refine ⟨?_, ?_, handler_ignores_status s d st w⟩
  · intro h
    by_cases harb : s &&& I2C_S_ARBL = 0
    · obtain ⟨htx, hnak⟩ := h.resolve_left (not_not.2 harb)
      exact ⟨_, _, handler_on_nak s d w harb htx hnak, (show STATE_NAK ≠ STATE_OK by decide), rfl, rfl, rfl, rfl, rfl, rfl⟩
    · exact ⟨_, _, handler_on_arbitration_loss s d w harb,
        (show STATE_ARBITRATION_ERROR ≠ STATE_OK by decide), rfl, rfl, rfl, rfl, rfl,
        rfl⟩
  · intro hst fuel
    exact transfer_loop_done fuel _ fun h => hst h.2

/-- The three parts at concrete inputs: a NAK on the blocked one-byte write
sets STATE_NAK with no data-register access; with STATE_TIMEOUT the loop ends;
and an acknowledged interrupt in the state with status STATE_TIMEOUT does what
it does with STATE_OK, here pushing the byte. -/
theorem handler_never_reads_status_witness :
    (∃ w', kinetis_i2c_interrupt 0x81 0 sample_blocked = some w' ∧
      w'.priv.state = STATE_NAK ∧ dwrites w'.trace = dwrites sample_blocked.trace) ∧
    transfer_loop 1 (with_status STATE_TIMEOUT sample_blocked) =
      some (with_status STATE_TIMEOUT sample_blocked) ∧
    kinetis_i2c_interrupt 0x80 0 (with_status STATE_TIMEOUT sample_blocked) =
      (kinetis_i2c_interrupt 0x80 0 sample_blocked).map (with_status STATE_TIMEOUT) := by
  have h := handler_never_reads_status 0x80 0 STATE_TIMEOUT sample_blocked
  have h' := handler_never_reads_status 0x81 0 STATE_TIMEOUT sample_blocked
  refine ⟨?_, h.2.1 (by decide) 1, h.2.2 (by decide) (Or.inr (by decide))⟩
  obtain ⟨w', v, hw, _, ht, _⟩ := h'.1 (Or.inr (by decide))
  refine ⟨w', hw, ?_, ?_⟩
  · rw [handler_on_nak 0x81 0 sample_blocked (by decide) (by decide) (by decide)] at hw
    cases hw
    rfl
  · rw [ht, dwrites_append]
    simp [dwrites]

/-- Claim C14 fails on the code for merged reads.  Two one-byte reads from
0x50, the second carrying `I2C_M_NORESTART`, are passed with count 2 in an
array that has a third, unused element; every interrupt is acknowledged.  The
call returns 0 with status STATE_OK and both buffers filled, but the
coordinator armed the watchdog, waited and cancelled the watchdog once, not
twice: after the byte of the first read the chain walker advances without a
completion signal and the handler receives the second read under the same
suspension.  (With an array of exactly two messages the look-ahead
`(priv->msgs + 1)->length` at the last byte is outside the array, and the
model stops there.) -/
theorem merged_reads_one_suspension :
    (kinetis_i2c_transfer board48 2 [sample_read, sample_flagged_read, sample_write2] 2
        { sample_world with
          events := [Event.irq 0x80 0x10, Event.irq 0x80 0x11, Event.irq 0x80 0x12] }).map
      (fun p => (p.1, p.2.priv.state, p.2.mem.take 2, coord p.2.trace)) =
      some (0, STATE_OK,
        [{ sample_read with buffer := [0x11] }, { sample_flagged_read with buffer := [0x12] }],
        [Action.wd_start, Action.sem_wait Sem.wait, Action.wd_cancel]) ∧
    kinetis_i2c_transfer board48 2 [sample_read, sample_flagged_read] 2
        { sample_world with
          events := [Event.irq 0x80 0x10, Event.irq 0x80 0x11, Event.irq 0x80 0x12] } =
      none := by
  decide

/-- Claim C14, amended to what the code does: the coordinator is resumed once
per completion signal, and the handler signals completion once per message
except when it continues from a read into a read merged with it, where the
chain walker advances without a signal.  For every call on an idle device (no
completion signal pending) whose first message does not carry
`I2C_M_NORESTART` and in which no read is merged into the read before it (no
read is followed by a read carrying `I2C_M_NORESTART` for the same address and
frequency), whatever the environment delivers: when the call returns with
status STATE_OK it returns 0 and the coordinator's actions during the call are
exactly `count` rounds of arming the watchdog, waiting on the completion
signal and cancelling the watchdog. -/
theorem one_suspension_per_message (b : Board) (fuel : Nat) (msgs : List i2c_msg_s)
    (count : Nat) (w w' : World) (r : Int)
    (hcount : count < 2 ^ 31) (hwait : w.priv.wait = 0)
    (hfirst : ∀ first, msgs[0]? = some first → first.flags &&& I2C_M_NORESTART = 0)
    (hmerge : no_merged_read msgs count)
    (h : kinetis_i2c_transfer b fuel msgs count w = some (r, w'))
    (hok : w'.priv.state = STATE_OK) :
    r = 0 ∧ coord (call_trace w w') = (List.replicate count coord_round).flatten := by
  cases h0 : msgs[0]? with
  | none =>
    rw [transfer_no_message b fuel msgs count w h0] at h
    cases h
  | some first =>
    rw [transfer_normal_form b fuel msgs count w first h0] at h
    simp only [Option.map_eq_some', Prod.mk.injEq] at h
    obtain ⟨x, hx, hr, rfl⟩ := h
    have hxs : (transfer_exit x).2.priv.state = STATE_OK := hok
    have hexit : (transfer_exit x).1 = 0 ∧ (transfer_exit x).2.priv.state = x.priv.state ∧
        coord (transfer_exit x).2.trace = coord x.trace := by
      unfold transfer_exit
      simp only
      split_ifs with hs
      · exact absurd hxs (by
          unfold transfer_exit
          simp only
          rw [if_pos hs]
          exact hs)
      · refine ⟨rfl, rfl, ?_⟩
        rw [coord_log, coord_putreg8]
        simp [coord]
    obtain ⟨e1, e2, e3⟩ := hexit
    have hI : loop_head (msgs.map shape) count (loop_entry msgs ((count : Nat) : Int) first w) := by
      refine ⟨hwait, rfl, fun _ => ⟨?_, fun hp => absurd hp (lt_irrefl 0)⟩⟩
      show 0 + ((count : Int) % 2 ^ 32).toNat = count
      rw [nmsg_of_count count hcount, Nat.zero_add]
    have hf : ∀ f, (msgs.map shape)[0]? = some f → f.flags &&& I2C_M_NORESTART = 0 := by
      intro f hf
      rw [List.getElem?_map, h0] at hf
      simp only [Option.map_some', Option.some.injEq] at hf
      rw [← hf]
      exact hfirst first h0
    have hloop := loop_count (msgs.map shape) count hf (no_merged_read_shape msgs count hmerge)
      fuel _ x hI hx (e2 ▸ hxs)
    refine ⟨hr ▸ e1, ?_⟩
    rw [call_trace_after, coord_append, coord_setup_actions, List.nil_append, e3, hloop]
    have hn : (loop_entry msgs ((count : Nat) : Int) first w).priv.nmsg = count :=
      nmsg_of_count count hcount
    rw [hn]
    rfl

/-- A one-byte write followed by a one-byte read, both to 0x50, with every
interrupt acknowledged: the call returns 0 after two rounds of the
coordinator, one per message. -/
theorem one_suspension_per_message_witness :
    (0 : Int) = 0 ∧
    coord (call_trace
        { sample_world with events := [sample_ack, sample_ack, sample_ack, Event.irq 0x80 0x55] }
        sample_write_read_result) =
      [Action.wd_start, Action.sem_wait Sem.wait, Action.wd_cancel,
       Action.wd_start, Action.sem_wait Sem.wait, Action.wd_cancel] :=
  one_suspension_per_message board48 2 [sample_write, sample_read] 2
    { sample_world with events := [sample_ack, sample_ack, sample_ack, Event.irq 0x80 0x55] }
    sample_write_read_result 0 (by decide) (by decide)
    (fun first h => by
      simp only [List.getElem?_cons_zero, Option.some.injEq] at h
      subst h
      decide)
    (fun i cur next hi hcur _ hrd => by
      have hi0 : i = 0 := by omega
      subst hi0
      simp only [List.getElem?_cons_zero, Option.some.injEq] at hcur
      subst hcur
      exact absurd hrd (by decide))
    (by decide) (by decide)

/-- Claim C15: a call configures the clock once, from the first message only.
Whatever call returns, with whatever messages after the first: the cached
frequency it leaves is `msgs[0].frequency`; the writes it made to the divider
and filter registers are those of one `kinetis_i2c_setfrequency` for that
frequency, namely one write of each (divider first) when `msgs[0].frequency`
differs from the frequency cached before the call, and none at all when it is
equal; and `kinetis_i2c_setfrequency` with the cached value returns the state
unchanged. -/
theorem clock_configured_once (b : Board) (fuel : Nat) (msgs : List i2c_msg_s) (count : Int)
    (w w' : World) (r : Int)
    (h : kinetis_i2c_transfer b fuel msgs count w = some (r, w')) :
    ∃ first rest, msgs = first :: rest ∧
      w'.priv.frequency = first.frequency ∧
      clockwrites (call_trace w w') =
        (if first.frequency = w.priv.frequency then []
         else [Action.putreg8 (b.F first.frequency) Reg.F, Action.putreg8 b.FLT Reg.FLT]) ∧
      (clockwrites (call_trace w w') ≠ [] ↔ first.frequency ≠ w.priv.frequency) ∧
      kinetis_i2c_setfrequency b w.priv.frequency w = w := by
  cases msgs with
  | nil =>
    rw [transfer_no_message b fuel [] count w (by simp)] at h
    cases h
  | cons first rest =>
    obtain ⟨hf, ht⟩ := transfer_clock b fuel (first :: rest) count w w' r first
      (by simp) h
    refine ⟨first, rest, rfl, hf, ht, ?_, ?_⟩
    · rw [ht]
      unfold clock_actions
      split_ifs with hc
      · simp [hc]
      · simp [hc]
    · unfold kinetis_i2c_setfrequency
      rw [if_pos rfl]

/-- A one-byte write at 400 kHz on a controller whose cached frequency is
100 kHz: the call writes the divider and then the filter once, before anything
else on the bus, and leaves 400 kHz cached. -/
theorem clock_configured_once_witness :
    ∃ first rest, [sample_write] = first :: rest ∧
      (400000 : Nat) = first.frequency ∧
      clockwrites (call_trace
        { sample_world with
          priv := { sample_world.priv with frequency := 100000 },
          events := [sample_ack, sample_ack] }
        { sample_write_result with
          trace := [Action.sem_wait Sem.mutex, Action.putreg8 0x1A Reg.F,
                    Action.putreg8 4 Reg.FLT] ++ sample_write_result.trace.drop 1 }) =
        [Action.putreg8 0x1A Reg.F, Action.putreg8 4 Reg.FLT] := by
  obtain ⟨first, rest, h1, h2, h3, _, _⟩ := clock_configured_once board48 1 [sample_write] 1
    { sample_world with
      priv := { sample_world.priv with frequency := 100000 },
      events := [sample_ack, sample_ack] }
    { sample_write_result with
      trace := [Action.sem_wait Sem.mutex, Action.putreg8 0x1A Reg.F,
                Action.putreg8 4 Reg.FLT] ++ sample_write_result.trace.drop 1 }
    0 (by decide)
  refine ⟨first, rest, h1, h2, ?_⟩
  rw [h3]
  cases h1
  decide

/-- Claim C16 fails on the code for a run of merged reads whose last message
is longer than one byte.  A one-byte read from 0x50 followed by a two-byte
read from 0x50 carrying `I2C_M_NORESTART` forms a read tail of three bytes
(0x11, 0x12, 0x13) that ends in STOP.  The data-register read that triggers
the reception of the final byte is the one that returns 0x12; the control
register value last written before it is 0xE0, with TXAK clear, so the master
acknowledges the final byte: the restart flag is still the 0 computed for the
first message, and the handler sets TXAK at `rdcnt = length - 2` only when the
flag is set.  The same three bytes read as one message have TXAK set (0xE8)
at that read.  (The array has a third, unused element: with exactly two
messages the look-ahead at the last byte is outside the array.) -/
theorem merged_read_tail_acknowledged :
    (kinetis_i2c_transfer board48 2 [sample_read, sample_flagged_read2, sample_write2] 2
        { sample_world with
          events := [Event.irq 0x80 0x10, Event.irq 0x80 0x11, Event.irq 0x80 0x12,
                     Event.irq 0x80 0x13] }).map
      (fun p => (p.1, p.2.mem.take 2, reads_with_c1 0x80 p.2.trace)) =
      some (0,
        [{ sample_read with buffer := [0x11] },
         { sample_flagged_read2 with buffer := [0x12, 0x13] }],
        [(0xE0, 0x10), (0xE0, 0x11), (0xE0, 0x12), (0xE0, 0x13)]) ∧
    0xE0 &&& I2C_C1_TXAK = 0 ∧
    (kinetis_i2c_transfer board48 1 [sample_read3] 1
        { sample_world with
          events := [Event.irq 0x80 0x10, Event.irq 0x80 0x11, Event.irq 0x80 0x12,
                     Event.irq 0x80 0x13] }).map
      (fun p => (p.1, p.2.mem, reads_with_c1 0x80 p.2.trace)) =
      some (0, [{ sample_read3 with buffer := [0x11, 0x12, 0x13] }],
        [(0xE0, 0x10), (0xE0, 0x11), (0xE8, 0x12), (0xF0, 0x13)]) ∧
    0xE8 &&& I2C_C1_TXAK ≠ 0 := by
  decide

/-- Claim C17: in receive mode (TX clear in the control register) with
arbitration-lost clear, on a current message whose buffer holds index `rdcnt`
(and, for the look-ahead of the last byte without restart, with a next message
in the array), the handler acknowledges the interrupt, makes the control write
prescribed by `rx_control_claimed` (transmit mode at `rdcnt = length - 1` with
restart set; receive with no-ack at `rdcnt = length - 1` with restart clear and
the next message one byte long; receive with no-ack at `rdcnt = length - 2`
with restart set; none otherwise), then reads the data register, stores the
value at `buffer[rdcnt]` of the current message and increments `rdcnt` by one
(a `uint16_t` increment: it is `rdcnt + 1` below 65535); the chain walker runs
afterwards exactly when `rdcnt` was `length - 1`. -/
theorem interrupt_receive (s d : Nat) (w : World) (msg : i2c_msg_s)
    (harb : s &&& I2C_S_ARBL = 0)
    (hrx : w.c1 &&& I2C_C1_TX = 0)
    (hmsg : w.mem[w.priv.msgs]? = some msg)
    (hbuf : w.priv.rdcnt < msg.buffer.length)
    (hnext : (w.priv.rdcnt : Int) = msg.length - 1 → w.priv.restart = 0 →
      w.priv.msgs + 1 < w.mem.length) :
    kinetis_i2c_interrupt s d w = some
      ((if (w.priv.rdcnt : Int) = msg.length - 1 then kinetis_i2c_nextmsg else id)
        { w with
          priv := { w.priv with rdcnt := (w.priv.rdcnt + 1) % 2 ^ 16 },
          mem := w.mem.set w.priv.msgs { msg with buffer := msg.buffer.set w.priv.rdcnt d },
          c1 := ((rx_control_claimed w.priv.rdcnt w.priv.restart msg.length
                  ((w.mem[w.priv.msgs + 1]?).map fun next => next.length)).getLast?).getD w.c1,
          trace := w.trace ++ [Action.putreg8 I2C_S_IICIF Reg.S] ++
            (rx_control_claimed w.priv.rdcnt w.priv.restart msg.length
              ((w.mem[w.priv.msgs + 1]?).map fun next => next.length)).map
                (fun v => Action.putreg8 v Reg.C1) ++
            [Action.getreg8_D d, Action.store w.priv.msgs w.priv.rdcnt d] }) ∧
    (w.priv.rdcnt < 65535 → (w.priv.rdcnt + 1) % 2 ^ 16 = w.priv.rdcnt + 1) := by
  refine ⟨?_, fun h => Nat.mod_eq_of_lt (by omega)⟩
  unfold kinetis_i2c_interrupt
  simp only [harb, putreg8, hrx, hmsg, Option.some_bind, ne_eq, not_true_eq_false, if_false]
  unfold interrupt_rx rx_control_claimed
  by_cases h1 : (w.priv.rdcnt : Int) = msg.length - 1
  · have h2 : ¬ (w.priv.rdcnt : Int) = msg.length - 2 := by omega
    by_cases hr : w.priv.restart = 0
    · obtain ⟨next, hn⟩ : ∃ next, w.mem[w.priv.msgs + 1]? = some next :=
        ⟨_, List.getElem?_eq_getElem (hnext h1 hr)⟩
      by_cases hl : next.length = 1
      · simp [h1, hr, hn, hl, putreg8, getreg8_D, World.log, store_byte, hmsg, hbuf, incr_rdcnt]
      · simp [h1, hr, hn, hl, putreg8, getreg8_D, World.log, store_byte, hmsg, hbuf, incr_rdcnt]
    · simp [h1, hr, putreg8, getreg8_D, World.log, store_byte, hmsg, hbuf, incr_rdcnt]
  · by_cases h2 : (w.priv.rdcnt : Int) = msg.length - 2
    · by_cases hr : w.priv.restart = 0
      · simp [h1, h2, hr, putreg8, getreg8_D, World.log, store_byte, hmsg, hbuf, incr_rdcnt]
      · simp [h1, h2, hr, putreg8, getreg8_D, World.log, store_byte, hmsg, hbuf, incr_rdcnt]
    · simp [h1, h2, putreg8, getreg8_D, World.log, store_byte, hmsg, hbuf, incr_rdcnt]

/-- The only byte of a one-byte read arrives with a restart pending: transmit
mode is selected, the byte 0x55 is stored at index 0, `rdcnt` becomes 1, and
the chain walker, finding no message left, issues STOP and signals
completion. -/
theorem interrupt_receive_witness :
    kinetis_i2c_interrupt 0x80 0x55 { sample_blocked with c1 := 0xE0, mem := [sample_read] } =
      some
        { sample_blocked with
          priv := { sample_blocked.priv with rdcnt := 1, nmsg := 0, wait := 1 },
          mem := [{ sample_read with buffer := [0x55] }],
          c1 := 0xC0,
          trace := sample_blocked.trace ++
            [Action.putreg8 0x02 Reg.S, Action.putreg8 0xF0 Reg.C1, Action.getreg8_D 0x55,
             Action.store 0 0 0x55, Action.putreg8 0xC0 Reg.C1,
             Action.sem_post Sem.wait] } :=
  (interrupt_receive 0x80 0x55 { sample_blocked with c1 := 0xE0, mem := [sample_read] }
    sample_read (by decide) (by decide) (by decide) (by decide) (by decide)).1.trans
    (by decide)

/-- Claim C19: `kinetis_i2c_start` on any current message, with status polls
that let its busy-waits end (`bs` busy polls then a free one when the
controller is not yet master; `fs` free polls then a busy one when the message
is a read): it writes the control register once, with the repeated-start bit
(enable, interrupt-enable, master, RSTA, transmit) exactly when the control
register showed the controller already master, and without it (enable,
interrupt-enable, master, transmit) otherwise; it then writes exactly one byte
to the data register, whose bits 7..1 are the low 7 bits of the message
address and whose bit 0 is 1 for a read and 0 for a write, so that the read
and write address bytes of one address differ; and it returns OK, as does
every call of it that returns. -/
theorem start_spec (w : World) (msg : i2c_msg_s) (bs fs tl : List Nat) (pf pb : Nat)
    (hmsg : w.mem[w.priv.msgs]? = some msg)
    (hpolls : w.polls =
      (if w.c1 &&& I2C_C1_MST ≠ 0 then [] else bs ++ [pf]) ++
      (if I2C_M_READ &&& msg.flags ≠ 0 then fs ++ [pb] else []) ++ tl)
    (hbs : ∀ p ∈ bs, p &&& I2C_S_BUSY ≠ 0) (hpf : pf &&& I2C_S_BUSY = 0)
    (hfs : ∀ p ∈ fs, p &&& I2C_S_BUSY = 0) (hpb : pb &&& I2C_S_BUSY ≠ 0) :
    ∃ c a,
      kinetis_i2c_start w = some (OK,
        { w with c1 := c, polls := tl,
                 trace := w.trace ++ [Action.putreg8 c Reg.C1, Action.putreg8 a Reg.D] }) ∧
      c = (if w.c1 &&& I2C_C1_MST ≠ 0 then
             I2C_C1_IICEN ||| I2C_C1_IICIE ||| I2C_C1_MST ||| I2C_C1_RSTA ||| I2C_C1_TX
           else I2C_C1_IICEN ||| I2C_C1_IICIE ||| I2C_C1_MST ||| I2C_C1_TX) ∧
      (c &&& I2C_C1_RSTA ≠ 0 ↔ w.c1 &&& I2C_C1_MST ≠ 0) ∧
      a / 2 = msg.addr % 128 ∧
      a % 2 = (if I2C_M_READ &&& msg.flags ≠ 0 then 1 else 0) ∧
      I2C_READADDR8 msg.addr ≠ I2C_WRITEADDR8 msg.addr ∧
      ∀ (w0 : World) (r : Int) (w1 : World), kinetis_i2c_start w0 = some (r, w1) → r = OK := by
  refine ⟨_, if I2C_M_READ &&& msg.flags ≠ 0 then I2C_READADDR8 msg.addr
    else I2C_WRITEADDR8 msg.addr, ?_, rfl, ?_, ?_, ?_, ?_, ?_⟩
  · unfold kinetis_i2c_start
    by_cases hm : w.c1 &&& I2C_C1_MST = 0
    · by_cases hr : I2C_M_READ &&& msg.flags = 0
      · simp only [hm, hr, ne_eq, not_true_eq_false, if_false, List.append_nil] at hpolls
        rw [hpolls, List.append_assoc, List.singleton_append,
          wait_bus_free_skip bs pf tl w hbs hpf]
        simp [hm, hr, putreg8, hmsg, read_flag_ne_zero.symm]
      · have hr' := (read_flag_tests msg.flags).2 hr
        simp only [hm, hr, ne_eq, not_true_eq_false, not_false_eq_true, if_false, if_true]
          at hpolls
        rw [hpolls, List.append_assoc, List.append_assoc, List.singleton_append,
          wait_bus_free_skip bs pf _ w hbs hpf]
        simp only [hm, ne_eq, not_true_eq_false, if_false, Option.map_some', putreg8,
          Option.some_bind, hmsg, hr, not_false_eq_true, if_true, List.append_assoc,
          List.singleton_append]
        rw [wait_bus_busy_skip fs pb tl _ hfs hpb]
        simp [hr']
    · by_cases hr : I2C_M_READ &&& msg.flags = 0
      · simp only [hm, hr, ne_eq, not_true_eq_false, not_false_eq_true, if_false, if_true,
          List.append_nil, List.nil_append] at hpolls
        simp [hm, hr, putreg8, hmsg, read_flag_ne_zero.symm, hpolls]
      · have hr' := (read_flag_tests msg.flags).2 hr
        simp only [hm, hr, ne_eq, not_false_eq_true, if_true, List.nil_append] at hpolls
        simp only [hm, ne_eq, not_false_eq_true, if_true, putreg8,
          Option.some_bind, hmsg, hr]
        rw [hpolls, List.append_assoc, List.singleton_append,
          wait_bus_busy_skip fs pb tl _ hfs hpb]
        simp [hr']
  · by_cases hm : w.c1 &&& I2C_C1_MST = 0
    · simp +decide [hm]
    · simp +decide [hm]
  · split_ifs
    · rw [readaddr8_eq]; omega
    · rw [writeaddr8_eq]; omega
  · split_ifs
    · rw [readaddr8_eq]; omega
    · rw [writeaddr8_eq]; omega
  · rw [readaddr8_eq, writeaddr8_eq]; omega
  · intro w0 r w1 h
    unfold kinetis_i2c_start at h
    simp only [Option.bind_eq_some] at h
    obtain ⟨_, _, _, _, _, _, h3⟩ := h
    cases h3
    rfl

/-- Bus acquisition for a read of address 0x50 on an idle controller: one free
poll and one busy poll are consumed, START (0xF0, no RSTA) is written and the
address byte is 0xA1. -/
theorem start_spec_witness :
    ∃ c a, kinetis_i2c_start { sample_world with mem := [sample_read] } = some (OK,
        { sample_world with
          mem := [sample_read], c1 := c, polls := [],
          trace := [Action.putreg8 c Reg.C1, Action.putreg8 a Reg.D] }) ∧
      c = 0xF0 ∧ a = 0xA1 := by
  obtain ⟨c, a, h, hc, _, ha1, ha2, _⟩ :=
    start_spec { sample_world with mem := [sample_read] } sample_read [] [] [] 0 0x20
      (by decide) (by decide) (by decide) (by decide) (by decide) (by decide)
  have h1 : sample_read.addr % 128 = 80 := by decide
  have h2 : (if I2C_M_READ &&& sample_read.flags ≠ 0 then 1 else 0) = 1 := by decide
  rw [h1] at ha1
  rw [h2] at ha2
  exact ⟨c, a, h, by rw [hc]; decide, by omega⟩

/-- Claim C20: in transmit mode, with arbitration-lost and RXAK clear and the
current message a read (its address byte has just been acknowledged), the
handler acknowledges the interrupt, writes the control register once with a
master-receive value (MST set, TX clear) whose no-ack bit TXAK is set exactly
when the message is one byte long and a restart is pending, then reads the
data register once.  The value read goes nowhere: the messages and the whole
device record (`rdcnt`, `wrcnt`, the message cursor, the remaining count, the
status and the pending count of the completion semaphore) are unchanged, and
the trace holds no buffer store and no completion signal. -/
theorem interrupt_read_address_acked (s d : Nat) (w : World) (msg : i2c_msg_s)
    (harb : s &&& I2C_S_ARBL = 0) (hack : s &&& I2C_S_RXAK = 0)
    (htx : w.c1 &&& I2C_C1_TX ≠ 0)
    (hmsg : w.mem[w.priv.msgs]? = some msg)
    (hread : I2C_M_READ &&& msg.flags ≠ 0) :
    ∃ v w', kinetis_i2c_interrupt s d w = some w' ∧
      v = (if msg.length = 1 ∧ w.priv.restart ≠ 0 then
             I2C_C1_IICEN ||| I2C_C1_IICIE ||| I2C_C1_MST ||| I2C_C1_TXAK
           else I2C_C1_IICEN ||| I2C_C1_IICIE ||| I2C_C1_MST) ∧
      (v &&& I2C_C1_TXAK ≠ 0 ↔ msg.length = 1 ∧ w.priv.restart ≠ 0) ∧
      v &&& I2C_C1_MST ≠ 0 ∧ v &&& I2C_C1_TX = 0 ∧
      w'.trace = w.trace ++
        [Action.putreg8 I2C_S_IICIF Reg.S, Action.putreg8 v Reg.C1, Action.getreg8_D d] ∧
      w'.c1 = v ∧ w'.priv = w.priv ∧ w'.mem = w.mem := by
  refine ⟨_, _, interrupt_read_addressed s d w msg harb hack hmsg hread htx, rfl, ?_, ?_, ?_,
    rfl, rfl, rfl, rfl⟩
  · by_cases hc : msg.length = 1 ∧ w.priv.restart ≠ 0
    · simp only [hc, and_self, if_true, iff_true, ne_eq, not_false_eq_true]
      exact c1_rx_noack_bits.1
    · simp only [hc, if_false, iff_false, ne_eq, not_not]
      exact c1_rx_bits.1
  · split_ifs
    · exact c1_rx_noack_bits.2.1
    · exact c1_rx_bits.2.1
  · split_ifs
    · exact c1_rx_noack_bits.2.2
    · exact c1_rx_bits.2.2

/-- The address of a one-byte read with a restart pending is acknowledged:
the handler selects receive mode with no-ack (0xE8) and leaves the device
record as it was. -/
theorem interrupt_read_address_acked_witness :
    ∃ v w', kinetis_i2c_interrupt 0x80 0x55 { sample_blocked with mem := [sample_read] } =
        some w' ∧ v = 0xE8 ∧ w'.c1 = v ∧ w'.priv = sample_blocked.priv := by
  obtain ⟨v, w', h, hv, _, _, _, _, hc, hp, _⟩ :=
    interrupt_read_address_acked 0x80 0x55 { sample_blocked with mem := [sample_read] }
      sample_read (by decide) (by decide) (by decide) (by decide) (by decide)
  exact ⟨v, w', h, by rw [hv]; decide, hc, hp⟩

/-- Claim C21 fails on the code for merged reads.  Two one-byte reads from
0x50, the second carrying `I2C_M_NORESTART`, are passed with count 2.  The
coordinator clears the restart flag for the first message and blocks; the
address is acknowledged and the byte of the first read arrives; the chain
walker then advances without a completion signal, so the coordinator does not
recompute the flag.  The handler is now invoked for the last byte of the last
message in a state with restart = 0 and nmsg = 1, in receive mode with
`rdcnt = length - 1`: it evaluates `(priv->msgs + 1)->length` although no
message follows (`none` in the model, for the handler and so for the whole
call).  With a third element behind the two messages the call completes, and
what it writes to the control register depends on the length of that
element. -/
theorem stale_restart_lookahead :
    (((transfer_setup board48 [sample_read, sample_flagged_read] 2 sample_world).bind
        enter_wait).bind (deliver_all [Event.irq 0x80 0x10, Event.irq 0x80 0x11])).map
      (fun x => (x.priv.restart, x.priv.nmsg, x.priv.msgs, x.priv.rdcnt, x.c1 &&& I2C_C1_TX)) =
      some (0, 1, 1, 0, 0) ∧
    (((transfer_setup board48 [sample_read, sample_flagged_read] 2 sample_world).bind
        enter_wait).bind (deliver_all [Event.irq 0x80 0x10, Event.irq 0x80 0x11])).map
      (fun x => ((x.mem[x.priv.msgs + 1]?).isSome, (kinetis_i2c_interrupt 0x80 0x12 x).isSome)) =
      some (false, false) ∧
    (kinetis_i2c_transfer board48 2 [sample_read, sample_flagged_read] 2
        { sample_world with
          events := [Event.irq 0x80 0x10, Event.irq 0x80 0x11, Event.irq 0x80 0x12] }).isSome =
      false ∧
    (kinetis_i2c_transfer board48 2 [sample_read, sample_flagged_read, sample_write] 2
        { sample_world with
          events := [Event.irq 0x80 0x10, Event.irq 0x80 0x11, Event.irq 0x80 0x12] }).map
      (fun p => (p.1, c1writes p.2.trace)) =
      some (0, [0xF0, 0xE0, 0xE8, 0xE8, 0xC0, 0x80]) ∧
    (kinetis_i2c_transfer board48 2 [sample_read, sample_flagged_read, sample_write2] 2
        { sample_world with
          events := [Event.irq 0x80 0x10, Event.irq 0x80 0x11, Event.irq 0x80 0x12] }).map
      (fun p => (p.1, c1writes p.2.trace)) =
      some (0, [0xF0, 0xE0, 0xE8, 0xC0, 0x80]) := by
  decide

/-- Claim C22 fails on the code for messages of length 0.  (1) A read of zero
bytes: after the address is acknowledged and the dummy read made, the next
interrupt finds `rdcnt = 0` equal to neither `length - 1` nor `length - 2`, and
the handler stores the byte at `buffer[0]`, an index not below the length 0;
the call ends with `-EIO` through the watchdog.  (2) A write of zero bytes
merged into the write before it: when the last byte of the first message is
acknowledged the chain walker advances and the fast path pushes `buffer[0]` of
the zero-length message.  In both runs the buffers have room for the access;
every other access of the two runs is below the length. -/
theorem zero_length_access_beyond_length :
    (kinetis_i2c_transfer board48 1 [zero_length_read_roomy] 1
        { sample_world with
          events := [Event.irq 0x80 0x10, Event.irq 0x80 0x11, Event.wdog] }).map
      (fun p => (p.1, beyond_length [zero_length_read_roomy] p.2.trace)) =
      some (-5, [Action.store 0 0 0x11]) ∧
    (kinetis_i2c_transfer board48 2 [sample_write, zero_length_flagged_write] 2
        { sample_world with events := [sample_ack, sample_ack, Event.wdog] }).map
      (fun p => (p.1, beyond_length [sample_write, zero_length_flagged_write] p.2.trace)) =
      some (-5, [Action.load 1 0]) := by
  decide

/-- Claim C23: in every device state in which a clear restart flag comes with
a following message (restart = 0 implies nmsg > 1), one invocation of
`kinetis_i2c_interrupt` that returns signals the completion semaphore at most
once, whatever the status and data values and whichever branch is taken: the
trace gains `k` calls `sem_post(&priv->wait)` and the count rises by `k`, with
`k` at most 1.  The bound nmsg >= 1 of the claim is not needed. -/
theorem handler_signals_at_most_once (s d : Nat) (w w' : World)
    (hinv : w.priv.restart = 0 → 1 < w.priv.nmsg)
    (h : kinetis_i2c_interrupt s d w = some w') :
    ∃ k, k ≤ 1 ∧ posts w'.trace = posts w.trace + k ∧ w'.priv.wait = w.priv.wait + k := by
  unfold kinetis_i2c_interrupt at h
  by_cases harb : s &&& I2C_S_ARBL ≠ 0
  · rw [if_pos harb] at h
    simp only [Option.some.injEq] at h
    subst h
    have h1 := signalled_putreg8 (I2C_S_IICIF ||| I2C_S_ARBL) Reg.S w
    have h2 : signalled 0 (putreg8 (I2C_S_IICIF ||| I2C_S_ARBL) Reg.S w)
        { putreg8 (I2C_S_IICIF ||| I2C_S_ARBL) Reg.S w with
          priv := { (putreg8 (I2C_S_IICIF ||| I2C_S_ARBL) Reg.S w).priv with
            state := STATE_ARBITRATION_ERROR } } := ⟨rfl, rfl⟩
    exact ⟨1, le_refl _, signalled_trans h1 (signalled_trans h2 (signalled_stop _))⟩
  · rw [if_neg harb] at h
    simp only at h
    have h1 := signalled_putreg8 I2C_S_IICIF Reg.S w
    have hp : (putreg8 I2C_S_IICIF Reg.S w).priv = w.priv := rfl
    by_cases htx : (putreg8 I2C_S_IICIF Reg.S w).c1 &&& I2C_C1_TX ≠ 0
    · rw [if_pos htx] at h
      by_cases hnak : s &&& I2C_S_RXAK ≠ 0
      · rw [if_pos hnak] at h
        simp only [Option.some.injEq] at h
        subst h
        have h2 : signalled 0 (putreg8 I2C_S_IICIF Reg.S w)
            { putreg8 I2C_S_IICIF Reg.S w with
              priv := { (putreg8 I2C_S_IICIF Reg.S w).priv with state := STATE_NAK } } :=
          ⟨rfl, rfl⟩
        exact ⟨1, le_refl _, signalled_trans h1 (signalled_trans h2 (signalled_stop _))⟩
      · rw [if_neg hnak] at h
        simp only [Option.bind_eq_some] at h
        obtain ⟨msg, _, h⟩ := h
        by_cases hwr : I2C_M_READ &&& msg.flags = 0
        · rw [if_pos hwr] at h
          obtain ⟨k, hk, h2⟩ := signalled_tx_write _ msg _ w' (by rw [hp]; exact hinv) h
          have h3 := signalled_trans h1 h2
          rw [Nat.zero_add] at h3
          exact ⟨k, hk, h3⟩
        · rw [if_neg hwr] at h
          simp only [Option.some.injEq] at h
          subst h
          exact ⟨0, by omega, signalled_trans h1 (signalled_tx_read d msg _)⟩
    · rw [if_neg htx] at h
      simp only [Option.bind_eq_some] at h
      obtain ⟨msg, _, h⟩ := h
      obtain ⟨k, hk, h2⟩ := signalled_rx d _ msg _ w' h
      have h3 := signalled_trans h1 h2
      rw [Nat.zero_add] at h3
      exact ⟨k, hk, h3⟩

/-- Claim C23 at the acknowledgement of the last byte of a one-byte write, the
last message of the call: the handler stops the bus and signals once. -/
theorem handler_signals_at_most_once_witness :
    (sample_write_pushed.priv.restart = 0 → 1 < sample_write_pushed.priv.nmsg) ∧
    (∃ w', kinetis_i2c_interrupt 0x80 0 sample_write_pushed = some w' ∧ posts w'.trace = 1) ∧
    ∃ k, k ≤ 1 ∧
      posts ((kinetis_i2c_interrupt 0x80 0 sample_write_pushed).getD sample_world).trace =
        posts sample_write_pushed.trace + k ∧
      ((kinetis_i2c_interrupt 0x80 0 sample_write_pushed).getD sample_world).priv.wait =
        sample_write_pushed.priv.wait + k :=
  ⟨by decide, ⟨_, rfl, by decide⟩,
    handler_signals_at_most_once 0x80 0 sample_write_pushed _ (by decide) (by decide)⟩

/-- The hypothesis of claim C23 is needed: with the restart flag clear on the
last message (restart = 0, nmsg = 1) the acknowledgement of the last byte of a
write makes the chain walker stop the bus and signal, and the fast path then
pushes the byte behind the message (the buffer here has room for it) and
signals again. -/
theorem double_signal_without_following_message :
    (kinetis_i2c_interrupt 0x80 0
        { sample_write_pushed with
          priv := { sample_write_pushed.priv with restart := 0 },
          mem := [{ sample_write with buffer := [0xA5, 0x5A] }] }).map
      (fun x => (posts x.trace, x.priv.wait)) = some (2, 2) := by
  decide

/-- Claim C24: the cursor `wrcnt` is incremented modulo 2^16 and compared with
a length that is a wider integer.  Take a device in transmit mode on the only
message of a call (nmsg = 1, restart set), a write of length `L` with at least
`L` bytes in its buffer, with the cursor at 0.  (1) Completion is detected
after exactly `L` data bytes - `L` acknowledged interrupts push one byte each
and the next one invokes the chain walker - if and only if `L <= 65535`.
(2) For `L >= 65536`: after any number of acknowledged interrupts the cursor is
that number modulo 65536 and differs from the length, the message count is
unchanged and no completion has been signalled; after 65536 of them the device
is in its initial state again, cursor 0, with bytes 0..65535 pushed; and the
next acknowledged interrupt pushes the byte at index 0 again. -/
theorem write_completion_iff_cursor_fits (L : Nat) (w : World) (msg : i2c_msg_s)
    (hmsg : w.mem[w.priv.msgs]? = some msg)
    (hwr : I2C_M_READ &&& msg.flags = 0)
    (htx : w.c1 &&& I2C_C1_TX ≠ 0)
    (hlen : msg.length = L)
    (hcap : L ≤ msg.buffer.length)
    (hcur : w.priv.wrcnt = 0)
    (hn : w.priv.nmsg = 1)
    (hr : w.priv.restart ≠ 0) :
    (completes_after L w ↔ L ≤ 65535) ∧
    (65536 ≤ L →
      (∀ acks : List Event, (∀ e ∈ acks, acked e) →
        ∃ x, deliver_all acks w = some x ∧ x.priv.wrcnt = acks.length % 65536 ∧
          (x.priv.wrcnt : Int) ≠ msg.length ∧ x.priv.nmsg = 1 ∧
          posts x.trace = posts w.trace) ∧
      (∀ acks : List Event, acks.length = 65536 → (∀ e ∈ acks, acked e) →
        deliver_all acks w = some
          { w with trace := w.trace ++ push_actions w.priv.msgs 0 (msg.buffer.take 65536) }) ∧
      (∀ (acks : List Event) (s d v : Nat), acks.length = 65536 → (∀ e ∈ acks, acked e) →
        acked (Event.irq s d) → msg.buffer[0]? = some v →
        deliver_all (acks ++ [Event.irq s d]) w = some
          { w with
            priv := { w.priv with wrcnt := 1 },
            trace := w.trace ++ push_actions w.priv.msgs 0 (msg.buffer.take 65536) ++
              [Action.putreg8 I2C_S_IICIF Reg.S, Action.load w.priv.msgs 0,
               Action.putreg8 v Reg.D] })) := by
  have hwrap : 65536 ≤ L → ∀ acks : List Event, (∀ e ∈ acks, acked e) →
      ∃ x, deliver_all acks w = some x ∧
        x.priv = { w.priv with wrcnt := acks.length % 65536 } ∧
        x.mem = w.mem ∧ x.c1 = w.c1 ∧ posts x.trace = posts w.trace := by
    intro hL acks hacks
    obtain ⟨x, hx, hp, hm, hc, hpo⟩ := deliver_all_wrapping acks w msg hacks hmsg hwr htx
      (by rw [hlen]; exact_mod_cast hL) (by omega) (by omega)
    rw [hcur, Nat.zero_add] at hp
    exact ⟨x, hx, hp, hm, hc, hpo⟩
  have hround : 65536 ≤ L → ∀ acks : List Event, acks.length = 65536 →
      (∀ e ∈ acks, acked e) →
      deliver_all acks w = some
        { w with trace := w.trace ++ push_actions w.priv.msgs 0 (msg.buffer.take 65536) } := by
    intro hL acks hal hacks
    have hbl : (msg.buffer.take 65536).length = 65536 := by
      rw [List.length_take]
      omega
    have h := deliver_all_pushes (msg.buffer.take 65536) acks w msg (by rw [hal, hbl]) hacks
      hmsg hwr htx (by rw [hcur]; exact ⟨msg.buffer.drop 65536, List.take_append_drop _ _⟩)
      (fun i _ h2 => by rw [hcur, hbl] at h2; rw [hlen]; omega)
      (by omega) (by rw [hbl]; omega)
    rw [h, hbl, hcur]
    have e : w.priv = { w.priv with wrcnt := (0 + 65536) % 65536 } := by
      have : (0 + 65536) % 65536 = w.priv.wrcnt := by rw [hcur]
      rw [this]
    rw [← e]
  refine ⟨⟨?_, ?_⟩, fun hL => ⟨?_, hround hL, ?_⟩⟩
  · intro hdone
    by_contra hbig
    have hL : 65536 ≤ L := by omega
    have hacks : ∀ e ∈ List.replicate L sample_ack, acked e := by
      intro e he
      rw [List.eq_of_mem_replicate he]
      decide
    obtain ⟨x, bytes, hx, _, _, hlast⟩ :=
      hdone (List.replicate L sample_ack) (List.length_replicate _ _) hacks
    obtain ⟨x', hx', hp, hm, hc, _⟩ := hwrap hL _ hacks
    rw [hx] at hx'
    cases hx'
    have hlt : x.priv.wrcnt < 65536 := by
      rw [hp]
      exact Nat.mod_lt _ (by norm_num)
    have hmx : x.mem[x.priv.msgs]? = some msg := by
      rw [hm, hp]
      exact hmsg
    have hb : x.priv.wrcnt < msg.buffer.length := by omega
    have hstep := interrupt_push 0x80 0 _ x msg (by decide) hmx hwr (by rw [hc]; exact htx)
      (by rw [hlen]; omega) (List.getElem?_eq_getElem hb)
    have hl := hlast 0x80 0 (by decide)
    rw [hstep] at hl
    have h1 := congrArg (fun o : Option World => o.map fun y => y.priv.nmsg) hl
    simp only [Option.map_some'] at h1
    have h2 := (nextmsg_effect (putreg8 I2C_S_IICIF Reg.S x)
      (by show 1 ≤ x.priv.nmsg; rw [hp]; show 1 ≤ w.priv.nmsg; omega)).2.2.2.1
    have h3 : (putreg8 I2C_S_IICIF Reg.S x).priv.nmsg = 1 := by
      show x.priv.nmsg = 1
      rw [hp]
      exact hn
    have h4 : x.priv.nmsg = 1 := by
      rw [hp]
      exact hn
    simp only [Option.some.injEq] at h1
    omega
  · intro hfit acks hal hacks
    have hbl : (msg.buffer.take L).length = L := by
      rw [List.length_take]
      omega
    have h := deliver_all_pushes (msg.buffer.take L) acks w msg (by rw [hal, hbl]) hacks
      hmsg hwr htx (by rw [hcur]; exact ⟨msg.buffer.drop L, List.take_append_drop _ _⟩)
      (fun i _ h2 => by rw [hcur, hbl] at h2; rw [hlen]; omega)
      (by omega) (by rw [hbl]; omega)
    rw [hbl, hcur, Nat.zero_add, Nat.mod_eq_of_lt (by omega)] at h
    refine ⟨_, msg.buffer.take L, h, hbl, rfl, fun s d hack => ?_⟩
    exact interrupt_write_done s d _ msg hack hmsg hwr htx (by rw [hlen]) hr
  · intro acks hacks
    obtain ⟨x, hx, hp, _, _, hpo⟩ := hwrap hL acks hacks
    have hlt : acks.length % 65536 < 65536 := Nat.mod_lt _ (by norm_num)
    refine ⟨x, hx, by rw [hp], ?_, by rw [hp]; exact hn, hpo⟩
    rw [hp, hlen]
    show ((acks.length % 65536 : Nat) : Int) ≠ (L : Int)
    omega
  · intro acks s d v hal hacks hack hv
    rw [deliver_all_append, hround hL acks hal hacks, Option.some_bind]
    show (kinetis_i2c_interrupt s d _).bind (deliver_all []) = _
    have hstep := interrupt_push s d v
      { w with trace := w.trace ++ push_actions w.priv.msgs 0 (msg.buffer.take 65536) } msg
      hack hmsg hwr htx (by show (w.priv.wrcnt : Int) ≠ msg.length; rw [hcur, hlen]; omega)
      (by show msg.buffer[w.priv.wrcnt]? = some v; rw [hcur]; exact hv)
    rw [hstep, Option.some_bind]
    simp [deliver_all, hcur]

/-- Claim C24 at a write of one byte (completion is detected after one byte)
and at a write of 65536 bytes (it is not, and the cursor wraps). -/
theorem write_completion_iff_cursor_fits_witness :
    ((addressed sample_write).mem[(addressed sample_write).priv.msgs]? = some sample_write ∧
      sample_write.length = (1 : Nat) ∧
      (completes_after 1 (addressed sample_write) ↔ 1 ≤ 65535)) ∧
    ((addressed sample_write_65536).mem[(addressed sample_write_65536).priv.msgs]? =
        some sample_write_65536 ∧
      sample_write_65536.length = (65536 : Nat) ∧
      (completes_after 65536 (addressed sample_write_65536) ↔ 65536 ≤ 65535) ∧
      ∀ acks : List Event, acks.length = 65536 → (∀ e ∈ acks, acked e) →
        deliver_all acks (addressed sample_write_65536) = some
          { addressed sample_write_65536 with
            trace := (addressed sample_write_65536).trace ++
              push_actions (addressed sample_write_65536).priv.msgs 0
                (sample_write_65536.buffer.take 65536) }) :=
  ⟨⟨rfl, rfl,
      (write_completion_iff_cursor_fits 1 (addressed sample_write) sample_write rfl
        (by decide) (by decide) rfl (by decide) rfl rfl (by decide)).1⟩,
    ⟨rfl, rfl,
      (write_completion_iff_cursor_fits 65536 (addressed sample_write_65536)
        sample_write_65536 rfl (by decide) (by decide) rfl
        (by show 65536 ≤ (List.replicate 65536 0x5A).length; rw [List.length_replicate])
        rfl rfl (by decide)).1,
      ((write_completion_iff_cursor_fits 65536 (addressed sample_write_65536)
        sample_write_65536 rfl (by decide) (by decide) rfl
        (by show 65536 ≤ (List.replicate 65536 0x5A).length; rw [List.length_replicate])
        rfl rfl (by decide)).2 (le_refl _)).2.1⟩⟩

end Kinetis
